import Mathlib

/-!
# Ecowitt firmware updater: packet codec, reply interpreter, firmware transfer session

A shallow embedding of `ecowitt-firmware-updater.c`.

Conventions of the embedding:

* a byte (`uchar`) is a `Nat` below 256; where the C code stores an `int` expression into a
  `uchar` the model reduces it modulo 256 explicitly;
* a C `int` that only counts or indexes is an `Int` or a `Nat` (the counts stay far below
  2^31 for the buffers and images at hand, no overflow is modelled);
* a byte buffer is a `List Nat`; a read outside of the list is undefined behaviour in C and is a
  distinct outcome (`out_of_bounds`) in the model;
* output to `stdout`/`stderr` is kept as a list of events, one per message that is printed
  outside of `debug` mode (the global `debug` and `verbose` flags are taken to be 0, they only add
  diagnostic output);
* the host is little-endian: `htonl`, `ntohl` and `ntohs` reverse the order of the bytes;
* `do_firmware_service` is given twice: with a client that takes every write in full, and, as
  `do_firmware_service_on_socket`, on a socket whose calls of `write` can fall short or meet a
  broken connection.
-/

namespace Ecowitt

/-! ## Commands (`CMD_LT`) -/

/-- Command `CMD_READ_SATION_MAC` (sic): read the MAC address. -/
abbrev CMD_READ_SATION_MAC : Nat := 0x26

/-- Command `CMD_WRITE_UPDATE`: firmware upgrade. -/
abbrev CMD_WRITE_UPDATE : Nat := 0x43

/-- Command `CMD_READ_FIRMWARE_VERSION`: read the current firmware version. -/
abbrev CMD_READ_FIRMWARE_VERSION : Nat := 0x50

/-! ## `build_command_packet` -/

/-- The loop `while (datalen-- > 0)` of `build_command_packet`: every data byte is appended to
the packet and added to the 8-bit checksum. Returns the packet and the checksum. -/
def build_data_loop : List Nat → List Nat → Nat → List Nat × Nat
  | [], packet, checksum => (packet, checksum)
  | c :: data, packet, checksum =>
    build_data_loop data (packet ++ [c]) (((checksum % 256) + c) % 256)

/-- The function `build_command_packet (command, data, datalen, packet)`, with
`datalen = data.length`. Returns the bytes written to `packet` and the returned total length. -/
def build_command_packet (command : Nat) (data : List Nat) : List Nat × Int :=
  -- header FF FF, then the command byte, which starts the checksum
  let packet := [0xff, 0xff, command]
  let checksum := command
  -- `size = 1 + 1 + datalen + 1`, stored in a `uchar`
  let size := (1 + 1 + data.length + 1) % 256
  let packet := packet ++ [size]
  let checksum := ((checksum % 256) + size) % 256
  let r := build_data_loop data packet checksum
  let packet := r.1 ++ [r.2]
  (packet, (packet.length : Int))

/-! ## `interpret_reply_packet` -/

/-- Messages printed by `interpret_reply_packet` and its helpers (outside of `debug` mode). -/
inductive ReplyEvent
  /-- Message "first two bytes are not ff ff: b0 b1". -/
  | header_error (b0 b1 : Nat)
  /-- Message "checksum error: specified .., computed ..". -/
  | checksum_error (specified computed : Nat)
  /-- Message "Received command .. (data length=..) in response to ..". -/
  | command_mismatch (command : Nat) (length : Int) (expectedcommand : Nat)
  /-- Message "MAC Address [..]", with the six bytes of `macaddress`. -/
  | mac_address (macaddress : List Nat)
  /-- Message "Firmware Version [..]", with the first `version_length` bytes of
  `version_buffer` (the `%s` conversion shows them up to the first zero byte). -/
  | firmware_version (version_buffer : List Nat)
  /-- Message "UNHANDLED CASE: command=.. / status = .., size = ..", followed by the dump. -/
  | unhandled_case (command status size : Nat)
  /-- Message "*** LENGTH IS .. - should be 0 (command ..). ***". -/
  | length_nonzero (length : Int) (command : Nat)
  deriving DecidableEq, Repr

/-- How a call of `interpret_reply_packet` ends. -/
inductive ReplyOutcome
  /-- `return r` -/
  | returned (r : Int)
  /-- `abort ()` -/
  | aborted
  /-- a read outside of the buffer -/
  | out_of_bounds
  deriving DecidableEq, Repr

/-- Messages and outcome of one call of `interpret_reply_packet`. -/
structure Reply where
  log : List ReplyEvent
  outcome : ReplyOutcome
  deriving DecidableEq, Repr

/-- Read of `packet[i]` for an `int` index. -/
def read_at (packet : List Nat) (i : Int) : Option Nat :=
  if i < 0 then none else packet[i.toNat]?

/-- Macro `GET_BYTE (VAR, PTR, LEN)`: the byte at `ptr`, the advanced pointer and the
decremented length. -/
def GET_BYTE (packet : List Nat) (ptr : Nat) (len : Int) : Option (Nat × Nat × Int) :=
  match packet[ptr]? with
  | some v => some (v, ptr + 1, len - 1)
  | none => none

/-- Macro `GET_BUFFER (VAR, N, PTR, LEN)`: the `n` bytes from `ptr` on, the advanced pointer and
the decremented length. -/
def GET_BUFFER (n : Nat) (packet : List Nat) (ptr : Nat) (len : Int) :
    Option (List Nat × Nat × Int) :=
  if ptr + n ≤ packet.length then some ((packet.drop ptr).take n, ptr + n, len - (n : Int))
  else none

/-- The function `interpret_read_station_mac (command, ptr, length)`: the printed message and the
number of bytes consumed. -/
def interpret_read_station_mac (packet : List Nat) (ptr : Nat) (length : Int) :
    Option (ReplyEvent × Int) :=
  let original_length := length
  match GET_BUFFER 6 packet ptr length with
  | some (macaddress, _, length) => some (.mac_address macaddress, original_length - length)
  | none => none

/-- The function `interpret_read_firmware_version (command, ptr, length)`: the printed message
and the number of bytes consumed. -/
def interpret_read_firmware_version (packet : List Nat) (ptr : Nat) (length : Int) :
    Option (ReplyEvent × Int) :=
  let original_length := length
  match GET_BYTE packet ptr length with
  | some (version_length, ptr, length) =>
    match GET_BUFFER version_length packet ptr length with
    | some (version_buffer, _, length) =>
      some (.firmware_version version_buffer, original_length - length)
    | none => none
  | none => none

/-- The loop `for (i = 2; i < length-1; i++) computed = (computed + packet[i]) & 0x00ff`, given
the number of iterations left, `i` and `computed`. -/
def checksum_loop (packet : List Nat) : Nat → Nat → Nat → Option Nat
  | 0, _, computed => some computed
  | k + 1, i, computed =>
    match packet[i]? with
    | some c => checksum_loop packet k (i + 1) ((computed + c) % 256)
    | none => none

/-- The checksum that `interpret_reply_packet` recomputes: the 8-bit sum of the bytes
`packet[2] .. packet[length-2]`. -/
def computed_checksum (packet : List Nat) (length : Int) : Option Nat :=
  checksum_loop packet (length - 1 - 2).toNat 2 0

/-- The checksum verification of `interpret_reply_packet`: the transmitted checksum
`packet[length-1]` against the recomputed one; gives the message printed (none when they
agree). -/
def verify_checksum (packet : List Nat) (length : Int) : Option (List ReplyEvent) :=
  match read_at packet (length - 1), computed_checksum packet length with
  | some cksum, some computed =>
    if computed ≠ cksum then some [.checksum_error cksum computed] else some []
  | _, _ => none

/-- The end of `interpret_reply_packet`: all bytes of the response must have been consumed. -/
def check_consumed (log : List ReplyEvent) (length : Int) (command : Nat) : Reply :=
  if length ≠ 0 then ⟨log ++ [.length_nonzero length command], .aborted⟩
  else ⟨log, .returned 0⟩

/-- The dispatch on the command in `interpret_reply_packet`; `ptr` is 4 here and `length` has
been reduced by the header, command, size and checksum bytes. -/
def decode_payload (packet : List Nat) (command size : Nat) (length : Int)
    (log : List ReplyEvent) : Reply :=
  if command = CMD_READ_SATION_MAC then
    match interpret_read_station_mac packet 4 length with
    | some (ev, r) => check_consumed (log ++ [ev]) (if r > 0 then length - r else length) command
    | none => ⟨log, .out_of_bounds⟩
  else if command = CMD_READ_FIRMWARE_VERSION then
    match interpret_read_firmware_version packet 4 length with
    | some (ev, r) => check_consumed (log ++ [ev]) (if r > 0 then length - r else length) command
    | none => ⟨log, .out_of_bounds⟩
  else if command = CMD_WRITE_UPDATE then
    match GET_BYTE packet 4 length with
    | some (status, _, _) => if status = 0 then ⟨log, .returned 0⟩ else ⟨log, .returned (-1)⟩
    | none => ⟨log, .out_of_bounds⟩
  else
    match GET_BYTE packet 4 length with
    | some (status, _, _) => ⟨log ++ [.unhandled_case command status size], .aborted⟩
    | none => ⟨log, .out_of_bounds⟩

/-- The function `interpret_reply_packet (expectedcommand, packet, length)`. -/
def interpret_reply_packet (expectedcommand : Nat) (packet : List Nat) (length : Int) : Reply :=
  match packet[0]?, packet[1]? with
  | some b0, some b1 =>
    if b0 ≠ 0xff ∨ b1 ≠ 0xff then ⟨[.header_error b0 b1], .returned (-1)⟩
    else
      match verify_checksum packet length with
      | some log =>
        -- `ptr += 2; length -= 2; command = *ptr++; length--`
        match packet[2]? with
        | some command =>
          let log :=
            if expectedcommand ≠ command then
              log ++ [.command_mismatch command (length - 3) expectedcommand]
            else log
          -- `size = *ptr++; length--`, and `length--` for the checksum byte
          match packet[3]? with
          | some size => decode_payload packet command size (length - 5) log
          | none => ⟨log, .out_of_bounds⟩
        | none => ⟨log, .out_of_bounds⟩
      | none => ⟨[], .out_of_bounds⟩
  | _, _ => ⟨[], .out_of_bounds⟩

/-! ## Reading from the socket -/

/-- Result of one call `read (fd, cbuf, 1)` on the socket that delivers data: a byte, or a read
error. The input of the socket is the list of these results; when the list is used up the peer has
closed the connection and `read` returns 0. -/
inductive SockRead
  | byte (c : Nat)
  | error
  deriving DecidableEq, Repr

/-- Size `BUFSIZ` of the request buffer `line` (the value in the `<stdio.h>` of glibc). -/
abbrev BUFSIZ : Nat := 8192

/-- The loop of `read_until_null`, given `remain`, the socket input and the bytes stored in
`buf` so far (`count` is their number). Returns the returned value, the contents stored into
`buf`, and the rest of the socket input. -/
def read_until_null_loop : Nat → List SockRead → List Nat → Int × List Nat × List SockRead
  | 0, fd, buf => ((buf.length : Int), buf, fd)
  | remain + 1, fd, buf =>
    match fd with
    | [] => (0, buf ++ [0], [])
    | SockRead.error :: fd => (-1, buf ++ [0], fd)
    | SockRead.byte c :: fd =>
      if c = 0 then (((buf ++ [c]).length : Int), buf ++ [c], fd)
      else read_until_null_loop remain fd (buf ++ [c])

/-- The function `read_until_null (fd, buf, bufsiz)`: the number of bytes read including the
null (0 when the connection is closed first, -1 on a read error), the bytes stored into `buf`,
and the rest of the socket input. -/
def read_until_null (fd : List SockRead) (bufsiz : Nat) : Int × List Nat × List SockRead :=
  read_until_null_loop bufsiz fd []

/-! ## `do_firmware_service` -/

/-- State `STATE_BASE`: waiting to get "user1.bin" or "user2.bin". -/
abbrev STATE_BASE : Nat := 0
/-- State `GOT_USER1`: we have gotten "user1.bin". -/
abbrev GOT_USER1 : Nat := 1
/-- State `GOT_USER2`: we have gotten "user2.bin". -/
abbrev GOT_USER2 : Nat := 2
/-- State `GOT_START`: we have gotten "start". -/
abbrev GOT_START : Nat := 3
/-- State `GOT_CONTINUE`: we have gotten "continue". -/
abbrev GOT_CONTINUE : Nat := 4
/-- State `GOT_END`: we have gotten "end". -/
abbrev GOT_END : Nat := 5

/-- The ten bytes of the string literal "user1.bin\0". -/
abbrev TOKEN_USER1 : List Nat := [117, 115, 101, 114, 49, 46, 98, 105, 110, 0]
/-- The ten bytes of the string literal "user2.bin\0". -/
abbrev TOKEN_USER2 : List Nat := [117, 115, 101, 114, 50, 46, 98, 105, 110, 0]
/-- The six bytes of the string literal "start\0". -/
abbrev TOKEN_START : List Nat := [115, 116, 97, 114, 116, 0]
/-- The nine bytes of the string literal "continue\0". -/
abbrev TOKEN_CONTINUE : List Nat := [99, 111, 110, 116, 105, 110, 117, 101, 0]
/-- The four bytes of the string literal "end\0". -/
abbrev TOKEN_END : List Nat := [101, 110, 100, 0]

/-- An open firmware file: its contents and the current file offset. -/
structure FwFile where
  data : List Nat
  offset : Nat
  deriving DecidableEq, Repr

/-- The local variables of `do_firmware_service` that live across iterations of its loop.
`fwfd = none` stands for the initial value -1. -/
structure Session where
  fwfd : Option FwFile
  packets_sent : Int
  bytes_sent : Int
  currstate : Nat
  nextstate : Nat
  deriving DecidableEq, Repr

/-- How one iteration of the loop of `do_firmware_service` ends. `written` lists the buffers
passed to `safe_write` during the iteration, which is taken to write each of them in full. -/
inductive Step
  /-- the end of the loop body is reached -/
  | next (s : Session) (written : List (List Nat))
  /-- `break` -/
  | broke (s : Session) (written : List (List Nat))
  /-- `return r` -/
  | returned (r : Int)
  /-- `exit (code)` -/
  | exited (code : Nat)
  deriving DecidableEq, Repr

/-- The step "figure out what the client said to us": the value of `what`, or `none` where the code prints
"received unexpected .. from the client" and calls `exit (7)`. -/
def decode_token (line : List Nat) : Option Nat :=
  let linelen := line.length
  if linelen = 10 ∧ line.take 10 = TOKEN_USER1 then some GOT_USER1
  else if linelen = 10 ∧ line.take 10 = TOKEN_USER2 then some GOT_USER2
  else if linelen = 6 ∧ line.take 6 = TOKEN_START then some GOT_START
  else if linelen = 9 ∧ line.take 9 = TOKEN_CONTINUE then some GOT_CONTINUE
  else if linelen = 4 ∧ line.take 4 = TOKEN_END then some GOT_END
  else none

/-- The four bytes written by `safe_write (sock, (uchar *)&size, 4)` for
`size = htonl (st_size)`: the bytes of the 32-bit result of `htonl` in memory order, with which
the variable `size` starts on a little-endian or a 32-bit host. -/
def htonl_bytes (st_size : Nat) : List Nat :=
  let v := st_size % 2 ^ 32
  [v / 2 ^ 24 % 256, v / 2 ^ 16 % 256, v / 2 ^ 8 % 256, v % 256]

/-- The chain `if (currstate == STATE_BASE) .. else ..` of the loop body, after
`nextstate = currstate`. `fd_user1` is the contents of the first image and `fd_user2` the
contents of the second one (`none` for a descriptor below zero); both descriptors are freshly
opened, at offset 0. `fstat` is taken to succeed on them. -/
def service_transition (fd_user1 : List Nat) (fd_user2 : Option (List Nat)) (s : Session)
    (what : Nat) : Step :=
  if s.currstate = STATE_BASE then
    if what = GOT_USER1 then
      .next { s with fwfd := some ⟨fd_user1, 0⟩, nextstate := GOT_USER1 }
        [htonl_bytes fd_user1.length]
    else if what = GOT_USER2 then
      match fd_user2 with
      | none => .returned (-1)
      | some image2 =>
        .next { s with fwfd := some ⟨image2, 0⟩, nextstate := GOT_USER2 }
          [htonl_bytes image2.length]
    else .exited 7
  else if s.currstate = GOT_USER1 ∨ s.currstate = GOT_USER2 then
    if what = GOT_START then .next { s with nextstate := GOT_START, packets_sent := 0 } []
    else .exited 9
  else if s.currstate = GOT_START ∨ s.currstate = GOT_CONTINUE then
    if what = GOT_CONTINUE then .next { s with nextstate := GOT_CONTINUE } []
    else if what = GOT_END then .next { s with nextstate := GOT_END } []
    else .exited 10
  else if s.currstate = GOT_END then .exited 11
  else .exited 12

/-- The block `if (what == GOT_START || what == GOT_CONTINUE)` of the loop body: read the next
block of at most 1024 bytes from the file and send it to the client. A `read` on a descriptor
that was never selected fails. -/
def service_send (s : Session) (what : Nat) (written : List (List Nat)) : Step :=
  if what = GOT_START ∨ what = GOT_CONTINUE then
    match s.fwfd with
    | none => .broke s written
    | some f =>
      let fwbuf := (f.data.drop f.offset).take 1024
      let fwlen := fwbuf.length
      let s := { s with fwfd := some { f with offset := f.offset + fwlen } }
      if fwlen = 0 then .next s written
      else
        .next { s with packets_sent := s.packets_sent + 1,
                       bytes_sent := s.bytes_sent + (fwlen : Int) } (written ++ [fwbuf])
  else .next s written

/-- The body of the loop of `do_firmware_service` once a request `line` of `linelen > 0` bytes
has been read. -/
def service_step (fd_user1 : List Nat) (fd_user2 : Option (List Nat)) (s : Session)
    (line : List Nat) : Step :=
  let s := { s with nextstate := s.currstate }
  match decode_token line with
  | none => .exited 7
  | some what =>
    match service_transition fd_user1 fd_user2 s what with
    | .next s written =>
      match service_send s what written with
      | .next s written =>
        .next (if s.nextstate ≠ s.currstate then { s with currstate := s.nextstate } else s)
          written
      | stop => stop
    | stop => stop

/-- How a call of `do_firmware_service` ends. -/
inductive ServiceOutcome
  /-- the loop was left by `break`, the totals `packets_sent` and `bytes_sent` were printed and
  the function returned 0; `closed_before_end` is `some b` when the client closed the
  connection, `b` telling whether the message says " before END" -/
  | finished (packets_sent bytes_sent : Int) (closed_before_end : Option Bool)
  /-- `return r` from inside the loop -/
  | returned (r : Int)
  /-- `exit (code)` -/
  | exited (code : Nat)
  deriving DecidableEq, Repr

/-- The buffers written to the client by a call of `do_firmware_service`, and how it ended. -/
structure ServiceResult where
  written : List (List Nat)
  outcome : ServiceOutcome
  deriving DecidableEq, Repr

/-- The loop `for ( ;; )` of `do_firmware_service`, for at most the given number of
iterations (`none` when they do not suffice). -/
def do_firmware_service_loop (fd_user1 : List Nat) (fd_user2 : Option (List Nat)) :
    Nat → List SockRead → Session → List (List Nat) → Option ServiceResult
  | 0, _, _, _ => none
  | fuel + 1, sock, s, written =>
    match read_until_null sock BUFSIZ with
    | (linelen, line, sock) =>
      if linelen < 0 then some ⟨written, .exited 6⟩
      else if linelen = 0 then
        some ⟨written, .finished s.packets_sent s.bytes_sent (some (s.nextstate != GOT_END))⟩
      else
        match service_step fd_user1 fd_user2 s line with
        | .next s w => do_firmware_service_loop fd_user1 fd_user2 fuel sock s (written ++ w)
        | .broke s w => some ⟨written ++ w, .finished s.packets_sent s.bytes_sent none⟩
        | .returned r => some ⟨written, .returned r⟩
        | .exited code => some ⟨written, .exited code⟩

/-- The local variables of `do_firmware_service` at its start. -/
def initial_session : Session := ⟨none, 0, 0, STATE_BASE, STATE_BASE⟩

/-- The function `do_firmware_service (sock, fd_user1, fd_user2)`, `sock` being the input that
the socket delivers. Every iteration of the loop consumes input or leaves the loop, so
`sock.length + 1` iterations suffice. -/
def do_firmware_service (sock : List SockRead) (fd_user1 : List Nat)
    (fd_user2 : Option (List Nat)) : Option ServiceResult :=
  do_firmware_service_loop fd_user1 fd_user2 (sock.length + 1) sock initial_session []

/-! ## `receive_reply_packet` -/

/-- What the control socket delivers: bytes that arrive together, a pause, or a failure. The
input of the socket is the list of these events in the order of time; when the list is used up
the peer has closed the connection and `read` returns 0. -/
inductive SockEvent
  /-- The bytes `b :: bytes` become available together, within the timeout of one second. -/
  | arrival (b : Nat) (bytes : List Nat)
  /-- Nothing arrives for longer than the timeout of one second. -/
  | stall
  /-- The next `read` fails and returns -1. -/
  | error
  deriving DecidableEq, Repr

/-- A blocking call `read (fd, buf, len)`: the returned value, the bytes stored into `buf`, and
the rest of the socket input. The call waits while nothing arrives, and returns at most the
bytes that have arrived together. -/
def sock_read : List SockEvent → Nat → Int × List Nat × List SockEvent
  | [], _ => (0, [], [])
  | SockEvent.stall :: fd, len => sock_read fd len
  | SockEvent.error :: fd, _ => (-1, [], fd)
  | SockEvent.arrival b bytes :: fd, len =>
    if len = 0 then (0, [], SockEvent.arrival b bytes :: fd)
    else
      match (b :: bytes).drop len with
      | [] => ((bytes.length : Int) + 1, b :: bytes, fd)
      | b1 :: bytes1 => ((len : Int), (b :: bytes).take len, SockEvent.arrival b1 bytes1 :: fd)

/-- The function `timed_read (fd, buf, len, timeout)` for the timeout of one second: the
returned value, the bytes stored into `buf`, and the rest of the socket input. When nothing is
ready within the timeout it stores 0xff into `buf[0]` and returns -2; at the end of the input
`poll` reports the socket readable and `read` returns 0. -/
def timed_read (fd : List SockEvent) (len : Nat) : Int × List Nat × List SockEvent :=
  match fd with
  | SockEvent.stall :: fd => (-2, [0xff], fd)
  | fd => sock_read fd len

/-- The messages with which `receive_reply_packet` returns -1. -/
inductive ReceiveError
  /-- Message "socket read error". -/
  | read_error
  /-- Message that the first byte is not 0xff, with the byte `c`. -/
  | first_byte (c : Nat)
  /-- Message "timeout reading header bytes", with the number of bytes still missing. -/
  | header_timeout (missing : Int)
  /-- Message "size in reply packet is too large for buffer", with `size` and `maxlen`. -/
  | size_too_large (size : Nat) (maxlen : Int)
  /-- Message "timeout reading the rest". -/
  | rest_timeout
  /-- Message "connection closed by remote". -/
  | closed
  deriving DecidableEq, Repr

/-- How a call of `receive_reply_packet` ends. -/
inductive ReceiveOutcome
  /-- The total number of bytes in the packet is returned. -/
  | returned (r : Int)
  /-- A message is printed and -1 is returned. -/
  | failed (e : ReceiveError)
  /-- The call does not return: the loop that reads the header goes on for ever. -/
  | hangs
  deriving DecidableEq, Repr

/-- The end of a call of `receive_reply_packet`: the outcome, the bytes stored into `packet`
from `packet[0]` on (whatever the capacity of the buffer is), and the socket input that has not
been read. -/
structure Received where
  outcome : ReceiveOutcome
  packet : List Nat
  fd : List SockEvent
  deriving DecidableEq, Repr

/-- The first loop of `receive_reply_packet`,
`while ((r = read (fd, &c, 1)) >= 0 && maxlen > 0)`, given `maxlen` (when positive), `c`, the
bytes stored so far and the socket input. Returns `r`, `c`, the bytes stored and the rest of
the input. Every byte stored takes one off `maxlen` and adds one to `total_len`; a `read` that
returns 0 leaves `c` as it was. -/
def scan_loop : Nat → Nat → List Nat → List SockEvent → Int × Nat × List Nat × List SockEvent
  | 0, c, packet, fd =>
    match sock_read fd 1 with
    | (r, bytes, fd) => (r, bytes.headD c, packet, fd)
  | maxlen + 1, c, packet, fd =>
    match sock_read fd 1 with
    | (r, bytes, fd) =>
      if r < 0 then (r, c, packet, fd)
      else if bytes.headD c = 0xff then (r, bytes.headD c, packet ++ [bytes.headD c], fd)
      else scan_loop maxlen (bytes.headD c) (packet ++ [bytes.headD c]) fd

/-- The loop `while (total_len < 4)` of `receive_reply_packet`, `total_len` being the number
of bytes stored. Every iteration that goes on stores at least one byte, so the
`4 - total_len` iterations given at the start suffice. A `timed_read` that returns 0 (the end
of the input) changes nothing, and so does every later one: the loop does not end. Gives the
end of the call, or the bytes stored and the rest of the input when the loop is left. -/
def header_loop : Nat → List Nat → List SockEvent → Received ⊕ (List Nat × List SockEvent)
  | 0, packet, fd => Sum.inr (packet, fd)
  | fuel + 1, packet, fd =>
    if packet.length < 4 then
      match timed_read fd (4 - packet.length) with
      | (r, bytes, fd) =>
        if r < 0 then
          Sum.inl ⟨.failed (.header_timeout (4 - (packet.length : Int))), packet ++ bytes, fd⟩
        else if r = 0 then Sum.inl ⟨.hangs, packet, fd⟩
        else header_loop fuel (packet ++ bytes) fd
    else Sum.inr (packet, fd)

/-- The loop `while (remain > 0)` of `receive_reply_packet`, which reads up to `maxlen` bytes
in every iteration. Every iteration that goes on takes at least one byte off `remain`, so the
`remain` iterations given at the start suffice. At the end the number of bytes stored,
`pptr - packet`, is returned. -/
def rest_loop : Nat → Int → Int → List Nat → List SockEvent → Received
  | 0, _, _, packet, fd => ⟨.returned (packet.length : Int), packet, fd⟩
  | fuel + 1, remain, maxlen, packet, fd =>
    if remain > 0 then
      match timed_read fd maxlen.toNat with
      | (r, bytes, fd) =>
        if r < 0 then ⟨.failed .rest_timeout, packet ++ bytes, fd⟩
        else if r = 0 then ⟨.failed .closed, packet, fd⟩
        else rest_loop fuel (remain - r) maxlen (packet ++ bytes) fd
    else ⟨.returned (packet.length : Int), packet, fd⟩

/-- The function `receive_reply_packet (fd, packet, maxlen)`, `fd` being the input that the
socket delivers. -/
def receive_reply_packet (fd : List SockEvent) (maxlen : Int) : Received :=
  match scan_loop maxlen.toNat 0 [] fd with
  | (r, c, packet, fd) =>
    if r < 0 then ⟨.failed .read_error, packet, fd⟩
    else if c ≠ 0xff then ⟨.failed (.first_byte c), packet, fd⟩
    else
      -- `maxlen` has been decremented once for every byte stored
      let maxlen := maxlen - (packet.length : Int)
      match header_loop (4 - packet.length) packet fd with
      | Sum.inl stop => stop
      | Sum.inr (packet, fd) =>
        -- `size = packet[3]`; four bytes at least are stored here
        let size := packet.getD 3 0
        if (size : Int) > maxlen - 2 then ⟨.failed (.size_too_large size maxlen), packet, fd⟩
        else rest_loop ((size : Int) - 2).toNat ((size : Int) - 2) maxlen packet fd

/-! ## `safe_write` -/

/-- Result of one call `write (fd, bufp, remain)` on a socket. The output side of the socket is
the list of these results in the order of the calls; when the list is used up, every later call
writes all the bytes that it is given. -/
inductive SockWrite
  /-- The call writes `n + 1` bytes, or all the bytes that remain when they are fewer. -/
  | short (n : Nat)
  /-- The call writes nothing and sets `errno` to ENXIO or EPIPE. -/
  | broken
  /-- The call writes nothing and sets `errno` to another value. -/
  | failed
  deriving DecidableEq, Repr

/-- The loop `while (remain > 0)` of `safe_write`, given the results of the calls of `write`,
the bytes of the buffer from `bufp` on (`remain` is their number) and the bytes written so far
(`written` is their number). Returns `written`, the bytes written and the results that are
left. -/
def safe_write_loop : List SockWrite → List Nat → List Nat → Int × List Nat × List SockWrite
  | [], bufp, sent => (((sent ++ bufp).length : Int), sent ++ bufp, [])
  | w :: out, bufp, sent =>
    if bufp.length > 0 then
      match w with
      | SockWrite.short n =>
        safe_write_loop out (bufp.drop (n + 1)) (sent ++ bufp.take (n + 1))
      | SockWrite.broken => ((sent.length : Int), sent, out)
      | SockWrite.failed => safe_write_loop out bufp sent
    else ((sent.length : Int), sent, w :: out)

/-- The function `safe_write (fd, bufp, len)`, `out` being the results of the calls of `write`
on `fd`: the returned value `written`, the bytes written, and the results that are left. -/
def safe_write (out : List SockWrite) (bufp : List Nat) (len : Int) :
    Int × List Nat × List SockWrite :=
  safe_write_loop out (bufp.take len.toNat) []

/-! ## `read_station_mac`, `read_firmware_version`, `write_update` -/

/-- How a call of `read_station_mac`, `read_firmware_version` or `write_update` ends. -/
inductive ControlOutcome
  /-- The value `r` is returned. -/
  | returned (r : Int)
  /-- The function `interpret_reply_packet` has called `abort ()`. -/
  | aborted
  /-- The function `interpret_reply_packet` has read a byte of `response` that was not
  stored. -/
  | out_of_bounds
  /-- The call of `receive_reply_packet` does not return. -/
  | hangs
  deriving DecidableEq, Repr

/-- The end of a control operation: the outcome, the bytes written to the socket, and the
messages of `interpret_reply_packet`. -/
structure Control where
  outcome : ControlOutcome
  sent : List Nat
  log : List ReplyEvent
  deriving DecidableEq, Repr

/-- The statements that `read_station_mac`, `read_firmware_version` and `write_update` share
after the call of `build_command_packet`: write the request with `safe_write`, read the reply
with `receive_reply_packet` into `response`, whose size is 1024, and interpret it. `out` is the
output side of the socket and `fd` the input that it delivers. -/
def request_reply (command : Nat) (commandpacket : List Nat) (packetlen : Int)
    (out : List SockWrite) (fd : List SockEvent) : Control :=
  match safe_write out commandpacket packetlen with
  | (r, sent, _) =>
    -- `if ((r = safe_write (..)) != packetlen) return r;`
    if r ≠ packetlen then ⟨.returned r, sent, []⟩
    else
      let received := receive_reply_packet fd 1024
      match received.outcome with
      | .hangs => ⟨.hangs, sent, []⟩
      | .failed _ => ⟨.returned (-1), sent, []⟩
      | .returned r =>
        -- `if ((r = receive_reply_packet (..)) < 0) return r;`
        if r < 0 then ⟨.returned r, sent, []⟩
        else
          let reply := interpret_reply_packet command received.packet r
          match reply.outcome with
          | .returned r => ⟨.returned r, sent, reply.log⟩
          | .aborted => ⟨.aborted, sent, reply.log⟩
          | .out_of_bounds => ⟨.out_of_bounds, sent, reply.log⟩

/-- The function `read_station_mac (sock)`. -/
def read_station_mac (out : List SockWrite) (fd : List SockEvent) : Control :=
  match build_command_packet CMD_READ_SATION_MAC [] with
  | (commandpacket, packetlen) =>
    request_reply CMD_READ_SATION_MAC commandpacket packetlen out fd

/-- The function `read_firmware_version (sock)`. -/
def read_firmware_version (out : List SockWrite) (fd : List SockEvent) : Control :=
  match build_command_packet CMD_READ_FIRMWARE_VERSION [] with
  | (commandpacket, packetlen) =>
    request_reply CMD_READ_FIRMWARE_VERSION commandpacket packetlen out fd

/-- The function `ntohl` on a little-endian host: the four bytes of a 32-bit value in the
reverse order. -/
def ntohl (netlong : Nat) : Nat :=
  let v := netlong % 2 ^ 32
  v % 256 * 2 ^ 24 + v / 2 ^ 8 % 256 * 2 ^ 16 + v / 2 ^ 16 % 256 * 2 ^ 8 + v / 2 ^ 24 % 256

/-- The function `ntohs` on a little-endian host: the two bytes of a 16-bit value in the
reverse order. The argument is converted to 16 bits. -/
def ntohs (netshort : Nat) : Nat :=
  let v := netshort % 2 ^ 16
  v % 256 * 2 ^ 8 + v / 2 ^ 8 % 256

/-- The request of `write_update`: the contents of `databuf` and the call of
`build_command_packet`. `s_addr` is the field of `addr` and `port` the port in network byte
order; `(x >> k) & 0xff` is written `x / 2 ^ k % 256`. -/
def write_update_request (s_addr port : Nat) : List Nat × Int :=
  -- the four bytes of the address, highest byte first
  let haddr := ntohl s_addr
  let databuf := [haddr / 2 ^ 24 % 256, haddr / 2 ^ 16 % 256, haddr / 2 ^ 8 % 256, haddr % 256]
  -- the two bytes of the port, high byte first
  let hport := ntohs port
  let databuf := databuf ++ [hport / 2 ^ 8 % 256, hport % 256]
  build_command_packet CMD_WRITE_UPDATE databuf

/-- The function `write_update (sock, addr, port)`. -/
def write_update (out : List SockWrite) (fd : List SockEvent) (s_addr port : Nat) : Control :=
  match write_update_request s_addr port with
  | (commandpacket, packetlen) =>
    request_reply CMD_WRITE_UPDATE commandpacket packetlen out fd

/-! ## `do_firmware_service` when the writes to the client can fail -/

/-- How a call of `do_firmware_service` ends when the writes to the client can fail. -/
inductive SocketEnd
  /-- The call ends in one of the ways of `ServiceOutcome`; `written` holds the bytes that
  each call of `safe_write` has written. -/
  | ended (result : ServiceResult)
  /-- A `write` to the client, which has disconnected, raises the signal SIGPIPE and the
  process is terminated: the call does not return. `written` holds the bytes written up to
  then. -/
  | sigpipe (written : List (List Nat))
  deriving DecidableEq, Repr

/-- The calls `safe_write (sock, .., ..)` of one iteration of the loop of
`do_firmware_service`, for the buffers `bufs` in order, `out` being the results of the calls of
`write` on the socket. The loop does not look at the value that `safe_write` returns. A
`safe_write` that gives up has met EPIPE (a socket does not give ENXIO), which comes with the
signal SIGPIPE; the program never sets the disposition of this signal, so unless the process
was started with the signal ignored (`sigpipe_ignored`) it is terminated inside that `write`.
Returns whether the process was terminated, the bytes written by each call, and the results
that are left. -/
def client_writes (sigpipe_ignored : Bool) :
    List SockWrite → List (List Nat) → Bool × List (List Nat) × List SockWrite
  | out, [] => (false, [], out)
  | out, buf :: bufs =>
    match safe_write out buf (buf.length : Int) with
    | (r, sent, out) =>
      if r ≠ (buf.length : Int) ∧ sigpipe_ignored = false then (true, [sent], out)
      else
        match client_writes sigpipe_ignored out bufs with
        | (killed, sents, out) => (killed, sent :: sents, out)

/-- The loop `for ( ;; )` of `do_firmware_service` as `do_firmware_service_loop` gives it,
with the calls of `safe_write` of every iteration made on a socket whose calls of `write` have
the results `out`. -/
def do_firmware_service_loop_on_socket (fd_user1 : List Nat) (fd_user2 : Option (List Nat))
    (sigpipe_ignored : Bool) :
    Nat → List SockRead → List SockWrite → Session → List (List Nat) → Option SocketEnd
  | 0, _, _, _, _ => none
  | fuel + 1, sock, out, s, written =>
    match read_until_null sock BUFSIZ with
    | (linelen, line, sock) =>
      if linelen < 0 then some (.ended ⟨written, .exited 6⟩)
      else if linelen = 0 then
        some (.ended
          ⟨written, .finished s.packets_sent s.bytes_sent (some (s.nextstate != GOT_END))⟩)
      else
        match service_step fd_user1 fd_user2 s line with
        | .next s w =>
          match client_writes sigpipe_ignored out w with
          | (true, sent, _) => some (.sigpipe (written ++ sent))
          | (false, sent, out) =>
            do_firmware_service_loop_on_socket fd_user1 fd_user2 sigpipe_ignored fuel sock out s
              (written ++ sent)
        | .broke s w =>
          match client_writes sigpipe_ignored out w with
          | (true, sent, _) => some (.sigpipe (written ++ sent))
          | (false, sent, _) =>
            some (.ended ⟨written ++ sent, .finished s.packets_sent s.bytes_sent none⟩)
        | .returned r => some (.ended ⟨written, .returned r⟩)
        | .exited code => some (.ended ⟨written, .exited code⟩)

/-- The function `do_firmware_service (sock, fd_user1, fd_user2)` on a socket that delivers
the input `sock` and whose calls of `write` have the results `out`. -/
def do_firmware_service_on_socket (sock : List SockRead) (out : List SockWrite)
    (sigpipe_ignored : Bool) (fd_user1 : List Nat) (fd_user2 : Option (List Nat)) :
    Option SocketEnd :=
  do_firmware_service_loop_on_socket fd_user1 fd_user2 sigpipe_ignored (sock.length + 1) sock out
    initial_session []

/-! ## Vocabulary of the statements -/

/-- The payload shapes that the decoders of `interpret_reply_packet` accept: six bytes for
`CMD_READ_SATION_MAC`, a length byte followed by that many bytes for
`CMD_READ_FIRMWARE_VERSION`, a first byte 0 for `CMD_WRITE_UPDATE`. -/
def reply_shape (command : Nat) (payload : List Nat) : Prop :=
  (command = CMD_READ_SATION_MAC ∧ payload.length = 6) ∨
  (command = CMD_READ_FIRMWARE_VERSION ∧ payload.length = payload.headD 0 + 1) ∨
  (command = CMD_WRITE_UPDATE ∧ payload.head? = some 0)

instance (command : Nat) (payload : List Nat) : Decidable (reply_shape command payload) := by
  unfold reply_shape
  infer_instance

/-- The fields that `interpret_reply_packet` shows for a payload of the accepted shape: the
whole payload as MAC address, the bytes after the length byte as version; nothing is shown for
`CMD_WRITE_UPDATE`, whose status byte decides the returned value. -/
def decoded_fields (command : Nat) (payload : List Nat) : List ReplyEvent :=
  if command = CMD_READ_SATION_MAC then [.mac_address payload]
  else if command = CMD_READ_FIRMWARE_VERSION then [.firmware_version payload.tail]
  else []

/-- The socket input that delivers the given bytes. -/
def sock_bytes (bytes : List Nat) : List SockRead := bytes.map SockRead.byte

/-- The state transition table of the transfer protocol as the specification gives it (not
taken from the code): the next state for a state and a token that the table lists, `none` for
every other pair. The row of `STATE_BASE` and "user2.bin" is listed whether or not a second
image is available. -/
def transition_table (state : Nat) (token : List Nat) : Option Nat :=
  if state = STATE_BASE ∧ token = TOKEN_USER1 then some GOT_USER1
  else if state = STATE_BASE ∧ token = TOKEN_USER2 then some GOT_USER2
  else if (state = GOT_USER1 ∨ state = GOT_USER2) ∧ token = TOKEN_START then some GOT_START
  else if (state = GOT_START ∨ state = GOT_CONTINUE) ∧ token = TOKEN_CONTINUE then
    some GOT_CONTINUE
  else if (state = GOT_START ∨ state = GOT_CONTINUE) ∧ token = TOKEN_END then some GOT_END
  else none

/-- The value of a byte string read as a big-endian (network order) number. -/
def big_endian_value (bytes : List Nat) : Nat :=
  bytes.foldl (fun acc b => acc * 256 + b) 0

/-- The number of chunks of at most 1024 bytes in an image of `size` bytes: ceil(size/1024). -/
def chunk_count (size : Nat) : Nat := (size + 1023) / 1024

/-- The bytes of the image at the offsets `1024 * j` to `1024 * j + 1023`. -/
def image_chunk (image : List Nat) (j : Nat) : List Nat := (image.drop (1024 * j)).take 1024

/-- The input of `continues` requests "continue" followed by `rest`. -/
def continue_requests : Nat → List SockRead → List SockRead
  | 0, rest => rest
  | n + 1, rest => sock_bytes TOKEN_CONTINUE ++ continue_requests n rest

/-- The input from a peer that sends "user1.bin", "start", `continues` times "continue", and
"end", and then closes the connection. -/
def peer_requests (continues : Nat) : List SockRead :=
  sock_bytes TOKEN_USER1 ++ (sock_bytes TOKEN_START ++
    continue_requests continues (sock_bytes TOKEN_END))

/-- The session after `j` chunks of the image have been sent, in state `state`. -/
def session_after (image : List Nat) (j state : Nat) : Session :=
  ⟨some ⟨image, min (1024 * j) image.length⟩, (j : Int),
    ((min (1024 * j) image.length : Nat) : Int), state, state⟩

/-- The socket input in which the given batches of bytes arrive one after the other, each
within the timeout, followed by the input `rest`. A batch is its first byte and the bytes
after it, so that no batch is empty. -/
def arrivals : List (Nat × List Nat) → List SockEvent → List SockEvent
  | [], rest => rest
  | (b, bytes) :: chunks, rest => SockEvent.arrival b bytes :: arrivals chunks rest

/-- The bytes of the given batches, in order. -/
def chunk_bytes : List (Nat × List Nat) → List Nat
  | [] => []
  | (b, bytes) :: chunks => b :: bytes ++ chunk_bytes chunks

/-- Whether a message of `interpret_reply_packet` is the one about the checksum. -/
def is_checksum_error : ReplyEvent → Bool
  | ReplyEvent.checksum_error _ _ => true
  | _ => false

/-- Whether a message of `interpret_reply_packet` is the one about a command that is not the
expected one. -/
def is_command_mismatch : ReplyEvent → Bool
  | ReplyEvent.command_mismatch _ _ _ => true
  | _ => false

/-- The value of the field `s_addr` for the address a.b.c.d on a little-endian host: the field
holds the bytes a, b, c, d in memory, which is the network order. -/
def in_addr_value (a b c d : Nat) : Nat := a + b * 2 ^ 8 + c * 2 ^ 16 + d * 2 ^ 24

/-- The value of the field `sin_port` for the port `P` on a little-endian host: the field holds
the bytes P div 256, P mod 256 in memory, which is the network order. -/
def sin_port_value (P : Nat) : Nat := P / 256 + P % 256 * 2 ^ 8

/-- The socket input that delivers the given request lines one after the other, followed by
the input `rest`. -/
def request_lines : List (List Nat) → List SockRead → List SockRead
  | [], rest => rest
  | line :: lines, rest => sock_bytes line ++ request_lines lines rest

/-- The session and the buffers written once the loop body of `do_firmware_service` has
handled the given request lines one after the other, each of them reaching the end of the loop
body; `none` when one of them leaves the loop. -/
def session_run (fd_user1 : List Nat) (fd_user2 : Option (List Nat)) :
    List (List Nat) → Session → List (List Nat) → Option (Session × List (List Nat))
  | [], s, written => some (s, written)
  | line :: lines, s, written =>
    match service_step fd_user1 fd_user2 s line with
    | Step.next s w => session_run fd_user1 fd_user2 lines s (written ++ w)
    | _ => none

/-! ## Lemmas and theorems -/

theorem build_data_loop_eq (data packet : List Nat) (checksum : Nat) (h : checksum < 256) :
    build_data_loop data packet checksum = (packet ++ data, (checksum + data.sum) % 256) := by
  induction data generalizing packet checksum with
  | nil => simp [build_data_loop, Nat.mod_eq_of_lt h]
  | cons c data ih =>
    rw [build_data_loop, ih _ _ (Nat.mod_lt _ (by norm_num))]
    simp only [List.append_assoc, List.singleton_append, List.sum_cons, Prod.mk.injEq, true_and]
    omega

theorem build_command_packet_eq (command : Nat) (data : List Nat) :
    build_command_packet command data =
      ([0xff, 0xff, command, (data.length + 3) % 256] ++ data ++
          [(command + (data.length + 3) + data.sum) % 256], (data.length : Int) + 5) := by
  unfold build_command_packet
  simp only []
  rw [build_data_loop_eq _ _ _ (Nat.mod_lt _ (by norm_num))]
  have h1 : 1 + 1 + data.length + 1 = data.length + 3 := by omega
  simp only [h1, List.length_append, List.length_cons, List.length_nil, Prod.mk.injEq]
  constructor
  · congr 2
    omega
  · push_cast
    omega

theorem checksum_loop_eq (pre xs post : List Nat) (computed : Nat) (h : computed < 256) :
    checksum_loop (pre ++ xs ++ post) xs.length pre.length computed
      = some ((computed + xs.sum) % 256) := by
  induction xs generalizing pre computed with
  | nil => simp [checksum_loop, Nat.mod_eq_of_lt h]
  | cons x xs ih =>
    have hx : (pre ++ x :: xs ++ post)[pre.length]? = some x := by
      rw [List.append_assoc, List.getElem?_append_right (le_refl _)]
      simp
    have hsplit : pre ++ x :: xs ++ post = (pre ++ [x]) ++ xs ++ post := by simp
    simp only [List.length_cons, checksum_loop, hx]
    rw [hsplit]
    have := ih (pre ++ [x]) ((computed + x) % 256) (Nat.mod_lt _ (by norm_num))
    simp only [List.length_append, List.length_singleton] at this
    rw [this]
    simp only [List.sum_cons, Option.some.injEq]
    omega

/-- The checksum recomputed over a built packet. -/
theorem computed_checksum_build (command : Nat) (data : List Nat) :
    computed_checksum (build_command_packet command data).1 (build_command_packet command data).2
      = some ((command + (data.length + 3) + data.sum) % 256) := by
  rw [build_command_packet_eq]
  unfold computed_checksum
  have hlen : ((data.length : Int) + 5 - 1 - 2).toNat
      = (command :: (data.length + 3) % 256 :: data).length := by
    simp only [List.length_cons]
    omega
  have hpk : [0xff, 0xff, command, (data.length + 3) % 256] ++ data ++
      [(command + (data.length + 3) + data.sum) % 256]
      = [0xff, 0xff] ++ (command :: (data.length + 3) % 256 :: data) ++
        [(command + (data.length + 3) + data.sum) % 256] := by simp
  simp only []
  rw [hlen, hpk]
  have := checksum_loop_eq [0xff, 0xff] (command :: (data.length + 3) % 256 :: data)
    [(command + (data.length + 3) + data.sum) % 256] 0 (by norm_num)
  simp only [List.length_cons, List.length_nil] at this ⊢
  rw [this]
  simp only [List.sum_cons, Option.some.injEq]
  omega

/-- The transmitted checksum of a built packet, as `interpret_reply_packet` reads it. -/
theorem read_at_build_last (command : Nat) (data : List Nat) :
    read_at (build_command_packet command data).1 ((build_command_packet command data).2 - 1)
      = some ((command + (data.length + 3) + data.sum) % 256) := by
  rw [build_command_packet_eq]
  unfold read_at
  have h1 : ¬ ((data.length : Int) + 5 - 1 < 0) := by omega
  have h2 : ((data.length : Int) + 5 - 1).toNat
      = ([0xff, 0xff, command, (data.length + 3) % 256] ++ data).length := by
    simp only [List.length_append, List.length_cons, List.length_nil]
    omega
  simp only [h1, if_false]
  rw [h2, List.getElem?_append_right (le_refl _)]
  simp

theorem verify_checksum_build (command : Nat) (data : List Nat) :
    verify_checksum (build_command_packet command data).1 (build_command_packet command data).2
      = some [] := by
  unfold verify_checksum
  rw [read_at_build_last, computed_checksum_build]
  simp

theorem check_consumed_log (log : List ReplyEvent) (length : Int) (command : Nat)
    (specified computed : Nat)
    (h : ReplyEvent.checksum_error specified computed ∉ log) :
    ReplyEvent.checksum_error specified computed ∉ (check_consumed log length command).log := by
  unfold check_consumed
  split <;> simp [h]

theorem decode_payload_log (packet : List Nat) (command size : Nat) (length : Int)
    (log : List ReplyEvent) (specified computed : Nat)
    (h : ReplyEvent.checksum_error specified computed ∉ log) :
    ReplyEvent.checksum_error specified computed
      ∉ (decode_payload packet command size length log).log := by
  unfold decode_payload interpret_read_station_mac interpret_read_firmware_version
  split
  · split
    · rename_i ev r heq
      apply check_consumed_log
      split at heq
      · simp only [Option.some.injEq, Prod.mk.injEq] at heq
        simp [h, ← heq.1]
      · simp at heq
    · exact h
  · split
    · split
      · rename_i ev r heq
        apply check_consumed_log
        split at heq
        · split at heq
          · simp only [Option.some.injEq, Prod.mk.injEq] at heq
            simp [h, ← heq.1]
          · simp at heq
        · simp at heq
      · exact h
    · split
      · split
        · split <;> exact h
        · exact h
      · split
        · simp [h]
        · exact h

/-- A packet whose checksum verifies makes `interpret_reply_packet` print no checksum error. -/
theorem interpret_log_of_verify (expectedcommand : Nat) (packet : List Nat) (length : Int)
    (hv : verify_checksum packet length = some []) (specified computed : Nat) :
    ReplyEvent.checksum_error specified computed
      ∉ (interpret_reply_packet expectedcommand packet length).log := by
  unfold interpret_reply_packet
  rw [hv]
  split
  · split
    · simp
    · simp only []
      split
      · split
        · apply decode_payload_log
          split <;> simp
        · split <;> simp
      · simp
  · simp

/-- On a built packet the header and the checksum verify and the received command is the
expected one, so `interpret_reply_packet` comes to the dispatch with an empty log. -/
theorem interpret_build_eq (command : Nat) (data : List Nat) :
    interpret_reply_packet command (build_command_packet command data).1
        (build_command_packet command data).2
      = decode_payload (build_command_packet command data).1 command
          ((data.length + 3) % 256) (data.length : Int) [] := by
  have hv := verify_checksum_build command data
  unfold interpret_reply_packet
  rw [hv]
  rw [build_command_packet_eq]
  simp

theorem drop_four_build (command : Nat) (data : List Nat) :
    (build_command_packet command data).1.drop 4
      = data ++ [(command + (data.length + 3) + data.sum) % 256] := by
  rw [build_command_packet_eq]
  simp

theorem getLast_build (command : Nat) (data : List Nat) :
    (build_command_packet command data).1.getLast?
      = some ((command + (data.length + 3) + data.sum) % 256) := by
  rw [build_command_packet_eq]
  exact List.getLast?_concat _

theorem size_byte_build (command : Nat) (data : List Nat) :
    (build_command_packet command data).1[3]? = some ((data.length + 3) % 256) := by
  simp [build_command_packet_eq]

theorem returned_build (command : Nat) (data : List Nat) :
    (build_command_packet command data).2 = (data.length : Int) + 5 := by
  simp [build_command_packet_eq]

theorem length_build (command : Nat) (data : List Nat) :
    (build_command_packet command data).1.length = data.length + 5 := by
  rw [build_command_packet_eq]
  simp

/-- C2: for every command byte `c` and payload `p` of length `n ≤ 251`, `build_command_packet`
writes exactly the `n + 5` bytes FF, FF, `c`, `n + 3`, `p[0]`, .., `p[n-1]`, checksum in that
order and returns `n + 5`; opcode 0x50 with an empty payload gives FF FF 50 03 53. -/
theorem build_command_packet_layout (c : Nat) (p : List Nat) (hn : p.length ≤ 251) :
    (build_command_packet c p
        = (0xff :: 0xff :: c :: (p.length + 3) :: (p ++ [(c + (p.length + 3) + p.sum) % 256]),
            (p.length : Int) + 5) ∧
      (build_command_packet c p).1.length = p.length + 5) ∧
    build_command_packet 0x50 [] = ([0xff, 0xff, 0x50, 0x03, 0x53], 5) := by
  refine ⟨⟨?_, length_build c p⟩, by decide⟩
  rw [build_command_packet_eq]
  have h : (p.length + 3) % 256 = p.length + 3 := Nat.mod_eq_of_lt (by omega)
  simp [h]

/-- Witness of C2: the request of `write_update` for 192.168.0.99, port 8080. -/
theorem build_command_packet_layout_witness :
    [192, 168, 0, 99, 31, 144].length ≤ 251 ∧
    ((build_command_packet 0x43 [192, 168, 0, 99, 31, 144]
        = (0xff :: 0xff :: 0x43 :: ([192, 168, 0, 99, 31, 144].length + 3) ::
            ([192, 168, 0, 99, 31, 144] ++
              [(0x43 + ([192, 168, 0, 99, 31, 144].length + 3)
                + [192, 168, 0, 99, 31, 144].sum) % 256]),
            ([192, 168, 0, 99, 31, 144].length : Int) + 5) ∧
      (build_command_packet 0x43 [192, 168, 0, 99, 31, 144]).1.length
        = [192, 168, 0, 99, 31, 144].length + 5) ∧
    build_command_packet 0x50 [] = ([0xff, 0xff, 0x50, 0x03, 0x53], 5)) :=
  ⟨by decide, build_command_packet_layout 0x43 [192, 168, 0, 99, 31, 144] (by decide)⟩

/-- C3: for every command byte `c` and payload `p` of length `n` (whether or not `n ≤ 251`)
the last byte written by `build_command_packet` is `(c + (n + 3) + sum of p) mod 256`; the two
marker bytes are not part of the sum. -/
theorem build_command_packet_checksum (c : Nat) (p : List Nat) :
    (build_command_packet c p).1.getLast? = some ((c + (p.length + 3) + p.sum) % 256) :=
  getLast_build c p

/-- C4: for every command byte and payload, the checksum that `interpret_reply_packet`
recomputes over the packet built by `build_command_packet` (the 8-bit sum of the bytes 2 to
length-2) equals the trailing checksum byte of the packet, and `interpret_reply_packet`, with
any expected command, does not print a checksum error. -/
theorem interpret_build_checksum_ok (c : Nat) (p : List Nat) :
    (∃ cksum,
      read_at (build_command_packet c p).1 ((build_command_packet c p).2 - 1) = some cksum ∧
      (build_command_packet c p).1.getLast? = some cksum ∧
      computed_checksum (build_command_packet c p).1 (build_command_packet c p).2
        = some cksum) ∧
    verify_checksum (build_command_packet c p).1 (build_command_packet c p).2 = some [] ∧
    ∀ expectedcommand specified computed,
      ReplyEvent.checksum_error specified computed ∉
        (interpret_reply_packet expectedcommand (build_command_packet c p).1
          (build_command_packet c p).2).log := by
  refine ⟨⟨_, read_at_build_last c p, getLast_build c p, computed_checksum_build c p⟩,
    verify_checksum_build c p, ?_⟩
  intro e specified computed
  exact interpret_log_of_verify e _ _ (verify_checksum_build c p) specified computed

/-- C5 (as stated) fails: for a payload of 253 bytes (253 + 3 = 256 > 255)
`build_command_packet` does not reject the input; it returns a packet of 258 bytes whose size
byte is 0, the value of 256 truncated to eight bits. -/
theorem build_command_packet_oversized :
    (build_command_packet 0x50 (List.replicate 253 1)).2 = 258 ∧
    (build_command_packet 0x50 (List.replicate 253 1)).1.length = 258 ∧
    (build_command_packet 0x50 (List.replicate 253 1)).1[3]? = some 0 ∧
    (253 + 3) % 256 = 0 := by
  refine ⟨?_, ?_, ?_, by norm_num⟩
  · rw [build_command_packet_eq, List.length_replicate]
    norm_num
  · rw [length_build, List.length_replicate]
  · rw [size_byte_build, List.length_replicate]

/-- C5 (amended): `build_command_packet` has no check of the payload length: for every
payload, also one with length + 3 > 255, it emits a packet of length + 5 bytes, returns
length + 5, and the size byte of the packet is (length + 3) mod 256. -/
theorem build_command_packet_size_truncated (c : Nat) (p : List Nat) :
    (build_command_packet c p).2 = (p.length : Int) + 5 ∧
    (build_command_packet c p).1.length = p.length + 5 ∧
    (build_command_packet c p).1[3]? = some ((p.length + 3) % 256) := by
  exact ⟨returned_build c p, length_build c p, size_byte_build c p⟩

theorem read_until_null_user1 (rest : List SockRead) :
    read_until_null (sock_bytes TOKEN_USER1 ++ rest) BUFSIZ = (10, TOKEN_USER1, rest) := by
  rfl

theorem read_until_null_user2 (rest : List SockRead) :
    read_until_null (sock_bytes TOKEN_USER2 ++ rest) BUFSIZ = (10, TOKEN_USER2, rest) := by
  rfl

theorem read_until_null_start (rest : List SockRead) :
    read_until_null (sock_bytes TOKEN_START ++ rest) BUFSIZ = (6, TOKEN_START, rest) := by
  rfl

theorem read_until_null_continue (rest : List SockRead) :
    read_until_null (sock_bytes TOKEN_CONTINUE ++ rest) BUFSIZ = (9, TOKEN_CONTINUE, rest) := by
  rfl

theorem read_until_null_end (rest : List SockRead) :
    read_until_null (sock_bytes TOKEN_END ++ rest) BUFSIZ = (4, TOKEN_END, rest) := by
  rfl

theorem read_until_null_closed : read_until_null [] BUFSIZ = (0, [0], []) := by
  rfl

theorem take_length_eq_iff (line token : List Nat) (n : Nat) (hn : token.length = n) :
    (line.length = n ∧ line.take n = token) ↔ line = token := by
  constructor
  · rintro ⟨h1, h2⟩
    rw [← h2, List.take_of_length_le (le_of_eq h1)]
  · rintro rfl
    exact ⟨hn, List.take_of_length_le (le_of_eq hn)⟩

/-- The value of `what` in terms of the whole request line. -/
theorem decode_token_eq (line : List Nat) :
    decode_token line =
      if line = TOKEN_USER1 then some GOT_USER1
      else if line = TOKEN_USER2 then some GOT_USER2
      else if line = TOKEN_START then some GOT_START
      else if line = TOKEN_CONTINUE then some GOT_CONTINUE
      else if line = TOKEN_END then some GOT_END
      else none := by
  unfold decode_token
  simp only [take_length_eq_iff line TOKEN_USER1 10 rfl, take_length_eq_iff line TOKEN_USER2 10 rfl,
    take_length_eq_iff line TOKEN_START 6 rfl, take_length_eq_iff line TOKEN_CONTINUE 9 rfl,
    take_length_eq_iff line TOKEN_END 4 rfl]

/-- One iteration of the loop of `do_firmware_service` in terms of `service_step`, for a
request line that was read in full. -/
theorem loop_succ_of_read (fd_user1 : List Nat) (fd_user2 : Option (List Nat)) (fuel : Nat)
    (sock rest : List SockRead) (linelen : Int) (line : List Nat) (s : Session)
    (written : List (List Nat)) (hread : read_until_null sock BUFSIZ = (linelen, line, rest))
    (hpos : 0 < linelen) :
    do_firmware_service_loop fd_user1 fd_user2 (fuel + 1) sock s written =
      match service_step fd_user1 fd_user2 s line with
      | .next s w => do_firmware_service_loop fd_user1 fd_user2 fuel rest s (written ++ w)
      | .broke s w => some ⟨written ++ w, .finished s.packets_sent s.bytes_sent none⟩
      | .returned r => some ⟨written, .returned r⟩
      | .exited code => some ⟨written, .exited code⟩ := by
  rw [do_firmware_service_loop, hread]
  have h1 : ¬ linelen < 0 := by omega
  have h2 : ¬ linelen = 0 := by omega
  simp only [h1, h2, if_false]

/-- C7: for every state among `STATE_BASE`, `GOT_USER1`, `GOT_USER2`, `GOT_START`,
`GOT_CONTINUE` and every request line that the transition table does not list for that state
(any byte string, a token or not), the loop body reports the unexpected request and calls
`exit` with code 7, 9 or 10: no successor state exists, nothing is written to the client, and
`do_firmware_service` ends with that exit whenever such a line is read. -/
theorem service_step_protocol_violation (fd_user1 : List Nat) (fd_user2 : Option (List Nat))
    (s : Session) (line : List Nat) (hs : s.currstate ≤ GOT_CONTINUE)
    (ht : transition_table s.currstate line = none) :
    ∃ code, (code = 7 ∨ code = 9 ∨ code = 10) ∧
      service_step fd_user1 fd_user2 s line = Step.exited code ∧
      ∀ (fuel : Nat) (sock rest : List SockRead) (linelen : Int) (written : List (List Nat)),
        read_until_null sock BUFSIZ = (linelen, line, rest) → 0 < linelen →
        do_firmware_service_loop fd_user1 fd_user2 (fuel + 1) sock s written
          = some ⟨written, ServiceOutcome.exited code⟩ := by
  have hstep : ∃ code, (code = 7 ∨ code = 9 ∨ code = 10) ∧
      service_step fd_user1 fd_user2 s line = Step.exited code := by
    obtain ⟨fwfd, packets_sent, bytes_sent, currstate, nextstate⟩ := s
    simp only at hs ht
    unfold service_step
    rw [decode_token_eq]
    unfold transition_table at ht
    by_cases h1 : line = TOKEN_USER1
    · subst h1
      interval_cases currstate <;> simp [service_transition] at ht ⊢
    by_cases h2 : line = TOKEN_USER2
    · subst h2
      interval_cases currstate <;> simp [service_transition] at ht ⊢
    by_cases h3 : line = TOKEN_START
    · subst h3
      interval_cases currstate <;> simp [service_transition] at ht ⊢
    by_cases h4 : line = TOKEN_CONTINUE
    · subst h4
      interval_cases currstate <;> simp [service_transition] at ht ⊢
    by_cases h5 : line = TOKEN_END
    · subst h5
      interval_cases currstate <;> simp [service_transition] at ht ⊢
    simp [h1, h2, h3, h4, h5]
  obtain ⟨code, hcode, hstep⟩ := hstep
  refine ⟨code, hcode, hstep, ?_⟩
  intro fuel sock rest linelen written hread hpos
  rw [loop_succ_of_read fd_user1 fd_user2 fuel sock rest linelen line s written hread hpos, hstep]

/-- Witness of C7: the request "start" in state `STATE_BASE`. -/
theorem service_step_protocol_violation_witness :
    initial_session.currstate ≤ GOT_CONTINUE ∧
    transition_table initial_session.currstate TOKEN_START = none ∧
    ∃ code, (code = 7 ∨ code = 9 ∨ code = 10) ∧
      service_step [1, 2, 3] none initial_session TOKEN_START = Step.exited code ∧
      ∀ (fuel : Nat) (sock rest : List SockRead) (linelen : Int) (written : List (List Nat)),
        read_until_null sock BUFSIZ = (linelen, TOKEN_START, rest) → 0 < linelen →
        do_firmware_service_loop [1, 2, 3] none (fuel + 1) sock initial_session written
          = some ⟨written, ServiceOutcome.exited code⟩ :=
  ⟨by decide, by decide,
    service_step_protocol_violation [1, 2, 3] none initial_session TOKEN_START
      (by decide) (by decide)⟩

/-- Reading a request line that is one of the five tokens. -/
theorem read_until_null_token (line : List Nat) (state target : Nat)
    (ht : transition_table state line = some target) (rest : List SockRead) :
    ∃ linelen : Int, 0 < linelen ∧
      read_until_null (sock_bytes line ++ rest) BUFSIZ = (linelen, line, rest) := by
  unfold transition_table at ht
  split_ifs at ht with h1 h2 h3 h4 h5
  · rw [h1.2]; exact ⟨10, by norm_num, read_until_null_user1 rest⟩
  · rw [h2.2]; exact ⟨10, by norm_num, read_until_null_user2 rest⟩
  · rw [h3.2]; exact ⟨6, by norm_num, read_until_null_start rest⟩
  · rw [h4.2]; exact ⟨9, by norm_num, read_until_null_continue rest⟩
  · rw [h5.2]; exact ⟨4, by norm_num, read_until_null_end rest⟩

theorem service_step_of_table (fd_user1 : List Nat) (fd_user2 : Option (List Nat))
    (s : Session) (line : List Nat) (target : Nat)
    (ht : transition_table s.currstate line = some target)
    (himage2 : line = TOKEN_USER2 → fd_user2 ≠ none)
    (hsel : s.currstate ≠ STATE_BASE → s.fwfd ≠ none) :
    ∃ s1 written, service_step fd_user1 fd_user2 s line = Step.next s1 written ∧
      s1.currstate = target ∧ s1.nextstate = target ∧ s1.fwfd ≠ none := by
  obtain ⟨fwfd, packets_sent, bytes_sent, currstate, nextstate⟩ := s
  simp only at ht hsel
  unfold service_step
  rw [decode_token_eq]
  unfold transition_table at ht
  split_ifs at ht with h1 h2 h3 h4 h5
  · obtain ⟨hc, hl⟩ := h1
    subst hc hl
    simp only [Option.some.injEq] at ht
    subst ht
    simp [service_transition, service_send]
  · obtain ⟨hc, hl⟩ := h2
    subst hc
    simp only [Option.some.injEq] at ht
    subst ht
    cases fd_user2 with
    | none => exact absurd rfl (himage2 hl)
    | some image2 =>
      subst hl
      simp [service_transition, service_send]
  · obtain ⟨hc, hl⟩ := h3
    subst hl
    simp only [Option.some.injEq] at ht
    subst ht
    cases fwfd with
    | none => rcases hc with hc | hc <;> exact absurd rfl (hsel (by rw [hc]; decide))
    | some f =>
      by_cases hz : f.data.length - f.offset = 0 <;> rcases hc with hc | hc <;> subst hc <;>
        simp [service_transition, service_send, hz]
  · obtain ⟨hc, hl⟩ := h4
    subst hl
    simp only [Option.some.injEq] at ht
    subst ht
    cases fwfd with
    | none => rcases hc with hc | hc <;> exact absurd rfl (hsel (by rw [hc]; decide))
    | some f =>
      by_cases hz : f.data.length - f.offset = 0 <;> rcases hc with hc | hc <;> subst hc <;>
        simp [service_transition, service_send, hz]
  · obtain ⟨hc, hl⟩ := h5
    subst hl
    simp only [Option.some.injEq] at ht
    subst ht
    cases fwfd with
    | none => rcases hc with hc | hc <;> exact absurd rfl (hsel (by rw [hc]; decide))
    | some f =>
      rcases hc with hc | hc <;> subst hc <;> simp [service_transition, service_send]

/-- C6: on every pair of a state and a token that the transition table lists (for
"user2.bin" with the second image present), the loop body of `do_firmware_service` reaches its
end with the state of the table: `STATE_BASE` to `GOT_USER1` on "user1.bin" and to `GOT_USER2`
on "user2.bin", `GOT_USER1`/`GOT_USER2` to `GOT_START` on "start", `GOT_START`/`GOT_CONTINUE`
to `GOT_CONTINUE` on "continue" and to `GOT_END` on "end"; the loop goes on from that state
with the rest of the input. -/
theorem service_step_follows_table (fd_user1 : List Nat) (fd_user2 : Option (List Nat))
    (s : Session) (line : List Nat) (target : Nat)
    (ht : transition_table s.currstate line = some target)
    (himage2 : line = TOKEN_USER2 → fd_user2 ≠ none)
    (hsel : s.currstate ≠ STATE_BASE → s.fwfd ≠ none) :
    ∃ s1 written, service_step fd_user1 fd_user2 s line = Step.next s1 written ∧
      s1.currstate = target ∧ s1.nextstate = target ∧ s1.fwfd ≠ none ∧
      ∀ (fuel : Nat) (rest : List SockRead) (out : List (List Nat)),
        do_firmware_service_loop fd_user1 fd_user2 (fuel + 1) (sock_bytes line ++ rest) s out
          = do_firmware_service_loop fd_user1 fd_user2 fuel rest s1 (out ++ written) := by
  obtain ⟨s1, written, hstep, h1, h2, h3⟩ :=
    service_step_of_table fd_user1 fd_user2 s line target ht himage2 hsel
  refine ⟨s1, written, hstep, h1, h2, h3, ?_⟩
  intro fuel rest out
  obtain ⟨linelen, hpos, hread⟩ := read_until_null_token line s.currstate target ht rest
  rw [loop_succ_of_read fd_user1 fd_user2 fuel _ rest linelen line s out hread hpos, hstep]

/-- Witness of C6: the request "end" in state `GOT_START`. -/
theorem service_step_follows_table_witness :
    transition_table (Session.mk (some ⟨[1, 2, 3], 3⟩) 1 3 GOT_START GOT_START).currstate
        TOKEN_END = some GOT_END ∧
    (TOKEN_END = TOKEN_USER2 → (none : Option (List Nat)) ≠ none) ∧
    ((Session.mk (some ⟨[1, 2, 3], 3⟩) 1 3 GOT_START GOT_START).currstate ≠ STATE_BASE →
      (Session.mk (some ⟨[1, 2, 3], 3⟩) 1 3 GOT_START GOT_START).fwfd ≠ none) ∧
    ∃ s1 written,
      service_step [1, 2, 3] none (Session.mk (some ⟨[1, 2, 3], 3⟩) 1 3 GOT_START GOT_START)
          TOKEN_END = Step.next s1 written ∧
      s1.currstate = GOT_END ∧ s1.nextstate = GOT_END ∧ s1.fwfd ≠ none ∧
      ∀ (fuel : Nat) (rest : List SockRead) (out : List (List Nat)),
        do_firmware_service_loop [1, 2, 3] none (fuel + 1) (sock_bytes TOKEN_END ++ rest)
            (Session.mk (some ⟨[1, 2, 3], 3⟩) 1 3 GOT_START GOT_START) out
          = do_firmware_service_loop [1, 2, 3] none fuel rest s1 (out ++ written) :=
  ⟨by decide, by decide, by decide,
    service_step_follows_table [1, 2, 3] none
      (Session.mk (some ⟨[1, 2, 3], 3⟩) 1 3 GOT_START GOT_START) TOKEN_END GOT_END
      (by decide) (by decide) (by decide)⟩

theorem htonl_bytes_spec (size : Nat) (h : size < 2 ^ 32) :
    (htonl_bytes size).length = 4 ∧ (∀ b ∈ htonl_bytes size, b < 256) ∧
      big_endian_value (htonl_bytes size) = size := by
  have h32 : size % 2 ^ 32 = size := Nat.mod_eq_of_lt h
  unfold htonl_bytes big_endian_value
  simp only [h32]
  refine ⟨rfl, ?_, ?_⟩
  · intro b hb
    simp only [List.mem_cons, List.mem_singleton, List.not_mem_nil, or_false] at hb
    rcases hb with hb | hb | hb | hb <;> subst hb <;> exact Nat.mod_lt _ (by norm_num)
  · simp only [List.foldl_cons, List.foldl_nil]
    norm_num at h ⊢
    omega

/-- The loop body on "user1.bin" in state `STATE_BASE`. -/
theorem service_step_user1 (fd_user1 : List Nat) (fd_user2 : Option (List Nat)) (s : Session)
    (hs : s.currstate = STATE_BASE) :
    service_step fd_user1 fd_user2 s TOKEN_USER1
      = Step.next ⟨some ⟨fd_user1, 0⟩, s.packets_sent, s.bytes_sent, GOT_USER1, GOT_USER1⟩
          [htonl_bytes fd_user1.length] := by
  obtain ⟨fwfd, packets_sent, bytes_sent, currstate, nextstate⟩ := s
  simp only at hs
  subst hs
  simp [service_step, decode_token_eq, service_transition, service_send]

/-- The loop body on "user2.bin" in state `STATE_BASE`, with a second image. -/
theorem service_step_user2 (fd_user1 image2 : List Nat) (s : Session)
    (hs : s.currstate = STATE_BASE) :
    service_step fd_user1 (some image2) s TOKEN_USER2
      = Step.next ⟨some ⟨image2, 0⟩, s.packets_sent, s.bytes_sent, GOT_USER2, GOT_USER2⟩
          [htonl_bytes image2.length] := by
  obtain ⟨fwfd, packets_sent, bytes_sent, currstate, nextstate⟩ := s
  simp only at hs
  subst hs
  simp [service_step, decode_token_eq, service_transition, service_send]

/-- C9: for every image of size `S < 2^32`, when the loop body of `do_firmware_service` in
state `STATE_BASE` accepts "user1.bin" (or "user2.bin" with a second image supplied) the only
write to the client is one buffer of four bytes, the big-endian encoding of `S`; for
`S = 1500` they are 00 00 05 DC. -/
theorem size_reply_network_order (fd_user1 : List Nat) (fd_user2 : Option (List Nat))
    (s : Session) (hs : s.currstate = STATE_BASE) (h1 : fd_user1.length < 2 ^ 32)
    (h2 : ∀ image2, fd_user2 = some image2 → image2.length < 2 ^ 32) :
    (∃ s1 reply, service_step fd_user1 fd_user2 s TOKEN_USER1 = Step.next s1 [reply] ∧
      s1.currstate = GOT_USER1 ∧ reply.length = 4 ∧ (∀ b ∈ reply, b < 256) ∧
      big_endian_value reply = fd_user1.length) ∧
    (∀ image2, fd_user2 = some image2 →
      ∃ s1 reply, service_step fd_user1 fd_user2 s TOKEN_USER2 = Step.next s1 [reply] ∧
        s1.currstate = GOT_USER2 ∧ reply.length = 4 ∧ (∀ b ∈ reply, b < 256) ∧
        big_endian_value reply = image2.length) ∧
    htonl_bytes 1500 = [0x00, 0x00, 0x05, 0xDC] := by
  refine ⟨?_, ?_, by decide⟩
  · obtain ⟨ha, hb, hc⟩ := htonl_bytes_spec fd_user1.length h1
    exact ⟨_, htonl_bytes fd_user1.length, service_step_user1 fd_user1 fd_user2 s hs, rfl,
      ha, hb, hc⟩
  · intro image2 himg
    subst himg
    obtain ⟨ha, hb, hc⟩ := htonl_bytes_spec image2.length (h2 image2 rfl)
    exact ⟨_, htonl_bytes image2.length, service_step_user2 fd_user1 image2 s hs, rfl,
      ha, hb, hc⟩

/-- Witness of C9: images of three and of two bytes. -/
theorem size_reply_network_order_witness :
    initial_session.currstate = STATE_BASE ∧ [1, 2, 3].length < 2 ^ 32 ∧
    (∀ image2, some [4, 5] = some image2 → image2.length < 2 ^ 32) ∧
    ((∃ s1 reply, service_step [1, 2, 3] (some [4, 5]) initial_session TOKEN_USER1
          = Step.next s1 [reply] ∧
        s1.currstate = GOT_USER1 ∧ reply.length = 4 ∧ (∀ b ∈ reply, b < 256) ∧
        big_endian_value reply = [1, 2, 3].length) ∧
      (∀ image2, some [4, 5] = some image2 →
        ∃ s1 reply, service_step [1, 2, 3] (some [4, 5]) initial_session TOKEN_USER2
            = Step.next s1 [reply] ∧
          s1.currstate = GOT_USER2 ∧ reply.length = 4 ∧ (∀ b ∈ reply, b < 256) ∧
          big_endian_value reply = image2.length) ∧
      htonl_bytes 1500 = [0x00, 0x00, 0x05, 0xDC]) :=
  ⟨rfl, by decide, fun image2 h => by cases h; decide,
    size_reply_network_order [1, 2, 3] (some [4, 5]) initial_session rfl (by decide)
      (fun image2 h => by cases h; decide)⟩

/-- C10: for every session in state `STATE_BASE` with no second image supplied, the request
"user2.bin" makes `do_firmware_service` return -1: the loop body ends with `return -1` and
no successor state, and the call ends with nothing written to the client beyond what was
written before the request (nothing at all when it is the first request). -/
theorem user2_without_second_image (fd_user1 : List Nat) (s : Session)
    (hs : s.currstate = STATE_BASE) :
    service_step fd_user1 none s TOKEN_USER2 = Step.returned (-1) ∧
    (∀ (fuel : Nat) (rest : List SockRead) (written : List (List Nat)),
      do_firmware_service_loop fd_user1 none (fuel + 1) (sock_bytes TOKEN_USER2 ++ rest) s
        written = some ⟨written, ServiceOutcome.returned (-1)⟩) ∧
    ∀ rest : List SockRead,
      do_firmware_service (sock_bytes TOKEN_USER2 ++ rest) fd_user1 none
        = some ⟨[], ServiceOutcome.returned (-1)⟩ := by
  have hstep : ∀ s : Session, s.currstate = STATE_BASE →
      service_step fd_user1 none s TOKEN_USER2 = Step.returned (-1) := by
    intro s hs
    obtain ⟨fwfd, packets_sent, bytes_sent, currstate, nextstate⟩ := s
    simp only at hs
    subst hs
    simp [service_step, decode_token_eq, service_transition]
  have hloop : ∀ (s : Session), s.currstate = STATE_BASE →
      ∀ (fuel : Nat) (rest : List SockRead) (written : List (List Nat)),
      do_firmware_service_loop fd_user1 none (fuel + 1) (sock_bytes TOKEN_USER2 ++ rest) s
        written = some ⟨written, ServiceOutcome.returned (-1)⟩ := by
    intro s hs fuel rest written
    rw [loop_succ_of_read fd_user1 none fuel _ rest 10 TOKEN_USER2 s written
      (read_until_null_user2 rest) (by norm_num), hstep s hs]
  refine ⟨hstep s hs, hloop s hs, ?_⟩
  intro rest
  unfold do_firmware_service
  exact hloop initial_session rfl _ rest []

/-- Witness of C10: the request "user2.bin" as the first request of a session. -/
theorem user2_without_second_image_witness :
    initial_session.currstate = STATE_BASE ∧
    (service_step [1, 2, 3] none initial_session TOKEN_USER2 = Step.returned (-1) ∧
      (∀ (fuel : Nat) (rest : List SockRead) (written : List (List Nat)),
        do_firmware_service_loop [1, 2, 3] none (fuel + 1) (sock_bytes TOKEN_USER2 ++ rest)
          initial_session written = some ⟨written, ServiceOutcome.returned (-1)⟩) ∧
      ∀ rest : List SockRead,
        do_firmware_service (sock_bytes TOKEN_USER2 ++ rest) [1, 2, 3] none
          = some ⟨[], ServiceOutcome.returned (-1)⟩) :=
  ⟨rfl, user2_without_second_image [1, 2, 3] initial_session rfl⟩

theorem image_chunk_length (image : List Nat) (j : Nat) :
    (image_chunk image j).length = min 1024 (image.length - 1024 * j) := by
  simp [image_chunk]

theorem continue_requests_length (n : Nat) (rest : List SockRead) :
    (continue_requests n rest).length = 9 * n + rest.length := by
  induction n with
  | zero => simp [continue_requests]
  | succ n ih =>
    simp only [continue_requests, List.length_append, ih, sock_bytes, List.length_map,
      List.length_cons, List.length_nil]
    omega

/-- The loop body on "start" after the first image was selected. -/
theorem service_step_start (fd_user1 : List Nat) (fd_user2 : Option (List Nat))
    (image : List Nat) (packets_sent : Int) (nextstate : Nat) (hpos : 0 < image.length) :
    service_step fd_user1 fd_user2 ⟨some ⟨image, 0⟩, packets_sent, 0, GOT_USER1, nextstate⟩
        TOKEN_START
      = Step.next (session_after image 1 GOT_START) [image_chunk image 0] := by
  have hz : ¬ image.length = 0 := by omega
  simp only [service_step, decode_token_eq, service_transition, service_send, session_after,
    image_chunk]
  simp [hz]

/-- The loop body on "continue" while bytes of the image remain. -/
theorem service_step_continue (fd_user1 : List Nat) (fd_user2 : Option (List Nat))
    (image : List Nat) (j state : Nat) (hstate : state = GOT_START ∨ state = GOT_CONTINUE)
    (hrem : 1024 * j < image.length) :
    service_step fd_user1 fd_user2 (session_after image j state) TOKEN_CONTINUE
      = Step.next (session_after image (j + 1) GOT_CONTINUE) [image_chunk image j] := by
  have hmin : min (1024 * j) image.length = 1024 * j := by omega
  have hz : ¬ image.length - 1024 * j = 0 := by omega
  have hoff : 1024 * j + min 1024 (image.length - 1024 * j)
      = min (1024 * (j + 1)) image.length := by omega
  rcases hstate with h | h <;> subst h <;>
    simp only [service_step, decode_token_eq, service_transition, service_send, session_after,
      image_chunk, hmin] <;>
    simp [hz, hoff] <;> omega

/-- The loop body on "end" after chunks were sent. -/
theorem service_step_end (fd_user1 : List Nat) (fd_user2 : Option (List Nat))
    (image : List Nat) (j state : Nat) (hstate : state = GOT_START ∨ state = GOT_CONTINUE) :
    service_step fd_user1 fd_user2 (session_after image j state) TOKEN_END
      = Step.next (session_after image j GOT_END) [] := by
  rcases hstate with h | h <;> subst h <;>
    simp [service_step, decode_token_eq, service_transition, service_send, session_after]

/-- The loop when the client has closed the connection. -/
theorem loop_closed (fd_user1 : List Nat) (fd_user2 : Option (List Nat)) (fuel : Nat)
    (s : Session) (written : List (List Nat)) :
    do_firmware_service_loop fd_user1 fd_user2 (fuel + 1) [] s written
      = some ⟨written,
          ServiceOutcome.finished s.packets_sent s.bytes_sent (some (s.nextstate != GOT_END))⟩ := by
  rw [do_firmware_service_loop, read_until_null_closed]
  simp

/-- The loop over `m` requests "continue", each of which finds bytes of the image left, then
"end", then the close of the connection. -/
theorem loop_continues (fd_user1 : List Nat) (fd_user2 : Option (List Nat)) (image : List Nat)
    (m : Nat) : ∀ (j state fuel : Nat) (written : List (List Nat)),
    (state = GOT_START ∨ state = GOT_CONTINUE) → 1024 * (j + m) < image.length + 1024 →
    m + 2 ≤ fuel →
    do_firmware_service_loop fd_user1 fd_user2 fuel
        (continue_requests m (sock_bytes TOKEN_END)) (session_after image j state) written
      = some ⟨written ++ (List.range' j m).map (image_chunk image),
          ServiceOutcome.finished ((j + m : Nat) : Int)
            ((min (1024 * (j + m)) image.length : Nat) : Int) (some false)⟩ := by
  induction m with
  | zero =>
    intro j state fuel written hstate _ hfuel
    obtain ⟨f, rfl⟩ : ∃ f, fuel = f + 1 + 1 := ⟨fuel - 2, by omega⟩
    have hread := read_until_null_end []
    rw [List.append_nil] at hread
    rw [continue_requests, loop_succ_of_read fd_user1 fd_user2 (f + 1) _ [] 4 TOKEN_END _ written
      hread (by norm_num), service_step_end fd_user1 fd_user2 image j state hstate]
    simp only []
    rw [loop_closed]
    simp [session_after]
  | succ m ih =>
    intro j state fuel written hstate hrem hfuel
    obtain ⟨f, rfl⟩ : ∃ f, fuel = f + 1 := ⟨fuel - 1, by omega⟩
    rw [continue_requests, loop_succ_of_read fd_user1 fd_user2 f _ _ 9 TOKEN_CONTINUE _ written
      (read_until_null_continue _) (by norm_num),
      service_step_continue fd_user1 fd_user2 image j state hstate (by omega)]
    simp only []
    rw [ih (j + 1) GOT_CONTINUE f _ (Or.inr rfl) (by omega) (by omega)]
    have hj : j + 1 + m = j + (m + 1) := by omega
    simp [List.range'_succ, hj]

/-- The whole session for the requests "user1.bin", "start", `m` times "continue", "end",
when every request for a chunk finds bytes of the image left. -/
theorem do_firmware_service_peer (image : List Nat) (fd_user2 : Option (List Nat)) (m : Nat)
    (hrem : 1024 * m < image.length) :
    do_firmware_service (peer_requests m) image fd_user2
      = some ⟨htonl_bytes image.length :: (List.range (m + 1)).map (image_chunk image),
          ServiceOutcome.finished ((m + 1 : Nat) : Int)
            ((min (1024 * (m + 1)) image.length : Nat) : Int) (some false)⟩ := by
  unfold do_firmware_service
  obtain ⟨f, hf, hfuel⟩ : ∃ f, (peer_requests m).length + 1 = f + 1 + 1 ∧ m + 2 ≤ f := by
    refine ⟨(peer_requests m).length - 1, ?_, ?_⟩ <;>
      simp only [peer_requests, List.length_append, continue_requests_length, sock_bytes,
        List.length_map, List.length_cons, List.length_nil] <;> omega
  rw [hf, peer_requests,
    loop_succ_of_read image fd_user2 (f + 1) _ _ 10 TOKEN_USER1 initial_session []
      (read_until_null_user1 _) (by norm_num),
    service_step_user1 image fd_user2 initial_session rfl]
  simp only [initial_session]
  rw [loop_succ_of_read image fd_user2 f _ _ 6 TOKEN_START _ _
      (read_until_null_start _) (by norm_num),
    service_step_start image fd_user2 image 0 GOT_USER1 (by omega)]
  simp only []
  rw [loop_continues image fd_user2 image m 1 GOT_START f _ (Or.inl rfl) (by omega) hfuel]
  have h1 : 1 + m = m + 1 := by omega
  simp [List.range_eq_range', List.range'_succ, h1]

theorem sum_chunk_lengths (image : List Nat) (n : Nat) :
    ((List.range n).map (fun i => (image_chunk image i).length)).sum
      = min (1024 * n) image.length := by
  induction n with
  | zero => simp
  | succ n ih =>
    rw [List.range_succ, List.map_append, List.sum_append, ih]
    simp only [List.map_cons, List.map_nil, List.sum_cons, List.sum_nil, image_chunk_length]
    omega

/-- C8 (amended): for every image of size `S ≥ 1` and the peer that sends "user1.bin", "start",
ceil(S/1024) - 1 times "continue", "end" and closes the connection, `do_firmware_service`
writes the size reply and then one chunk for "start" and one for each "continue", chunk `j`
being the bytes of the image from offset `1024 * j`, and returns 0 after reporting ceil(S/1024)
packets and `S` bytes; no chunk is empty, before each of these requests the chunks written so
far hold fewer than `S` bytes (so the peer still asks for more), all chunks together hold `S`
bytes, and the last chunk has `S mod 1024` bytes, 1024 if `S` is a multiple of 1024. -/
theorem transfer_chunks (image : List Nat) (fd_user2 : Option (List Nat))
    (hS : 1 ≤ image.length) :
    do_firmware_service (peer_requests (chunk_count image.length - 1)) image fd_user2
      = some ⟨htonl_bytes image.length ::
            (List.range (chunk_count image.length)).map (image_chunk image),
          ServiceOutcome.finished ((chunk_count image.length : Nat) : Int)
            ((image.length : Nat) : Int) (some false)⟩ ∧
    (∀ j, j < chunk_count image.length →
      image_chunk image j ≠ [] ∧
      ((List.range j).map (fun i => (image_chunk image i).length)).sum < image.length) ∧
    ((List.range (chunk_count image.length)).map
      (fun i => (image_chunk image i).length)).sum = image.length ∧
    (image_chunk image (chunk_count image.length - 1)).length
      = (if image.length % 1024 = 0 then 1024 else image.length % 1024) := by
  have hk : 1024 * (chunk_count image.length - 1) < image.length := by
    unfold chunk_count
    omega
  have hk1 : chunk_count image.length - 1 + 1 = chunk_count image.length := by
    unfold chunk_count
    omega
  have hmin : min (1024 * chunk_count image.length) image.length = image.length := by
    unfold chunk_count
    omega
  refine ⟨?_, ?_, ?_, ?_⟩
  · rw [do_firmware_service_peer image fd_user2 _ hk, hk1, hmin]
  · intro j hj
    have hlt : 1024 * j < image.length := by
      unfold chunk_count at hj
      omega
    constructor
    · intro hnil
      have := image_chunk_length image j
      rw [hnil] at this
      simp only [List.length_nil] at this
      omega
    · rw [sum_chunk_lengths]
      omega
  · rw [sum_chunk_lengths, hmin]
  · rw [image_chunk_length]
    unfold chunk_count
    split_ifs <;> omega

/-- Witness of C8 (amended): an image of 1500 bytes. -/
theorem transfer_chunks_witness :
    1 ≤ (List.replicate 1500 0).length ∧
    (do_firmware_service (peer_requests (chunk_count (List.replicate 1500 0).length - 1))
        (List.replicate 1500 0) none
      = some ⟨htonl_bytes (List.replicate 1500 0).length ::
            (List.range (chunk_count (List.replicate 1500 0).length)).map
              (image_chunk (List.replicate 1500 0)),
          ServiceOutcome.finished ((chunk_count (List.replicate 1500 0).length : Nat) : Int)
            (((List.replicate 1500 0).length : Nat) : Int) (some false)⟩ ∧
    (∀ j, j < chunk_count (List.replicate 1500 0).length →
      image_chunk (List.replicate 1500 0) j ≠ [] ∧
      ((List.range j).map (fun i => (image_chunk (List.replicate 1500 0) i).length)).sum
        < (List.replicate 1500 0).length) ∧
    ((List.range (chunk_count (List.replicate 1500 0).length)).map
      (fun i => (image_chunk (List.replicate 1500 0) i).length)).sum
        = (List.replicate 1500 0).length ∧
    (image_chunk (List.replicate 1500 0)
        (chunk_count (List.replicate 1500 0).length - 1)).length
      = (if (List.replicate 1500 0).length % 1024 = 0 then 1024
          else (List.replicate 1500 0).length % 1024)) :=
  ⟨by rw [List.length_replicate]; norm_num,
    transfer_chunks (List.replicate 1500 0) none (by rw [List.length_replicate]; norm_num)⟩

/-- C8 (as stated) fails for the empty image (`S = 0`): the peer has all 0 bytes before any
chunk and sends "user1.bin", "start", "end"; `do_firmware_service` writes the size reply
00 00 00 00 and no chunk at all, and reports 0 packets and 0 bytes. So there is no last chunk
of 1024 bytes although 0 is a multiple of 1024, and the number of chunk sends triggered by
"continue", which is 0, is not ceil(0/1024) - 1 = -1. -/
theorem transfer_empty_image :
    do_firmware_service (peer_requests 0) [] none
      = some ⟨[[0, 0, 0, 0]], ServiceOutcome.finished 0 0 (some false)⟩ ∧
    (0 : Int) ≠ ((chunk_count 0 : Nat) : Int) - 1 := by
  decide

/-- Scenario B: for an image of 1500 bytes the session writes the size reply, a chunk of 1024
bytes and a chunk of 476 bytes, and reports 2 packets and 1500 bytes. -/
theorem transfer_scenario_b :
    (do_firmware_service (peer_requests 1) (List.replicate 1500 0) none).map
        (fun r => (r.written.map List.length, r.written.head?, r.outcome))
      = some ([4, 1024, 476], some [0x00, 0x00, 0x05, 0xDC],
          ServiceOutcome.finished 2 1500 (some false)) := by
  rw [do_firmware_service_peer _ _ 1 (by rw [List.length_replicate]; norm_num)]
  have hr : List.range (1 + 1) = [0, 1] := rfl
  simp only [hr, Option.map_some', List.map_cons, List.map_nil, List.head?_cons, List.length_cons,
    List.length_nil, image_chunk_length, List.length_replicate, htonl_bytes]
  norm_num

/-! ### Reading from batches of bytes -/

theorem chunk_bytes_eq_nil (chunks : List (Nat × List Nat)) (h : chunk_bytes chunks = []) :
    chunks = [] := by
  cases chunks with
  | nil => rfl
  | cons c chunks =>
    obtain ⟨b, bytes⟩ := c
    simp [chunk_bytes] at h

/-- A `read` of at least one byte from a batch that has arrived takes a non-empty prefix of
the bytes that the batches deliver and leaves batches that deliver the other bytes. -/
theorem sock_read_arrivals (c : Nat × List Nat) (chunks : List (Nat × List Nat))
    (rest : List SockEvent) (len : Nat) (hlen : 1 ≤ len) :
    ∃ got chunks1, sock_read (arrivals (c :: chunks) rest) len
        = ((got.length : Int), got, arrivals chunks1 rest) ∧
      got ≠ [] ∧ got.length ≤ len ∧ chunk_bytes (c :: chunks) = got ++ chunk_bytes chunks1 := by
  obtain ⟨b, bytes⟩ := c
  have hne : ¬ len = 0 := by omega
  cases hdrop : (b :: bytes).drop len with
  | nil =>
    refine ⟨b :: bytes, chunks, ?_, by simp, ?_, rfl⟩
    · simp only [arrivals, sock_read, hne, if_false, hdrop, List.length_cons, Nat.cast_add,
        Nat.cast_one]
    · exact List.drop_eq_nil_iff.mp hdrop
  | cons b1 bytes1 =>
    have hlt : len < (b :: bytes).length := by
      by_contra hge
      have := List.drop_eq_nil_iff.mpr (not_lt.mp hge)
      rw [this] at hdrop
      exact List.noConfusion hdrop
    have hlen_take : ((b :: bytes).take len).length = len := by
      rw [List.length_take]
      omega
    refine ⟨(b :: bytes).take len, (b1, bytes1) :: chunks, ?_, ?_, by omega, ?_⟩
    · simp only [arrivals, sock_read, hne, if_false, hdrop, hlen_take]
    · intro h
      rw [h] at hlen_take
      simp only [List.length_nil] at hlen_take
      omega
    · have h := List.take_append_drop len (b :: bytes)
      rw [hdrop] at h
      simp only [chunk_bytes]
      rw [← List.append_assoc, h]

/-- The same for `timed_read`, which finds the batch ready. -/
theorem timed_read_arrivals (c : Nat × List Nat) (chunks : List (Nat × List Nat))
    (rest : List SockEvent) (len : Nat) (hlen : 1 ≤ len) :
    ∃ got chunks1, timed_read (arrivals (c :: chunks) rest) len
        = ((got.length : Int), got, arrivals chunks1 rest) ∧
      got ≠ [] ∧ got.length ≤ len ∧ chunk_bytes (c :: chunks) = got ++ chunk_bytes chunks1 := by
  obtain ⟨got, chunks1, h1, h2, h3, h4⟩ := sock_read_arrivals c chunks rest len hlen
  refine ⟨got, chunks1, ?_, h2, h3, h4⟩
  obtain ⟨b, bytes⟩ := c
  rw [← h1]
  rfl

/-- The first loop on batches that deliver 0xff first: the byte is stored and the loop is
left. -/
theorem scan_loop_marker (maxlen : Nat) (chunks : List (Nat × List Nat))
    (rest : List SockEvent) (tail : List Nat) (hbytes : chunk_bytes chunks = 0xff :: tail) :
    ∃ chunks1, scan_loop (maxlen + 1) 0 [] (arrivals chunks rest)
        = (1, 0xff, [0xff], arrivals chunks1 rest) ∧ chunk_bytes chunks1 = tail := by
  cases chunks with
  | nil => simp [chunk_bytes] at hbytes
  | cons c chunks =>
    obtain ⟨got, chunks1, h1, h2, h3, h4⟩ := sock_read_arrivals c chunks rest 1 (le_refl 1)
    rw [hbytes] at h4
    match got, h2, h3, h4 with
    | [g], _, _, h4 =>
      simp only [List.singleton_append, List.cons.injEq] at h4
      obtain ⟨hg, htail⟩ := h4
      subst hg
      refine ⟨chunks1, ?_, htail.symm⟩
      simp only [scan_loop, h1]
      simp
    | _ :: _ :: _, _, h3, _ => simp at h3

theorem header_loop_done (fuel : Nat) (packet : List Nat) (fd : List SockEvent)
    (h : 4 ≤ packet.length) : header_loop fuel packet fd = Sum.inr (packet, fd) := by
  cases fuel with
  | zero => rfl
  | succ fuel =>
    have : ¬ packet.length < 4 := by omega
    simp [header_loop, this]

/-- The loop that reads the header, on batches that deliver the missing header bytes `need`
and then `more`: the header bytes are stored, whatever the batches are, and the batches left
deliver `more`. -/
theorem header_loop_arrivals (fuel : Nat) : ∀ (packet : List Nat)
    (chunks : List (Nat × List Nat)) (rest : List SockEvent) (need more : List Nat),
    need.length ≤ fuel → packet.length + need.length = 4 →
    chunk_bytes chunks = need ++ more →
    ∃ chunks1, header_loop fuel packet (arrivals chunks rest)
        = Sum.inr (packet ++ need, arrivals chunks1 rest) ∧ chunk_bytes chunks1 = more := by
  induction fuel with
  | zero =>
    intro packet chunks rest need more hfuel _ hbytes
    have hneed : need = [] := List.length_eq_zero.mp (by omega)
    subst hneed
    exact ⟨chunks, by simp [header_loop], by simpa using hbytes⟩
  | succ fuel ih =>
    intro packet chunks rest need more hfuel hlen hbytes
    cases need with
    | nil =>
      refine ⟨chunks, ?_, by simpa using hbytes⟩
      rw [header_loop_done _ _ _ (by simpa using hlen.ge)]
      simp
    | cons n0 need1 =>
      cases chunks with
      | nil => simp [chunk_bytes] at hbytes
      | cons c chunks =>
        simp only [List.length_cons] at hfuel hlen
        obtain ⟨got, chunks1, h1, h2, h3, h4⟩ :=
          timed_read_arrivals c chunks rest (4 - packet.length) (by omega)
        rw [hbytes] at h4
        -- `got` is a prefix of the bytes needed
        have hgot : got.length ≤ (n0 :: need1).length := by
          simp only [List.length_cons]
          omega
        obtain ⟨need2, hneed2, hmore2⟩ : ∃ need2, n0 :: need1 = got ++ need2 ∧
            chunk_bytes chunks1 = need2 ++ more := by
          rcases List.append_eq_append_iff.mp h4 with ⟨a, ha1, ha2⟩ | ⟨a, ha1, ha2⟩
          · have ha : a = [] := by
              have := congrArg List.length ha1
              simp only [List.length_append] at this
              exact List.length_eq_zero.mp (by omega)
            subst ha
            exact ⟨[], by simpa using ha1.symm, by simpa using ha2.symm⟩
          · exact ⟨a, ha1, ha2⟩
        have hlen2 := congrArg List.length hneed2
        simp only [List.length_cons, List.length_append] at hlen2
        have hgotpos : 0 < got.length := List.length_pos.mpr h2
        obtain ⟨chunks2, hloop, hbytes2⟩ := ih (packet ++ got) chunks1 rest need2 more
          (by omega) (by simp only [List.length_append]; omega) hmore2
        refine ⟨chunks2, ?_, hbytes2⟩
        have hlt : packet.length < 4 := by omega
        have hr1 : ¬ ((got.length : Int) < 0) := by omega
        have hr2 : ¬ ((got.length : Int) = 0) := by omega
        simp only [header_loop, hlt, if_true, h1, hr1, hr2, if_false]
        rw [hloop, hneed2, List.append_assoc]

/-- The loop that reads the rest, on batches that deliver exactly the `remain` bytes still
expected: all of them are stored and the number of bytes stored is returned. -/
theorem rest_loop_arrivals (fuel : Nat) : ∀ (remain maxlen : Int) (packet : List Nat)
    (chunks : List (Nat × List Nat)) (rest : List SockEvent),
    1 ≤ maxlen → ((chunk_bytes chunks).length : Int) = remain → remain ≤ (fuel : Int) →
    rest_loop fuel remain maxlen packet (arrivals chunks rest)
      = ⟨ReceiveOutcome.returned ((packet ++ chunk_bytes chunks).length : Int),
          packet ++ chunk_bytes chunks, rest⟩ := by
  induction fuel with
  | zero =>
    intro remain maxlen packet chunks rest _ hbytes hfuel
    have hnil : chunks = [] := chunk_bytes_eq_nil chunks (List.length_eq_zero.mp (by omega))
    subst hnil
    simp [rest_loop, arrivals, chunk_bytes]
  | succ fuel ih =>
    intro remain maxlen packet chunks rest hmax hbytes hfuel
    cases chunks with
    | nil =>
      have hrem : ¬ remain > 0 := by
        simp only [chunk_bytes, List.length_nil, Nat.cast_zero] at hbytes
        omega
      simp [rest_loop, hrem, arrivals, chunk_bytes]
    | cons c chunks =>
      obtain ⟨got, chunks1, h1, h2, h3, h4⟩ :=
        timed_read_arrivals c chunks rest maxlen.toNat (by omega)
      have hgotpos : 0 < got.length := List.length_pos.mpr h2
      have hlen4 := congrArg List.length h4
      simp only [List.length_append] at hlen4
      have hrem : remain > 0 := by omega
      have hr1 : ¬ ((got.length : Int) < 0) := by omega
      have hr2 : ¬ ((got.length : Int) = 0) := by omega
      simp only [rest_loop, hrem, if_true, h1, hr1, hr2, if_false]
      rw [ih (remain - got.length) maxlen (packet ++ got) chunks1 rest hmax (by omega) (by omega),
        h4, List.append_assoc]

/-- The loop that reads the rest, on batches that deliver fewer bytes than are still expected
and are followed by the close of the connection: "connection closed by remote". -/
theorem rest_loop_closed (fuel : Nat) : ∀ (remain maxlen : Int) (packet : List Nat)
    (chunks : List (Nat × List Nat)),
    1 ≤ maxlen → ((chunk_bytes chunks).length : Int) < remain → remain ≤ (fuel : Int) →
    rest_loop fuel remain maxlen packet (arrivals chunks [])
      = ⟨ReceiveOutcome.failed ReceiveError.closed, packet ++ chunk_bytes chunks, []⟩ := by
  induction fuel with
  | zero =>
    intro remain maxlen packet chunks _ hbytes hfuel
    omega
  | succ fuel ih =>
    intro remain maxlen packet chunks hmax hbytes hfuel
    have hrem : remain > 0 := by omega
    cases chunks with
    | nil => simp [rest_loop, hrem, arrivals, chunk_bytes, timed_read, sock_read]
    | cons c chunks =>
      obtain ⟨got, chunks1, h1, h2, h3, h4⟩ :=
        timed_read_arrivals c chunks [] maxlen.toNat (by omega)
      have hgotpos : 0 < got.length := List.length_pos.mpr h2
      have hlen4 := congrArg List.length h4
      simp only [List.length_append] at hlen4
      have hr1 : ¬ ((got.length : Int) < 0) := by omega
      have hr2 : ¬ ((got.length : Int) = 0) := by omega
      simp only [rest_loop, hrem, if_true, h1, hr1, hr2, if_false]
      rw [ih (remain - got.length) maxlen (packet ++ got) chunks1 hmax (by omega) (by omega),
        h4, List.append_assoc]

/-- The loop that reads the rest, on batches that deliver fewer bytes than are still expected
and are followed by a pause longer than the timeout: "timeout reading the rest". -/
theorem rest_loop_stall (fuel : Nat) : ∀ (remain maxlen : Int) (packet : List Nat)
    (chunks : List (Nat × List Nat)) (rest : List SockEvent),
    1 ≤ maxlen → ((chunk_bytes chunks).length : Int) < remain → remain ≤ (fuel : Int) →
    rest_loop fuel remain maxlen packet (arrivals chunks (SockEvent.stall :: rest))
      = ⟨ReceiveOutcome.failed ReceiveError.rest_timeout,
          packet ++ chunk_bytes chunks ++ [0xff], rest⟩ := by
  induction fuel with
  | zero =>
    intro remain maxlen packet chunks rest _ hbytes hfuel
    omega
  | succ fuel ih =>
    intro remain maxlen packet chunks rest hmax hbytes hfuel
    have hrem : remain > 0 := by omega
    cases chunks with
    | nil => simp [rest_loop, hrem, arrivals, chunk_bytes, timed_read]
    | cons c chunks =>
      obtain ⟨got, chunks1, h1, h2, h3, h4⟩ :=
        timed_read_arrivals c chunks (SockEvent.stall :: rest) maxlen.toNat (by omega)
      have hgotpos : 0 < got.length := List.length_pos.mpr h2
      have hlen4 := congrArg List.length h4
      simp only [List.length_append] at hlen4
      have hr1 : ¬ ((got.length : Int) < 0) := by omega
      have hr2 : ¬ ((got.length : Int) = 0) := by omega
      simp only [rest_loop, hrem, if_true, h1, hr1, hr2, if_false]
      rw [ih (remain - got.length) maxlen (packet ++ got) chunks1 rest hmax (by omega)
        (by omega), h4]
      simp

/-- The call up to the check of the size, on batches that deliver the four header bytes
0xff, `b1`, `op`, `s` and then `more`, for a buffer of at least one byte. -/
theorem receive_header (chunks : List (Nat × List Nat)) (rest : List SockEvent)
    (maxlen : Int) (b1 op s : Nat) (more : List Nat) (hmax : 1 ≤ maxlen)
    (hbytes : chunk_bytes chunks = 0xff :: b1 :: op :: s :: more) :
    ∃ chunks1, chunk_bytes chunks1 = more ∧
      receive_reply_packet (arrivals chunks rest) maxlen =
        if (s : Int) > maxlen - 1 - 2 then
          ⟨ReceiveOutcome.failed (ReceiveError.size_too_large s (maxlen - 1)),
            [0xff, b1, op, s], arrivals chunks1 rest⟩
        else
          rest_loop ((s : Int) - 2).toNat ((s : Int) - 2) (maxlen - 1) [0xff, b1, op, s]
            (arrivals chunks1 rest) := by
  obtain ⟨n, hn⟩ : ∃ n : Nat, maxlen.toNat = n + 1 := ⟨maxlen.toNat - 1, by omega⟩
  obtain ⟨chunks0, hscan, hbytes0⟩ := scan_loop_marker n chunks rest _ hbytes
  obtain ⟨chunks1, hhead, hbytes1⟩ := header_loop_arrivals 3 [0xff] chunks0 rest [b1, op, s] more
    (by simp) (by simp) (by simpa using hbytes0)
  refine ⟨chunks1, hbytes1, ?_⟩
  unfold receive_reply_packet
  rw [hn, hscan]
  simp only [List.length_cons, List.length_nil]
  have h43 : 4 - (0 + 1) = 3 := rfl
  rw [h43, hhead]
  simp

/-! ### What every call of `receive_reply_packet` returns -/

theorem sock_read_length (fd : List SockEvent) : ∀ (len : Nat) (r : Int) (bytes : List Nat)
    (fd1 : List SockEvent), sock_read fd len = (r, bytes, fd1) → 0 < r →
    (bytes.length : Int) = r := by
  induction fd with
  | nil =>
    intro len r bytes fd1 h hr
    simp only [sock_read, Prod.mk.injEq] at h
    omega
  | cons ev fd ih =>
    intro len r bytes fd1 h hr
    cases ev with
    | stall => exact ih len r bytes fd1 (by simpa [sock_read] using h) hr
    | error =>
      simp only [sock_read, Prod.mk.injEq] at h
      omega
    | arrival b bs =>
      simp only [sock_read] at h
      split at h
      · simp only [Prod.mk.injEq] at h
        omega
      · split at h
        · simp only [Prod.mk.injEq] at h
          obtain ⟨h1, h2, _⟩ := h
          rw [← h2, ← h1]
          simp
        · rename_i b1 bytes1 hdrop
          simp only [Prod.mk.injEq] at h
          obtain ⟨h1, h2, _⟩ := h
          have hlt : len < (b :: bs).length := by
            by_contra hge
            have := List.drop_eq_nil_iff.mpr (not_lt.mp hge)
            rw [this] at hdrop
            exact List.noConfusion hdrop
          rw [← h2, ← h1, List.length_take]
          simp only [List.length_cons] at hlt ⊢
          omega

theorem timed_read_length (fd : List SockEvent) (len : Nat) (r : Int) (bytes : List Nat)
    (fd1 : List SockEvent) (h : timed_read fd len = (r, bytes, fd1)) (hr : 0 < r) :
    (bytes.length : Int) = r := by
  unfold timed_read at h
  split at h
  · simp only [Prod.mk.injEq] at h
    omega
  · exact sock_read_length _ len r bytes fd1 h hr

theorem header_loop_succ (fuel : Nat) (packet : List Nat) (fd : List SockEvent) (r : Int)
    (bytes : List Nat) (fd1 : List SockEvent) (hlt : packet.length < 4)
    (hread : timed_read fd (4 - packet.length) = (r, bytes, fd1)) :
    header_loop (fuel + 1) packet fd =
      if r < 0 then
        Sum.inl ⟨.failed (.header_timeout (4 - (packet.length : Int))), packet ++ bytes, fd1⟩
      else if r = 0 then Sum.inl ⟨.hangs, packet, fd1⟩
      else header_loop fuel (packet ++ bytes) fd1 := by
  rw [header_loop]
  simp only [hlt, if_true, hread]

theorem rest_loop_succ (fuel : Nat) (remain maxlen : Int) (packet : List Nat)
    (fd : List SockEvent) (r : Int) (bytes : List Nat) (fd1 : List SockEvent)
    (hrem : remain > 0) (hread : timed_read fd maxlen.toNat = (r, bytes, fd1)) :
    rest_loop (fuel + 1) remain maxlen packet fd =
      if r < 0 then ⟨.failed .rest_timeout, packet ++ bytes, fd1⟩
      else if r = 0 then ⟨.failed .closed, packet, fd1⟩
      else rest_loop fuel (remain - r) maxlen (packet ++ bytes) fd1 := by
  rw [rest_loop]
  simp only [hrem, if_true, hread]

/-- When the loop that reads the header is left, four bytes at least are stored, the first of
them being the bytes stored before. -/
theorem header_loop_inr (fuel : Nat) : ∀ (packet : List Nat) (fd : List SockEvent)
    (p : List Nat) (fd1 : List SockEvent), 4 ≤ packet.length + fuel →
    header_loop fuel packet fd = Sum.inr (p, fd1) → 4 ≤ p.length ∧ packet <+: p := by
  induction fuel with
  | zero =>
    intro packet fd p fd1 hlen h
    simp only [header_loop, Sum.inr.injEq, Prod.mk.injEq] at h
    rw [← h.1]
    exact ⟨by omega, List.prefix_refl _⟩
  | succ fuel ih =>
    intro packet fd p fd1 hlen h
    by_cases hlt : packet.length < 4
    · obtain ⟨r, bytes, fd2, hread⟩ : ∃ r bytes fd2,
          timed_read fd (4 - packet.length) = (r, bytes, fd2) := ⟨_, _, _, rfl⟩
      rw [header_loop_succ fuel packet fd r bytes fd2 hlt hread] at h
      split_ifs at h with hr1 hr2
      have hr : 0 < r := by omega
      have hb := timed_read_length _ _ _ _ _ hread hr
      obtain ⟨h4, hpre⟩ := ih (packet ++ bytes) fd2 p fd1
        (by simp only [List.length_append]; omega) h
      exact ⟨h4, (List.prefix_append packet bytes).trans hpre⟩
    · rw [header_loop_done _ _ _ (by omega)] at h
      simp only [Sum.inr.injEq, Prod.mk.injEq] at h
      rw [← h.1]
      exact ⟨by omega, List.prefix_refl _⟩

theorem header_loop_inl (fuel : Nat) : ∀ (packet : List Nat) (fd : List SockEvent)
    (stop : Received) (n : Int), header_loop fuel packet fd = Sum.inl stop →
    stop.outcome ≠ ReceiveOutcome.returned n := by
  induction fuel with
  | zero =>
    intro packet fd stop n h
    exact Sum.noConfusion h
  | succ fuel ih =>
    intro packet fd stop n h
    by_cases hlt : packet.length < 4
    · obtain ⟨r, bytes, fd2, hread⟩ : ∃ r bytes fd2,
          timed_read fd (4 - packet.length) = (r, bytes, fd2) := ⟨_, _, _, rfl⟩
      rw [header_loop_succ fuel packet fd r bytes fd2 hlt hread] at h
      split_ifs at h with hr1 hr2
      · simp only [Sum.inl.injEq] at h
        rw [← h]
        simp
      · simp only [Sum.inl.injEq] at h
        rw [← h]
        simp
      · exact ih _ _ stop n h
    · rw [header_loop_done _ _ _ (by omega)] at h
      exact Sum.noConfusion h

/-- When the loop that reads the rest returns a length, it is the number of bytes stored, the
bytes stored before are the first of them, and `remain` bytes at least have been added. -/
theorem rest_loop_returned (fuel : Nat) : ∀ (remain maxlen : Int) (packet : List Nat)
    (fd : List SockEvent) (n : Int), remain ≤ (fuel : Int) →
    (rest_loop fuel remain maxlen packet fd).outcome = ReceiveOutcome.returned n →
    n = ((rest_loop fuel remain maxlen packet fd).packet.length : Int) ∧
      (packet.length : Int) + remain ≤ n ∧
      packet <+: (rest_loop fuel remain maxlen packet fd).packet := by
  induction fuel with
  | zero =>
    intro remain maxlen packet fd n hfuel h
    simp only [rest_loop, ReceiveOutcome.returned.injEq] at h ⊢
    exact ⟨h.symm, by omega, List.prefix_refl _⟩
  | succ fuel ih =>
    intro remain maxlen packet fd n hfuel h
    by_cases hrem : remain > 0
    · obtain ⟨r, bytes, fd2, hread⟩ : ∃ r bytes fd2,
          timed_read fd maxlen.toNat = (r, bytes, fd2) := ⟨_, _, _, rfl⟩
      rw [rest_loop_succ fuel remain maxlen packet fd r bytes fd2 hrem hread] at h ⊢
      by_cases hr1 : r < 0
      · rw [if_pos hr1] at h
        exact absurd h (by simp)
      · rw [if_neg hr1] at h ⊢
        by_cases hr2 : r = 0
        · rw [if_pos hr2] at h
          exact absurd h (by simp)
        · rw [if_neg hr2] at h ⊢
          have hr : 0 < r := by omega
          have hb := timed_read_length _ _ _ _ _ hread hr
          obtain ⟨e1, e2, e3⟩ := ih (remain - r) maxlen (packet ++ bytes) fd2 n (by omega) h
          refine ⟨e1, ?_, (List.prefix_append packet bytes).trans e3⟩
          simp only [List.length_append, Nat.cast_add] at e2
          omega
    · have hout : rest_loop (fuel + 1) remain maxlen packet fd
          = ⟨.returned (packet.length : Int), packet, fd⟩ := by
        rw [rest_loop]
        simp only [hrem, if_false]
      rw [hout] at h ⊢
      simp only [ReceiveOutcome.returned.injEq] at h
      exact ⟨h.symm, by omega, List.prefix_refl _⟩

theorem receive_eq_of_scan (fd : List SockEvent) (maxlen r : Int) (c : Nat)
    (packet : List Nat) (fd1 : List SockEvent)
    (hscan : scan_loop maxlen.toNat 0 [] fd = (r, c, packet, fd1)) :
    receive_reply_packet fd maxlen =
      if r < 0 then ⟨.failed .read_error, packet, fd1⟩
      else if c ≠ 0xff then ⟨.failed (.first_byte c), packet, fd1⟩
      else
        match header_loop (4 - packet.length) packet fd1 with
        | Sum.inl stop => stop
        | Sum.inr (p, fd2) =>
          if ((p.getD 3 0 : Nat) : Int) > maxlen - (packet.length : Int) - 2 then
            ⟨.failed (.size_too_large (p.getD 3 0) (maxlen - (packet.length : Int))), p, fd2⟩
          else
            rest_loop (((p.getD 3 0 : Nat) : Int) - 2).toNat (((p.getD 3 0 : Nat) : Int) - 2)
              (maxlen - (packet.length : Int)) p fd2 := by
  unfold receive_reply_packet
  rw [hscan]

/-- Whenever `receive_reply_packet` returns a length `n`, on any input and for any `maxlen`,
`n` is the number of bytes stored and is at least `packet[3] + 2`. -/
theorem receive_returned (fd : List SockEvent) (maxlen n : Int)
    (h : (receive_reply_packet fd maxlen).outcome = ReceiveOutcome.returned n) :
    ∃ s : Nat, (receive_reply_packet fd maxlen).packet[3]? = some s ∧ (s : Int) + 2 ≤ n ∧
      n = ((receive_reply_packet fd maxlen).packet.length : Int) := by
  obtain ⟨r, c, packet, fd1, hscan⟩ : ∃ r c packet fd1,
      scan_loop maxlen.toNat 0 [] fd = (r, c, packet, fd1) := ⟨_, _, _, _, rfl⟩
  rw [receive_eq_of_scan fd maxlen r c packet fd1 hscan] at h ⊢
  by_cases hr : r < 0
  · rw [if_pos hr] at h
    exact absurd h (by simp)
  rw [if_neg hr] at h ⊢
  by_cases hc : c ≠ 0xff
  · rw [if_pos hc] at h
    exact absurd h (by simp)
  rw [if_neg hc] at h ⊢
  cases hhead : header_loop (4 - packet.length) packet fd1 with
  | inl stop =>
    rw [hhead] at h
    exact absurd h (header_loop_inl _ _ _ stop n hhead)
  | inr pf =>
    obtain ⟨p, fd2⟩ := pf
    rw [hhead] at h
    dsimp only at h ⊢
    obtain ⟨hp4, _⟩ := header_loop_inr _ packet fd1 p fd2 (by omega) hhead
    have hget : p[3]? = some (p.getD 3 0) := by
      rw [List.getD_eq_getElem?_getD, List.getElem?_eq_getElem (by omega)]
      simp
    by_cases hsize : ((p.getD 3 0 : Nat) : Int) > maxlen - (packet.length : Int) - 2
    · simp only [hsize, if_true] at h
      exact absurd h (by simp)
    · simp only [hsize, if_false] at h ⊢
      obtain ⟨e1, e2, e3⟩ := rest_loop_returned _ _ _ p fd2 n (by omega) h
      refine ⟨p.getD 3 0, ?_, by omega, e1⟩
      obtain ⟨t, ht⟩ := e3
      rw [← ht, List.getElem?_append_left (by omega)]
      exact hget

/-- C12 (failing inputs): with one byte 00 in front of the packet FF FF 50 03 53 and a buffer
of 1024 bytes, `receive_reply_packet` stores the leading byte as `packet[0]`, takes
`packet[3]` = 0x50 as the size, waits for 78 more bytes and returns -1 after "timeout reading
the rest" instead of returning the packet; and the packet FF FF 50 03 53 alone, for a buffer of
exactly five bytes, which it fits, is refused with "size in reply packet is too large for
buffer". -/
theorem receive_leading_byte_kept :
    receive_reply_packet [SockEvent.arrival 0x00 [0xff, 0xff, 0x50, 0x03, 0x53], SockEvent.stall]
        1024
      = ⟨ReceiveOutcome.failed ReceiveError.rest_timeout,
          [0x00, 0xff, 0xff, 0x50, 0x03, 0x53, 0xff], []⟩ ∧
    receive_reply_packet [SockEvent.arrival 0xff [0xff, 0x50, 0x03, 0x53]] 5
      = ⟨ReceiveOutcome.failed (ReceiveError.size_too_large 3 4),
          [0xff, 0xff, 0x50, 0x03], [SockEvent.arrival 0x53 []]⟩ := by
  decide

/-- C13: for every packet 0xff, `b1`, `op`, `s`, ... of `s + 2` bytes with `3 ≤ s ≤ 255` (a
well-formed framed packet has `b1` = 0xff), every `maxlen` of at least 258 and every way in
which the bytes of the packet arrive in successive non-empty batches, each within the timeout,
`receive_reply_packet` returns `s + 2` and has stored exactly the bytes of the packet, in
order; it reads nothing of what comes after these batches. -/
theorem receive_split_arrivals (chunks : List (Nat × List Nat)) (rest : List SockEvent)
    (maxlen : Int) (b1 op s : Nat) (body : List Nat) (hs3 : 3 ≤ s) (hs : s ≤ 255)
    (hmax : 258 ≤ maxlen) (hbytes : chunk_bytes chunks = 0xff :: b1 :: op :: s :: body)
    (hbody : body.length + 2 = s) :
    receive_reply_packet (arrivals chunks rest) maxlen
      = ⟨ReceiveOutcome.returned ((s : Int) + 2), chunk_bytes chunks, rest⟩ := by
  obtain ⟨chunks1, hbytes1, hrecv⟩ :=
    receive_header chunks rest maxlen b1 op s body (by omega) hbytes
  have hsize : ¬ ((s : Int) > maxlen - 1 - 2) := by omega
  rw [hrecv, if_neg hsize,
    rest_loop_arrivals _ ((s : Int) - 2) (maxlen - 1) [0xff, b1, op, s] chunks1 rest (by omega)
      (by rw [hbytes1]; omega) (by omega),
    hbytes1, hbytes]
  simp only [List.cons_append, List.nil_append, List.length_cons, Received.mk.injEq,
    ReceiveOutcome.returned.injEq, and_true]
  push_cast
  omega

/-- Witness of C13: the packet FF FF 50 03 53 arriving as FF, then FF 50, then 03 53. -/
theorem receive_split_arrivals_witness :
    3 ≤ 3 ∧ 3 ≤ 255 ∧ (258 : Int) ≤ 1024 ∧
    chunk_bytes [(0xff, []), (0xff, [0x50]), (0x03, [0x53])]
      = 0xff :: 0xff :: 0x50 :: 3 :: [0x53] ∧
    [0x53].length + 2 = 3 ∧
    receive_reply_packet (arrivals [(0xff, []), (0xff, [0x50]), (0x03, [0x53])] []) 1024
      = ⟨ReceiveOutcome.returned (((3 : Nat) : Int) + 2),
          chunk_bytes [(0xff, []), (0xff, [0x50]), (0x03, [0x53])], []⟩ :=
  ⟨by decide, by decide, by decide, by decide, by decide,
    receive_split_arrivals [(0xff, []), (0xff, [0x50]), (0x03, [0x53])] [] 1024 0xff 0x50 3
      [0x53] (by decide) (by decide) (by decide) (by decide) (by decide)⟩

/-- C14 (as stated) fails for a buffer without room for the header. For `maxlen` = 0 and the
input FF FF 50 04 07 5B (`s` = 4, `s + 2` = 6 > 0), `receive_reply_packet` reads the payload
byte 07 as the fourth header byte before it reports the size 7 as too large; for `maxlen` = 2
it stores the four header bytes although the buffer holds two. -/
theorem receive_small_buffer :
    receive_reply_packet [SockEvent.arrival 0xff [0xff, 0x50, 0x04, 0x07, 0x5b]] 0
      = ⟨ReceiveOutcome.failed (ReceiveError.size_too_large 7 0), [0xff, 0x50, 0x04, 0x07],
          [SockEvent.arrival 0x5b []]⟩ ∧
    receive_reply_packet [SockEvent.arrival 0xff [0xff, 0x50, 0x04, 0x07, 0x5b]] 2
      = ⟨ReceiveOutcome.failed (ReceiveError.size_too_large 4 1), [0xff, 0xff, 0x50, 0x04],
          [SockEvent.arrival 0x07 [0x5b]]⟩ := by
  decide

/-- C14 (amended): for every `maxlen` of at least 4 and every input that delivers, in
whatever batches, the header 0xff, `b1`, `op`, `s` with `s + 2 > maxlen` (and then `more`),
`receive_reply_packet` returns -1 with "size in reply packet is too large for buffer" after
storing the four header bytes only: the batches left deliver all of `more`, no byte after the
header has been read. -/
theorem receive_size_too_large (chunks : List (Nat × List Nat)) (rest : List SockEvent)
    (maxlen : Int) (b1 op s : Nat) (more : List Nat) (hmax : 4 ≤ maxlen)
    (hbytes : chunk_bytes chunks = 0xff :: b1 :: op :: s :: more)
    (hsize : maxlen < (s : Int) + 2) :
    ∃ chunks1, chunk_bytes chunks1 = more ∧
      receive_reply_packet (arrivals chunks rest) maxlen
        = ⟨ReceiveOutcome.failed (ReceiveError.size_too_large s (maxlen - 1)),
            [0xff, b1, op, s], arrivals chunks1 rest⟩ := by
  obtain ⟨chunks1, hbytes1, hrecv⟩ :=
    receive_header chunks rest maxlen b1 op s more (by omega) hbytes
  have hgt : (s : Int) > maxlen - 1 - 2 := by omega
  exact ⟨chunks1, hbytes1, by rw [hrecv, if_pos hgt]⟩

/-- Witness of C14 (amended): a reply that declares the size 0x20 for a buffer of 16 bytes. -/
theorem receive_size_too_large_witness :
    (4 : Int) ≤ 16 ∧
    chunk_bytes [(0xff, [0xff, 0x50]), (0x20, [1, 2, 3])] = 0xff :: 0xff :: 0x50 :: 0x20 :: [1, 2, 3] ∧
    (16 : Int) < ((0x20 : Nat) : Int) + 2 ∧
    ∃ chunks1, chunk_bytes chunks1 = [1, 2, 3] ∧
      receive_reply_packet (arrivals [(0xff, [0xff, 0x50]), (0x20, [1, 2, 3])] []) 16
        = ⟨ReceiveOutcome.failed (ReceiveError.size_too_large 0x20 (16 - 1)),
            [0xff, 0xff, 0x50, 0x20], arrivals chunks1 []⟩ :=
  ⟨by decide, by decide, by decide,
    receive_size_too_large [(0xff, [0xff, 0x50]), (0x20, [1, 2, 3])] [] 16 0xff 0x50 0x20
      [1, 2, 3] (by decide) (by decide) (by decide)⟩

/-- C15: for every input that delivers, in whatever batches, the header 0xff, `b1`, `op`, `s`
and then fewer than `s - 2` further bytes before the peer closes the connection or nothing
arrives within the timeout, `receive_reply_packet` (for a buffer that holds the header)
returns -1, with "connection closed by remote", "timeout reading the rest" or the message of
the size check; and on every input whatever, a length that it returns is the number of bytes
stored and is never less than `packet[3] + 2`. -/
theorem receive_truncated (chunks : List (Nat × List Nat)) (rest : List SockEvent)
    (maxlen : Int) (b1 op s : Nat) (part : List Nat) (hmax : 4 ≤ maxlen)
    (hbytes : chunk_bytes chunks = 0xff :: b1 :: op :: s :: part)
    (hpart : part.length + 2 < s)
    (hrest : rest = [] ∨ ∃ rest1, rest = SockEvent.stall :: rest1) :
    (∃ e, (receive_reply_packet (arrivals chunks rest) maxlen).outcome
          = ReceiveOutcome.failed e ∧
        (e = ReceiveError.closed ∨ e = ReceiveError.rest_timeout ∨
          e = ReceiveError.size_too_large s (maxlen - 1))) ∧
    ∀ (fd : List SockEvent) (maxlen1 n : Int),
      (receive_reply_packet fd maxlen1).outcome = ReceiveOutcome.returned n →
      ∃ s1 : Nat, (receive_reply_packet fd maxlen1).packet[3]? = some s1 ∧
        (s1 : Int) + 2 ≤ n ∧ n = ((receive_reply_packet fd maxlen1).packet.length : Int) := by
  refine ⟨?_, receive_returned⟩
  obtain ⟨chunks1, hbytes1, hrecv⟩ :=
    receive_header chunks rest maxlen b1 op s part (by omega) hbytes
  rw [hrecv]
  by_cases hsize : (s : Int) > maxlen - 1 - 2
  · rw [if_pos hsize]
    exact ⟨_, rfl, Or.inr (Or.inr rfl)⟩
  · rw [if_neg hsize]
    rcases hrest with hrest | ⟨rest1, hrest⟩
    · subst hrest
      rw [rest_loop_closed _ ((s : Int) - 2) (maxlen - 1) _ chunks1 (by omega)
        (by rw [hbytes1]; omega) (by omega)]
      exact ⟨_, rfl, Or.inl rfl⟩
    · subst hrest
      rw [rest_loop_stall _ ((s : Int) - 2) (maxlen - 1) _ chunks1 rest1 (by omega)
        (by rw [hbytes1]; omega) (by omega)]
      exact ⟨_, rfl, Or.inr (Or.inl rfl)⟩

/-- Witness of C15: the header FF FF 50 06 and one of four further bytes, then a pause. -/
theorem receive_truncated_witness :
    (4 : Int) ≤ 1024 ∧
    chunk_bytes [(0xff, [0xff]), (0x50, [0x06, 0x01])] = 0xff :: 0xff :: 0x50 :: 0x06 :: [0x01] ∧
    [0x01].length + 2 < 0x06 ∧
    (([SockEvent.stall] : List SockEvent) = [] ∨
      ∃ rest1, [SockEvent.stall] = SockEvent.stall :: rest1) ∧
    ((∃ e, (receive_reply_packet (arrivals [(0xff, [0xff]), (0x50, [0x06, 0x01])]
            [SockEvent.stall]) 1024).outcome = ReceiveOutcome.failed e ∧
        (e = ReceiveError.closed ∨ e = ReceiveError.rest_timeout ∨
          e = ReceiveError.size_too_large 0x06 (1024 - 1))) ∧
    ∀ (fd : List SockEvent) (maxlen1 n : Int),
      (receive_reply_packet fd maxlen1).outcome = ReceiveOutcome.returned n →
      ∃ s1 : Nat, (receive_reply_packet fd maxlen1).packet[3]? = some s1 ∧
        (s1 : Int) + 2 ≤ n ∧ n = ((receive_reply_packet fd maxlen1).packet.length : Int)) :=
  ⟨by decide, by decide, by decide, Or.inr ⟨[], rfl⟩,
    receive_truncated [(0xff, [0xff]), (0x50, [0x06, 0x01])] [SockEvent.stall] 1024 0xff 0x50
      0x06 [0x01] (by decide) (by decide) (by decide) (Or.inr ⟨[], rfl⟩)⟩

/-! ### The dispatch of `interpret_reply_packet` -/

theorem checksum_loop_some (packet : List Nat) (k : Nat) : ∀ (i computed : Nat),
    i + k ≤ packet.length → ∃ v, checksum_loop packet k i computed = some v := by
  induction k with
  | zero =>
    intro i computed _
    exact ⟨computed, rfl⟩
  | succ k ih =>
    intro i computed h
    have hi : i < packet.length := by omega
    obtain ⟨v, hv⟩ := ih (i + 1) ((computed + packet[i]) % 256) (by omega)
    exact ⟨v, by simp only [checksum_loop, List.getElem?_eq_getElem hi, hv]⟩

/-- The checksum verification reads inside of the buffer when the buffer holds the `length`
bytes of a reply. -/
theorem verify_checksum_some (packet : List Nat) (length : Int) (h1 : 1 ≤ length)
    (hcap : length ≤ (packet.length : Int)) (h2 : 2 ≤ packet.length) :
    ∃ log, verify_checksum packet length = some log := by
  have hlt : (length - 1).toNat < packet.length := by omega
  have hread : read_at packet (length - 1) = some packet[(length - 1).toNat] := by
    unfold read_at
    have hneg : ¬ (length - 1 < 0) := by omega
    simp only [hneg, if_false, List.getElem?_eq_getElem hlt]
  obtain ⟨v, hv⟩ := checksum_loop_some packet (length - 1 - 2).toNat 2 0 (by omega)
  unfold verify_checksum computed_checksum
  rw [hread, hv]
  dsimp only
  split <;> exact ⟨_, rfl⟩

theorem verify_checksum_none (packet : List Nat) (length : Int) (h : length ≤ 0) :
    verify_checksum packet length = none := by
  unfold verify_checksum read_at
  have hneg : length - 1 < 0 := by omega
  simp only [hneg, if_true]

/-- After valid marker bytes, `interpret_reply_packet` comes to the dispatch on the command
byte `packet[2]` with the messages of the checksum and of the command comparison. -/
theorem interpret_eq_dispatch (expectedcommand : Nat) (packet : List Nat) (length : Int)
    (command : Nat) (log : List ReplyEvent)
    (h0 : packet[0]? = some 0xff) (h1 : packet[1]? = some 0xff)
    (h2 : packet[2]? = some command) (hv : verify_checksum packet length = some log) :
    interpret_reply_packet expectedcommand packet length =
      match packet[3]? with
      | some size =>
        decode_payload packet command size (length - 5)
          (if expectedcommand ≠ command then
            log ++ [ReplyEvent.command_mismatch command (length - 3) expectedcommand]
          else log)
      | none =>
        ⟨if expectedcommand ≠ command then
            log ++ [ReplyEvent.command_mismatch command (length - 3) expectedcommand]
          else log, ReplyOutcome.out_of_bounds⟩ := by
  unfold interpret_reply_packet
  rw [h0, h1, hv, h2]
  cases packet[3]? <;> simp

theorem getElem?_two_length (packet : List Nat) (x : Nat) (h : packet[2]? = some x) :
    3 ≤ packet.length := by
  by_contra hlt
  rw [List.getElem?_eq_none (by omega)] at h
  exact Option.noConfusion h

/-- C20: for every reply buffer in which byte 0 or byte 1 differs from 0xff,
`interpret_reply_packet` prints "first two bytes are not ff ff" and returns -1, whatever the
expected command, the length and the other bytes are; nothing else is printed, no payload is
decoded. -/
theorem interpret_header_mismatch (expectedcommand : Nat) (packet : List Nat) (length : Int)
    (b0 b1 : Nat) (h0 : packet[0]? = some b0) (h1 : packet[1]? = some b1)
    (hne : b0 ≠ 0xff ∨ b1 ≠ 0xff) :
    interpret_reply_packet expectedcommand packet length
      = ⟨[ReplyEvent.header_error b0 b1], ReplyOutcome.returned (-1)⟩ := by
  unfold interpret_reply_packet
  rw [h0, h1]
  simp only [hne, if_true]

/-- Witness of C20: a reply with a valid first and a wrong second marker byte. -/
theorem interpret_header_mismatch_witness :
    [0xff, 0xfe, 0x50, 0x03, 0x53][0]? = some 0xff ∧
    [0xff, 0xfe, 0x50, 0x03, 0x53][1]? = some 0xfe ∧
    ((0xff : Nat) ≠ 0xff ∨ (0xfe : Nat) ≠ 0xff) ∧
    interpret_reply_packet 0x50 [0xff, 0xfe, 0x50, 0x03, 0x53] 5
      = ⟨[ReplyEvent.header_error 0xff 0xfe], ReplyOutcome.returned (-1)⟩ :=
  ⟨rfl, rfl, by decide,
    interpret_header_mismatch 0x50 [0xff, 0xfe, 0x50, 0x03, 0x53] 5 0xff 0xfe rfl rfl
      (by decide)⟩

/-- C16: for every reply buffer that holds the `length` bytes of a reply whose first two
bytes are 0xff and whose command byte is 0x26, `interpret_reply_packet` returns 0 if and only
if `length` = 11, and then the MAC address that it shows is the bytes 4 to 9 of the buffer,
in order. -/
theorem interpret_mac_reply (expectedcommand : Nat) (packet : List Nat) (length : Int)
    (h0 : packet[0]? = some 0xff) (h1 : packet[1]? = some 0xff)
    (h2 : packet[2]? = some CMD_READ_SATION_MAC) (hcap : length ≤ (packet.length : Int)) :
    ((interpret_reply_packet expectedcommand packet length).outcome = ReplyOutcome.returned 0
      ↔ length = 11) ∧
    (length = 11 →
      ReplyEvent.mac_address ((packet.drop 4).take 6)
        ∈ (interpret_reply_packet expectedcommand packet length).log ∧
      ((packet.drop 4).take 6).length = 6) := by
  have h3len := getElem?_two_length packet _ h2
  by_cases hpos : 1 ≤ length
  · obtain ⟨log, hv⟩ := verify_checksum_some packet length hpos hcap (by omega)
    rw [interpret_eq_dispatch expectedcommand packet length _ log h0 h1 h2 hv]
    by_cases h4 : 4 ≤ packet.length
    · rw [List.getElem?_eq_getElem (by omega)]
      dsimp only
      by_cases h10 : 4 + 6 ≤ packet.length
      · simp only [decode_payload, interpret_read_station_mac, GET_BUFFER, h10, if_true,
          check_consumed]
        have hr : (length - 5 - (length - 5 - ((6 : Nat) : Int)) > 0) := by omega
        simp only [hr, if_true]
        constructor
        · constructor
          · intro hout
            by_contra hne
            have hne2 : length - 5 - (length - 5 - (length - 5 - ((6 : Nat) : Int))) ≠ 0 := by
              omega
            rw [if_pos hne2] at hout
            exact ReplyOutcome.noConfusion hout
          · intro heq
            have hz : ¬ (length - 5 - (length - 5 - (length - 5 - ((6 : Nat) : Int))) ≠ 0) := by
              omega
            rw [if_neg hz]
        · intro heq
          have hz : ¬ (length - 5 - (length - 5 - (length - 5 - ((6 : Nat) : Int))) ≠ 0) := by
            omega
          rw [if_neg hz]
          refine ⟨by simp, ?_⟩
          rw [List.length_take, List.length_drop]
          omega
      · simp only [decode_payload, interpret_read_station_mac, GET_BUFFER, h10, if_false]
        constructor
        · constructor
          · intro hout
            exact ReplyOutcome.noConfusion hout
          · intro heq
            omega
        · intro heq
          omega
    · rw [List.getElem?_eq_none (by omega)]
      dsimp only
      constructor
      · constructor
        · intro hout
          exact ReplyOutcome.noConfusion hout
        · intro heq
          omega
      · intro heq
        omega
  · have hnone := verify_checksum_none packet length (by omega)
    have hint : interpret_reply_packet expectedcommand packet length
        = ⟨[], ReplyOutcome.out_of_bounds⟩ := by
      unfold interpret_reply_packet
      rw [h0, h1, hnone]
      simp
    rw [hint]
    constructor
    · constructor
      · intro hout
        exact ReplyOutcome.noConfusion hout
      · intro heq
        omega
    · intro heq
      omega

/-- Witness of C16: the reply that carries the MAC address 01:02:03:04:05:06. -/
theorem interpret_mac_reply_witness :
    [0xff, 0xff, 0x26, 0x09, 1, 2, 3, 4, 5, 6, 0x44][0]? = some 0xff ∧
    [0xff, 0xff, 0x26, 0x09, 1, 2, 3, 4, 5, 6, 0x44][1]? = some 0xff ∧
    [0xff, 0xff, 0x26, 0x09, 1, 2, 3, 4, 5, 6, 0x44][2]? = some CMD_READ_SATION_MAC ∧
    (11 : Int) ≤ ([0xff, 0xff, 0x26, 0x09, 1, 2, 3, 4, 5, 6, 0x44].length : Int) ∧
    (((interpret_reply_packet 0x26 [0xff, 0xff, 0x26, 0x09, 1, 2, 3, 4, 5, 6, 0x44] 11).outcome
        = ReplyOutcome.returned 0 ↔ (11 : Int) = 11) ∧
      ((11 : Int) = 11 →
        ReplyEvent.mac_address (([0xff, 0xff, 0x26, 0x09, 1, 2, 3, 4, 5, 6, 0x44].drop 4).take 6)
          ∈ (interpret_reply_packet 0x26 [0xff, 0xff, 0x26, 0x09, 1, 2, 3, 4, 5, 6, 0x44] 11).log ∧
        (([0xff, 0xff, 0x26, 0x09, 1, 2, 3, 4, 5, 6, 0x44].drop 4).take 6).length = 6)) :=
  ⟨rfl, rfl, rfl, by decide,
    interpret_mac_reply 0x26 [0xff, 0xff, 0x26, 0x09, 1, 2, 3, 4, 5, 6, 0x44] 11 rfl rfl rfl
      (by decide)⟩

/-- C17: for every reply buffer that holds the `length ≥ 6` bytes of a reply whose first two
bytes are 0xff and whose command byte is 0x50, `n` being byte 4, `interpret_reply_packet`
returns 0 if and only if `length = n + 6`, and then the version that it shows is the bytes 5
to `4 + n` of the buffer, in order. -/
theorem interpret_version_reply (expectedcommand : Nat) (packet : List Nat) (length : Int)
    (n : Nat) (h0 : packet[0]? = some 0xff) (h1 : packet[1]? = some 0xff)
    (h2 : packet[2]? = some CMD_READ_FIRMWARE_VERSION) (h4 : packet[4]? = some n)
    (h6 : 6 ≤ length) (hcap : length ≤ (packet.length : Int)) :
    ((interpret_reply_packet expectedcommand packet length).outcome = ReplyOutcome.returned 0
      ↔ length = (n : Int) + 6) ∧
    (length = (n : Int) + 6 →
      ReplyEvent.firmware_version ((packet.drop 5).take n)
        ∈ (interpret_reply_packet expectedcommand packet length).log ∧
      ((packet.drop 5).take n).length = n) := by
  obtain ⟨log, hv⟩ := verify_checksum_some packet length (by omega) hcap (by omega)
  rw [interpret_eq_dispatch expectedcommand packet length _ log h0 h1 h2 hv,
    List.getElem?_eq_getElem (by omega)]
  dsimp only
  have hcmd : ¬ (CMD_READ_FIRMWARE_VERSION = CMD_READ_SATION_MAC) := by decide
  by_cases hbuf : 4 + 1 + n ≤ packet.length
  · simp only [decode_payload, hcmd, if_false, if_true, interpret_read_firmware_version,
      GET_BYTE, h4, GET_BUFFER, hbuf, check_consumed]
    have hr : (length - 5 - (length - 5 - 1 - (n : Int)) > 0) := by omega
    simp only [hr, if_true]
    constructor
    · constructor
      · intro hout
        by_contra hne
        have hne2 : length - 5 - (length - 5 - (length - 5 - 1 - (n : Int))) ≠ 0 := by omega
        rw [if_pos hne2] at hout
        exact ReplyOutcome.noConfusion hout
      · intro heq
        have hz : ¬ (length - 5 - (length - 5 - (length - 5 - 1 - (n : Int))) ≠ 0) := by omega
        rw [if_neg hz]
    · intro heq
      have hz : ¬ (length - 5 - (length - 5 - (length - 5 - 1 - (n : Int))) ≠ 0) := by omega
      rw [if_neg hz]
      refine ⟨by simp, ?_⟩
      rw [List.length_take, List.length_drop]
      omega
  · simp only [decode_payload, hcmd, if_false, if_true, interpret_read_firmware_version,
      GET_BYTE, h4, GET_BUFFER, hbuf]
    constructor
    · constructor
      · intro hout
        exact ReplyOutcome.noConfusion hout
      · intro heq
        omega
    · intro heq
      omega

/-- Witness of C17: the reply that carries the version "ABC". -/
theorem interpret_version_reply_witness :
    [0xff, 0xff, 0x50, 0x07, 3, 65, 66, 67, 0x20][0]? = some 0xff ∧
    [0xff, 0xff, 0x50, 0x07, 3, 65, 66, 67, 0x20][1]? = some 0xff ∧
    [0xff, 0xff, 0x50, 0x07, 3, 65, 66, 67, 0x20][2]? = some CMD_READ_FIRMWARE_VERSION ∧
    [0xff, 0xff, 0x50, 0x07, 3, 65, 66, 67, 0x20][4]? = some 3 ∧
    (6 : Int) ≤ 9 ∧
    (9 : Int) ≤ ([0xff, 0xff, 0x50, 0x07, 3, 65, 66, 67, 0x20].length : Int) ∧
    (((interpret_reply_packet 0x50 [0xff, 0xff, 0x50, 0x07, 3, 65, 66, 67, 0x20] 9).outcome
        = ReplyOutcome.returned 0 ↔ (9 : Int) = ((3 : Nat) : Int) + 6) ∧
      ((9 : Int) = ((3 : Nat) : Int) + 6 →
        ReplyEvent.firmware_version (([0xff, 0xff, 0x50, 0x07, 3, 65, 66, 67, 0x20].drop 5).take 3)
          ∈ (interpret_reply_packet 0x50 [0xff, 0xff, 0x50, 0x07, 3, 65, 66, 67, 0x20] 9).log ∧
        (([0xff, 0xff, 0x50, 0x07, 3, 65, 66, 67, 0x20].drop 5).take 3).length = 3)) :=
  ⟨rfl, rfl, rfl, rfl, by decide, by decide,
    interpret_version_reply 0x50 [0xff, 0xff, 0x50, 0x07, 3, 65, 66, 67, 0x20] 9 3 rfl rfl rfl
      rfl (by decide) (by decide)⟩

/-- C18: for every reply buffer that holds the `length ≥ 6` bytes of a reply (one payload
byte at least) whose first two bytes are 0xff and whose command byte is 0x43,
`interpret_reply_packet` returns 0 if and only if the status byte, byte 4, is 0, and returns
-1 for every other status. -/
theorem interpret_update_reply (expectedcommand : Nat) (packet : List Nat) (length : Int)
    (status : Nat) (h0 : packet[0]? = some 0xff) (h1 : packet[1]? = some 0xff)
    (h2 : packet[2]? = some CMD_WRITE_UPDATE) (h4 : packet[4]? = some status)
    (h6 : 6 ≤ length) (hcap : length ≤ (packet.length : Int)) :
    ((interpret_reply_packet expectedcommand packet length).outcome = ReplyOutcome.returned 0
      ↔ status = 0) ∧
    (status ≠ 0 →
      (interpret_reply_packet expectedcommand packet length).outcome
        = ReplyOutcome.returned (-1)) := by
  obtain ⟨log, hv⟩ := verify_checksum_some packet length (by omega) hcap (by omega)
  rw [interpret_eq_dispatch expectedcommand packet length _ log h0 h1 h2 hv,
    List.getElem?_eq_getElem (by omega)]
  dsimp only
  have hcmd1 : ¬ (CMD_WRITE_UPDATE = CMD_READ_SATION_MAC) := by decide
  have hcmd2 : ¬ (CMD_WRITE_UPDATE = CMD_READ_FIRMWARE_VERSION) := by decide
  simp only [decode_payload, hcmd1, hcmd2, if_false, if_true, GET_BYTE, h4]
  by_cases hst : status = 0
  · simp [hst]
  · simp [hst]

/-- Witness of C18: the reply with the status 1. -/
theorem interpret_update_reply_witness :
    [0xff, 0xff, 0x43, 0x04, 0x01, 0x48][0]? = some 0xff ∧
    [0xff, 0xff, 0x43, 0x04, 0x01, 0x48][1]? = some 0xff ∧
    [0xff, 0xff, 0x43, 0x04, 0x01, 0x48][2]? = some CMD_WRITE_UPDATE ∧
    [0xff, 0xff, 0x43, 0x04, 0x01, 0x48][4]? = some 1 ∧
    (6 : Int) ≤ 6 ∧ (6 : Int) ≤ ([0xff, 0xff, 0x43, 0x04, 0x01, 0x48].length : Int) ∧
    (((interpret_reply_packet 0x43 [0xff, 0xff, 0x43, 0x04, 0x01, 0x48] 6).outcome
        = ReplyOutcome.returned 0 ↔ (1 : Nat) = 0) ∧
      ((1 : Nat) ≠ 0 →
        (interpret_reply_packet 0x43 [0xff, 0xff, 0x43, 0x04, 0x01, 0x48] 6).outcome
          = ReplyOutcome.returned (-1))) :=
  ⟨rfl, rfl, rfl, rfl, by decide, by decide,
    interpret_update_reply 0x43 [0xff, 0xff, 0x43, 0x04, 0x01, 0x48] 6 1 rfl rfl rfl rfl
      (by decide) (by decide)⟩

/-- C19 (failing input): the reply FF FF 43 05 00 07 4F to the command 0x43 has a valid
checksum and a payload of two bytes where the decoder consumes one; `interpret_reply_packet`
returns 0 as soon as it has read the status byte 0 and prints nothing, while the replies to
0x26 and 0x50 with a payload of the wrong length come to the check "LENGTH IS .. - should be
0" and end in `abort ()`. -/
theorem interpret_update_reply_unchecked :
    interpret_reply_packet 0x43 [0xff, 0xff, 0x43, 0x05, 0x00, 0x07, 0x4f] 7
      = ⟨[], ReplyOutcome.returned 0⟩ ∧
    interpret_reply_packet 0x26 [0xff, 0xff, 0x26, 0x0a, 1, 2, 3, 4, 5, 6, 7, 0x4c] 12
      = ⟨[ReplyEvent.mac_address [1, 2, 3, 4, 5, 6], ReplyEvent.length_nonzero 1 0x26],
          ReplyOutcome.aborted⟩ ∧
    interpret_reply_packet 0x50 [0xff, 0xff, 0x50, 0x05, 1, 65, 66, 0xd9] 8
      = ⟨[ReplyEvent.firmware_version [65], ReplyEvent.length_nonzero 1 0x50],
          ReplyOutcome.aborted⟩ := by
  decide

/-! ### The session after "end" -/

/-- The loop of `read_until_null` on bytes without a null that are followed by the close of
the connection: 0 is returned. -/
theorem read_until_null_loop_closed (junk : List Nat) : ∀ (remain : Nat) (buf : List Nat),
    (∀ b ∈ junk, b ≠ 0) → junk.length < remain →
    read_until_null_loop remain (sock_bytes junk) buf = (0, buf ++ junk ++ [0], []) := by
  induction junk with
  | nil =>
    intro remain buf _ hlen
    obtain ⟨n, rfl⟩ : ∃ n, remain = n + 1 := ⟨remain - 1, by simp at hlen; omega⟩
    simp [read_until_null_loop, sock_bytes]
  | cons b junk ih =>
    intro remain buf hnz hlen
    obtain ⟨n, rfl⟩ : ∃ n, remain = n + 1 := ⟨remain - 1, by simp at hlen; omega⟩
    have hb : ¬ b = 0 := hnz b (List.mem_cons_self _ _)
    have hrec := ih n (buf ++ [b]) (fun x hx => hnz x (List.mem_cons_of_mem _ hx))
      (by simp only [List.length_cons] at hlen; omega)
    simp only [sock_bytes] at hrec
    simp only [sock_bytes, List.map_cons, read_until_null_loop, hb, if_false, hrec]
    simp

/-- The loop body on "end" in the states `GOT_START` and `GOT_CONTINUE`. -/
theorem service_step_end_any (fd_user1 : List Nat) (fd_user2 : Option (List Nat)) (s : Session)
    (hs : s.currstate = GOT_START ∨ s.currstate = GOT_CONTINUE) :
    service_step fd_user1 fd_user2 s TOKEN_END
      = Step.next ⟨s.fwfd, s.packets_sent, s.bytes_sent, GOT_END, GOT_END⟩ [] := by
  obtain ⟨fwfd, packets_sent, bytes_sent, currstate, nextstate⟩ := s
  simp only at hs
  rcases hs with h | h <;> subst h <;>
    simp [service_step, decode_token_eq, service_transition, service_send]

/-- The loop body on any of the five tokens in the state `GOT_END`. -/
theorem service_step_got_end (fd_user1 : List Nat) (fd_user2 : Option (List Nat)) (s : Session)
    (token : List Nat) (hs : s.currstate = GOT_END)
    (ht : token ∈ [TOKEN_USER1, TOKEN_USER2, TOKEN_START, TOKEN_CONTINUE, TOKEN_END]) :
    service_step fd_user1 fd_user2 s token = Step.exited 11 := by
  obtain ⟨fwfd, packets_sent, bytes_sent, currstate, nextstate⟩ := s
  simp only at hs
  subst hs
  simp only [List.mem_cons, List.mem_singleton, List.not_mem_nil, or_false] at ht
  rcases ht with h | h | h | h | h <;> subst h <;>
    simp [service_step, decode_token_eq, service_transition]

theorem read_until_null_any_token (token : List Nat)
    (ht : token ∈ [TOKEN_USER1, TOKEN_USER2, TOKEN_START, TOKEN_CONTINUE, TOKEN_END])
    (rest : List SockRead) :
    ∃ linelen : Int, 0 < linelen ∧
      read_until_null (sock_bytes token ++ rest) BUFSIZ = (linelen, token, rest) := by
  simp only [List.mem_cons, List.mem_singleton, List.not_mem_nil, or_false] at ht
  rcases ht with h | h | h | h | h <;> subst h
  · exact ⟨10, by norm_num, read_until_null_user1 rest⟩
  · exact ⟨10, by norm_num, read_until_null_user2 rest⟩
  · exact ⟨6, by norm_num, read_until_null_start rest⟩
  · exact ⟨9, by norm_num, read_until_null_continue rest⟩
  · exact ⟨4, by norm_num, read_until_null_end rest⟩

/-- The dispatch adds its messages to the log that it is given, and neither they nor the
outcome depend on that log. -/
theorem decode_payload_append (packet : List Nat) (command size : Nat) (length : Int)
    (log : List ReplyEvent) :
    decode_payload packet command size length log
      = ⟨log ++ (decode_payload packet command size length []).log,
          (decode_payload packet command size length []).outcome⟩ := by
  unfold decode_payload
  split_ifs
  · cases interpret_read_station_mac packet 4 length with
    | none => simp
    | some p =>
      obtain ⟨ev, r⟩ := p
      simp only [check_consumed]
      split_ifs <;> simp
  · cases interpret_read_firmware_version packet 4 length with
    | none => simp
    | some p =>
      obtain ⟨ev, r⟩ := p
      simp only [check_consumed]
      split_ifs <;> simp
  · cases GET_BYTE packet 4 length with
    | none => simp
    | some p =>
      obtain ⟨status, q⟩ := p
      dsimp only
      split_ifs <;> simp
  · cases GET_BYTE packet 4 length with
    | none => simp
    | some p =>
      obtain ⟨status, q⟩ := p
      simp

/-- No message of the dispatch is the one about the expected command. -/
theorem decode_payload_no_mismatch (packet : List Nat) (command size : Nat) (length : Int) :
    (decode_payload packet command size length []).log.filter
      (fun e => !is_command_mismatch e) = (decode_payload packet command size length []).log := by
  unfold decode_payload
  split_ifs
  · unfold interpret_read_station_mac
    cases GET_BUFFER 6 packet 4 length with
    | none => simp
    | some p =>
      obtain ⟨macaddress, q1, q2⟩ := p
      simp only [check_consumed]
      split_ifs <;> simp [is_command_mismatch]
  · unfold interpret_read_firmware_version
    cases GET_BYTE packet 4 length with
    | none => simp
    | some p =>
      obtain ⟨n, q1, q2⟩ := p
      dsimp only
      cases GET_BUFFER n packet q1 q2 with
      | none => simp
      | some p2 =>
        obtain ⟨buffer, q3, q4⟩ := p2
        simp only [check_consumed]
        split_ifs <;> simp [is_command_mismatch]
  · cases GET_BYTE packet 4 length with
    | none => simp
    | some p =>
      obtain ⟨status, q⟩ := p
      dsimp only
      split_ifs <;> simp
  · cases GET_BYTE packet 4 length with
    | none => simp
    | some p =>
      obtain ⟨status, q⟩ := p
      simp [is_command_mismatch]

theorem verify_checksum_no_mismatch (packet : List Nat) (length : Int) (log : List ReplyEvent)
    (h : verify_checksum packet length = some log) :
    log.filter (fun e => !is_command_mismatch e) = log := by
  unfold verify_checksum at h
  split at h
  · split_ifs at h <;> simp only [Option.some.injEq] at h <;> subst h <;>
      simp [is_command_mismatch]
  · exact Option.noConfusion h

/-- C22: for every reply buffer, every length and every two expected commands `e1` and `e2`,
`interpret_reply_packet` ends in the same way (the same returned value, or `abort ()`), and
prints the same messages but for the one about the received command not being the expected
one: the expected command takes no part in the decoding, which follows `packet[2]`. -/
theorem interpret_expected_irrelevant (e1 e2 : Nat) (packet : List Nat) (length : Int) :
    (interpret_reply_packet e1 packet length).outcome
      = (interpret_reply_packet e2 packet length).outcome ∧
    (interpret_reply_packet e1 packet length).log.filter (fun e => !is_command_mismatch e)
      = (interpret_reply_packet e2 packet length).log.filter
          (fun e => !is_command_mismatch e) := by
  unfold interpret_reply_packet
  cases packet[0]? with
  | none => simp
  | some b0 =>
    cases packet[1]? with
    | none => simp
    | some b1 =>
      dsimp only
      by_cases hne : b0 ≠ 0xff ∨ b1 ≠ 0xff
      · simp only [hne, if_true, and_self]
      · simp only [hne, if_false]
        cases hv : verify_checksum packet length with
        | none => simp
        | some log =>
          have hlog := verify_checksum_no_mismatch packet length log hv
          dsimp only
          cases packet[2]? with
          | none => simp
          | some command =>
            dsimp only
            have hmis : ∀ e : Nat,
                (if e ≠ command then
                    log ++ [ReplyEvent.command_mismatch command (length - 3) e]
                  else log).filter (fun e => !is_command_mismatch e) = log := by
              intro e
              split_ifs
              · rw [List.filter_append, hlog]
                simp [is_command_mismatch]
              · exact hlog
            cases packet[3]? with
            | none => simp only [hmis, and_self]
            | some size =>
              dsimp only
              rw [decode_payload_append packet command size (length - 5)
                  (if e1 ≠ command then _ else _),
                decode_payload_append packet command size (length - 5)
                  (if e2 ≠ command then _ else _)]
              simp only [List.filter_append, hmis, true_and]

theorem take_drop_set (l : List Nat) (k c a n : Nat) (h : a + n ≤ k) :
    ((l.set k c).drop a).take n = (l.drop a).take n := by
  apply List.ext_getElem?
  intro i
  by_cases hi : i < n
  · rw [List.getElem?_take_of_lt hi, List.getElem?_take_of_lt hi, List.getElem?_drop,
      List.getElem?_drop, List.getElem?_set_ne (by omega)]
  · rw [List.getElem?_take_eq_none (by omega), List.getElem?_take_eq_none (by omega)]

theorem checksum_loop_set (packet : List Nat) (k c : Nat) (count : Nat) :
    ∀ (i computed : Nat), i + count ≤ k →
    checksum_loop (packet.set k c) count i computed = checksum_loop packet count i computed := by
  induction count with
  | zero =>
    intro i computed _
    rfl
  | succ count ih =>
    intro i computed h
    simp only [checksum_loop]
    rw [List.getElem?_set_ne (by omega)]
    cases packet[i]? with
    | none => rfl
    | some v => exact ih (i + 1) _ (by omega)

/-- Every message of the checksum verification is the one about the checksum. -/
theorem verify_checksum_filter (packet : List Nat) (length : Int) (log : List ReplyEvent)
    (h : verify_checksum packet length = some log) :
    log.filter (fun e => !is_checksum_error e) = [] := by
  unfold verify_checksum at h
  split at h
  · split_ifs at h <;> simp only [Option.some.injEq] at h <;> subst h <;>
      simp [is_checksum_error]
  · exact Option.noConfusion h

/-- The dispatch on a buffer in which the byte `k`, at or after byte 5, is replaced, `length`
being `k + 1`: the same outcome, and the same messages when a value is returned. -/
theorem decode_payload_set (packet : List Nat) (k c command size : Nat) (length : Int)
    (hk : 5 ≤ k) (hlen : length = (k : Int) + 1) :
    (decode_payload (packet.set k c) command size (length - 5) []).outcome
      = (decode_payload packet command size (length - 5) []).outcome ∧
    ∀ r, (decode_payload packet command size (length - 5) []).outcome
        = ReplyOutcome.returned r →
      (decode_payload (packet.set k c) command size (length - 5) []).log
        = (decode_payload packet command size (length - 5) []).log := by
  have h4 : (packet.set k c)[4]? = packet[4]? := List.getElem?_set_ne (by omega)
  unfold decode_payload
  split_ifs with hc1 hc2 hc3
  · simp only [interpret_read_station_mac, GET_BUFFER, List.length_set]
    by_cases hbuf : 4 + 6 ≤ packet.length
    · simp only [hbuf, if_true, check_consumed]
      have hr : (length - 5 - (length - 5 - ((6 : Nat) : Int)) > 0) := by omega
      simp only [hr, if_true]
      by_cases hz : length - 5 - (length - 5 - (length - 5 - ((6 : Nat) : Int))) ≠ 0
      · simp only [if_pos hz, true_and]
        intro r hr
        exact ReplyOutcome.noConfusion hr
      · simp only [if_neg hz, true_and]
        intro r _
        rw [take_drop_set packet k c 4 6 (by omega)]
    · simp [hbuf]
  · simp only [interpret_read_firmware_version, GET_BYTE, h4]
    cases packet[4]? with
    | none => simp
    | some n =>
      simp only [GET_BUFFER, List.length_set]
      by_cases hbuf : 4 + 1 + n ≤ packet.length
      · simp only [hbuf, if_true, check_consumed]
        have hr : (length - 5 - (length - 5 - 1 - (n : Int)) > 0) := by omega
        simp only [hr, if_true]
        by_cases hz : length - 5 - (length - 5 - (length - 5 - 1 - (n : Int))) ≠ 0
        · simp only [if_pos hz, true_and]
          intro r hr
          exact ReplyOutcome.noConfusion hr
        · simp only [if_neg hz, true_and]
          intro r _
          rw [take_drop_set packet k c (4 + 1) n (by omega)]
      · simp [hbuf]
  · simp only [GET_BYTE, h4]
    cases packet[4]? with
    | none => simp
    | some status =>
      dsimp only
      split_ifs <;> simp
  · simp only [GET_BYTE, h4]
    cases packet[4]? with
    | none => simp
    | some status => simp

/-- C21: for every reply buffer that holds the `length ≥ 6` bytes of a reply with both marker
bytes 0xff, replacing the trailing checksum byte `packet[length-1]` by any value `c` does not
change how `interpret_reply_packet` ends (the same returned value, or `abort ()`); and when a
value is returned the messages are the same but for the one about the checksum: the decoding
does not depend on the checksum. -/
theorem interpret_checksum_irrelevant (expectedcommand : Nat) (packet : List Nat) (length : Int)
    (c : Nat) (h0 : packet[0]? = some 0xff) (h1 : packet[1]? = some 0xff) (h6 : 6 ≤ length)
    (hcap : length ≤ (packet.length : Int)) :
    (interpret_reply_packet expectedcommand (packet.set (length - 1).toNat c) length).outcome
      = (interpret_reply_packet expectedcommand packet length).outcome ∧
    ∀ r, (interpret_reply_packet expectedcommand packet length).outcome
        = ReplyOutcome.returned r →
      (interpret_reply_packet expectedcommand (packet.set (length - 1).toNat c) length).log.filter
          (fun e => !is_checksum_error e)
        = (interpret_reply_packet expectedcommand packet length).log.filter
          (fun e => !is_checksum_error e) := by
  obtain ⟨k, hk⟩ : ∃ k : Nat, (length - 1).toNat = k := ⟨_, rfl⟩
  rw [hk]
  have hk5 : 5 ≤ k := by omega
  have hklt : k < packet.length := by omega
  have hlen : length = (k : Int) + 1 := by omega
  have hset : ∀ i, i ≠ k → (packet.set k c)[i]? = packet[i]? :=
    fun i hi => List.getElem?_set_ne (by omega)
  obtain ⟨log, hv⟩ := verify_checksum_some packet length (by omega) hcap (by omega)
  obtain ⟨log1, hv1⟩ := verify_checksum_some (packet.set k c) length (by omega)
    (by rw [List.length_set]; exact hcap) (by rw [List.length_set]; omega)
  have hf := verify_checksum_filter packet length log hv
  have hf1 := verify_checksum_filter _ length log1 hv1
  obtain ⟨command, h2⟩ : ∃ command, packet[2]? = some command :=
    ⟨_, List.getElem?_eq_getElem (by omega)⟩
  obtain ⟨size, h3⟩ : ∃ size, packet[3]? = some size :=
    ⟨_, List.getElem?_eq_getElem (by omega)⟩
  rw [interpret_eq_dispatch expectedcommand packet length command log h0 h1 h2 hv,
    interpret_eq_dispatch expectedcommand (packet.set k c) length command log1
      (by rw [hset 0 (by omega)]; exact h0) (by rw [hset 1 (by omega)]; exact h1)
      (by rw [hset 2 (by omega)]; exact h2) hv1,
    hset 3 (by omega), h3]
  dsimp only
  have hmis : (if expectedcommand ≠ command then
        log1 ++ [ReplyEvent.command_mismatch command (length - 3) expectedcommand]
      else log1).filter (fun e => !is_checksum_error e)
      = (if expectedcommand ≠ command then
        log ++ [ReplyEvent.command_mismatch command (length - 3) expectedcommand]
      else log).filter (fun e => !is_checksum_error e) := by
    split_ifs
    · rw [List.filter_append, List.filter_append, hf, hf1]
    · rw [hf, hf1]
  rw [decode_payload_append packet command size (length - 5)
      (if expectedcommand ≠ command then
        log ++ [ReplyEvent.command_mismatch command (length - 3) expectedcommand]
      else log),
    decode_payload_append (packet.set k c) command size (length - 5)
      (if expectedcommand ≠ command then
        log1 ++ [ReplyEvent.command_mismatch command (length - 3) expectedcommand]
      else log1)]
  obtain ⟨hout, hlog⟩ := decode_payload_set packet k c command size length hk5 hlen
  refine ⟨hout, ?_⟩
  intro r hr
  dsimp only at hr ⊢
  rw [List.filter_append, List.filter_append, hlog r hr, hmis]

/-- Witness of C21: the reply with the version "ABC", its checksum 0x20 replaced by 0. -/
theorem interpret_checksum_irrelevant_witness :
    [0xff, 0xff, 0x50, 0x07, 3, 65, 66, 67, 0x20][0]? = some 0xff ∧
    [0xff, 0xff, 0x50, 0x07, 3, 65, 66, 67, 0x20][1]? = some 0xff ∧
    (6 : Int) ≤ 9 ∧
    (9 : Int) ≤ ([0xff, 0xff, 0x50, 0x07, 3, 65, 66, 67, 0x20].length : Int) ∧
    ((interpret_reply_packet 0x50
          ([0xff, 0xff, 0x50, 0x07, 3, 65, 66, 67, 0x20].set ((9 : Int) - 1).toNat 0) 9).outcome
        = (interpret_reply_packet 0x50 [0xff, 0xff, 0x50, 0x07, 3, 65, 66, 67, 0x20] 9).outcome ∧
      ∀ r, (interpret_reply_packet 0x50 [0xff, 0xff, 0x50, 0x07, 3, 65, 66, 67, 0x20] 9).outcome
          = ReplyOutcome.returned r →
        (interpret_reply_packet 0x50
            ([0xff, 0xff, 0x50, 0x07, 3, 65, 66, 67, 0x20].set ((9 : Int) - 1).toNat 0)
            9).log.filter (fun e => !is_checksum_error e)
          = (interpret_reply_packet 0x50 [0xff, 0xff, 0x50, 0x07, 3, 65, 66, 67, 0x20]
            9).log.filter (fun e => !is_checksum_error e)) :=
  ⟨rfl, rfl, by decide, by decide,
    interpret_checksum_irrelevant 0x50 [0xff, 0xff, 0x50, 0x07, 3, 65, 66, 67, 0x20] 9 0 rfl rfl
      (by decide) (by decide)⟩

theorem getD_of_getElem? (packet : List Nat) (i b : Nat) (h : packet[i]? = some b) :
    packet.getD i 0 = b := by
  rw [List.getD_eq_getElem?_getD, h]
  rfl

/-- C23 (as stated) fails: for the reply FF FF 27 04 00 2B, whose opcode 0x27 is none of
0x26, 0x50, 0x43, and for the reply FF FF 50 07 02 41 42 43 1F to 0x50, whose length byte 2 is
followed by three bytes, `interpret_reply_packet` prints its report and calls `abort ()`: no
result is returned to the caller. -/
theorem interpret_aborts :
    interpret_reply_packet 0x27 [0xff, 0xff, 0x27, 0x04, 0x00, 0x2b] 6
      = ⟨[ReplyEvent.unhandled_case 0x27 0 4], ReplyOutcome.aborted⟩ ∧
    interpret_reply_packet 0x50 [0xff, 0xff, 0x50, 0x07, 0x02, 0x41, 0x42, 0x43, 0x1f] 9
      = ⟨[ReplyEvent.firmware_version [0x41, 0x42], ReplyEvent.length_nonzero 1 0x50],
          ReplyOutcome.aborted⟩ := by
  decide

/-- C23 (amended): for every reply buffer that holds the `length` bytes of a reply and has
room for the fields that the decoders read (ten bytes, and byte 4 plus five),
`interpret_reply_packet` returns a value to its caller in these cases: -1 when a marker byte
is not 0xff; 0 for the command 0x26 when `length` is 11; 0 for the command 0x50 when `length`
is byte 4 plus 6; 0 or -1 for the command 0x43, as byte 4 is 0 or not. In every other case,
a command other than 0x26, 0x50 and 0x43 or a reply to 0x26 or 0x50 of another length, it
calls `abort ()`. -/
theorem interpret_returns_or_aborts (expectedcommand : Nat) (packet : List Nat) (length : Int)
    (hpos : 1 ≤ length) (hcap : length ≤ (packet.length : Int)) (hroom : 10 ≤ packet.length)
    (hversion : 5 + packet.getD 4 0 ≤ packet.length) :
    (interpret_reply_packet expectedcommand packet length).outcome =
      if packet.getD 0 0 ≠ 0xff ∨ packet.getD 1 0 ≠ 0xff then ReplyOutcome.returned (-1)
      else if packet.getD 2 0 = CMD_READ_SATION_MAC then
        (if length = 11 then ReplyOutcome.returned 0 else ReplyOutcome.aborted)
      else if packet.getD 2 0 = CMD_READ_FIRMWARE_VERSION then
        (if length = (packet.getD 4 0 : Int) + 6 then ReplyOutcome.returned 0
          else ReplyOutcome.aborted)
      else if packet.getD 2 0 = CMD_WRITE_UPDATE then
        (if packet.getD 4 0 = 0 then ReplyOutcome.returned 0 else ReplyOutcome.returned (-1))
      else ReplyOutcome.aborted := by
  obtain ⟨b0, h0⟩ : ∃ b, packet[0]? = some b := ⟨_, List.getElem?_eq_getElem (by omega)⟩
  obtain ⟨b1, h1⟩ : ∃ b, packet[1]? = some b := ⟨_, List.getElem?_eq_getElem (by omega)⟩
  obtain ⟨command, h2⟩ : ∃ b, packet[2]? = some b := ⟨_, List.getElem?_eq_getElem (by omega)⟩
  obtain ⟨size, h3⟩ : ∃ b, packet[3]? = some b := ⟨_, List.getElem?_eq_getElem (by omega)⟩
  obtain ⟨n, h4⟩ : ∃ b, packet[4]? = some b := ⟨_, List.getElem?_eq_getElem (by omega)⟩
  rw [getD_of_getElem? packet 4 n h4] at hversion
  rw [getD_of_getElem? packet 0 b0 h0, getD_of_getElem? packet 1 b1 h1,
    getD_of_getElem? packet 2 command h2, getD_of_getElem? packet 4 n h4]
  by_cases hne : b0 ≠ 0xff ∨ b1 ≠ 0xff
  · rw [if_pos hne]
    unfold interpret_reply_packet
    rw [h0, h1]
    simp only [hne, if_true]
  · rw [if_neg hne]
    have hb0 : b0 = 0xff := by
      by_contra h
      exact hne (Or.inl h)
    have hb1 : b1 = 0xff := by
      by_contra h
      exact hne (Or.inr h)
    subst hb0 hb1
    obtain ⟨log, hv⟩ := verify_checksum_some packet length hpos hcap (by omega)
    rw [interpret_eq_dispatch expectedcommand packet length command log h0 h1 h2 hv, h3]
    dsimp only
    rw [decode_payload_append]
    dsimp only
    unfold decode_payload
    have hbuf : 4 + 6 ≤ packet.length := by omega
    have hbufv : 4 + 1 + n ≤ packet.length := by omega
    split_ifs with hc1 hl hc2 hl hc3 hst <;>
      simp only [interpret_read_station_mac, interpret_read_firmware_version, GET_BYTE,
        GET_BUFFER, h4, hbuf, hbufv, if_true, check_consumed] <;>
      first
        | rfl
        | (have hr : (length - 5 - (length - 5 - ((6 : Nat) : Int)) > 0) := by omega
           simp only [hr, if_true]
           split_ifs <;> first | rfl | omega)
        | (have hr : (length - 5 - (length - 5 - 1 - (n : Int)) > 0) := by omega
           simp only [hr, if_true]
           split_ifs <;> first | rfl | omega)
        | simp_all

/-- Witness of C23: the reply FF FF 26 09 01 02 03 04 05 06 44 with the MAC address
01:02:03:04:05:06, of length 11. -/
theorem interpret_returns_or_aborts_witness :
    (1 : Int) ≤ 11 ∧
    (11 : Int) ≤ ([0xff, 0xff, 0x26, 0x09, 1, 2, 3, 4, 5, 6, 0x44].length : Int) ∧
    10 ≤ [0xff, 0xff, 0x26, 0x09, 1, 2, 3, 4, 5, 6, 0x44].length ∧
    5 + [0xff, 0xff, 0x26, 0x09, 1, 2, 3, 4, 5, 6, 0x44].getD 4 0
      ≤ [0xff, 0xff, 0x26, 0x09, 1, 2, 3, 4, 5, 6, 0x44].length ∧
    (interpret_reply_packet 0x26 [0xff, 0xff, 0x26, 0x09, 1, 2, 3, 4, 5, 6, 0x44] 11).outcome =
      if [0xff, 0xff, 0x26, 0x09, 1, 2, 3, 4, 5, 6, 0x44].getD 0 0 ≠ 0xff ∨
          [0xff, 0xff, 0x26, 0x09, 1, 2, 3, 4, 5, 6, 0x44].getD 1 0 ≠ 0xff then
        ReplyOutcome.returned (-1)
      else if [0xff, 0xff, 0x26, 0x09, 1, 2, 3, 4, 5, 6, 0x44].getD 2 0 = CMD_READ_SATION_MAC then
        (if (11 : Int) = 11 then ReplyOutcome.returned 0 else ReplyOutcome.aborted)
      else if [0xff, 0xff, 0x26, 0x09, 1, 2, 3, 4, 5, 6, 0x44].getD 2 0
          = CMD_READ_FIRMWARE_VERSION then
        (if (11 : Int)
            = ([0xff, 0xff, 0x26, 0x09, 1, 2, 3, 4, 5, 6, 0x44].getD 4 0 : Int) + 6 then
          ReplyOutcome.returned 0
          else ReplyOutcome.aborted)
      else if [0xff, 0xff, 0x26, 0x09, 1, 2, 3, 4, 5, 6, 0x44].getD 2 0 = CMD_WRITE_UPDATE then
        (if [0xff, 0xff, 0x26, 0x09, 1, 2, 3, 4, 5, 6, 0x44].getD 4 0 = 0 then
          ReplyOutcome.returned 0
          else ReplyOutcome.returned (-1))
      else ReplyOutcome.aborted :=
  ⟨by decide, by decide, by decide, by decide,
    interpret_returns_or_aborts 0x26 [0xff, 0xff, 0x26, 0x09, 1, 2, 3, 4, 5, 6, 0x44] 11
      (by decide) (by decide) (by decide) (by decide)⟩

/-! ### The control operations -/

theorem ntohl_in_addr_value (a b c d : Nat) (ha : a < 256) (hb : b < 256) (hc : c < 256)
    (hd : d < 256) :
    ntohl (in_addr_value a b c d) = a * 2 ^ 24 + b * 2 ^ 16 + c * 2 ^ 8 + d := by
  unfold ntohl in_addr_value
  norm_num
  omega

theorem ntohs_sin_port_value (P : Nat) (hP : P < 65536) :
    ntohs (sin_port_value P) = P := by
  unfold ntohs sin_port_value
  have hq : P / 256 < 256 := by omega
  have hr : P % 256 < 256 := Nat.mod_lt _ (by norm_num)
  have hx : (P / 256 + P % 256 * 2 ^ 8) % 2 ^ 16 = P / 256 + P % 256 * 2 ^ 8 :=
    Nat.mod_eq_of_lt (by omega)
  simp only [hx]
  have h1 : (P / 256 + P % 256 * 2 ^ 8) % 256 = P / 256 := by omega
  have h2 : (P / 256 + P % 256 * 2 ^ 8) / 2 ^ 8 % 256 = P % 256 := by omega
  rw [h1, h2]
  omega

theorem safe_write_all (bufp : List Nat) (len : Int) (h : len = (bufp.length : Int)) :
    safe_write [] bufp len = (len, bufp, []) := by
  subst h
  simp [safe_write, safe_write_loop]

/-- C24: for every callback address a.b.c.d and every callback port `P` below 65536, held in
network byte order in the arguments of `write_update`, the request that `write_update` builds
is the 11 bytes FF FF 43 09 a b c d (P div 256) (P mod 256) checksum, the checksum being the
8-bit sum of the bytes from 43 on; and these are the bytes that `write_update` writes to a
socket that takes them. -/
theorem write_update_request_bytes (a b c d P : Nat) (ha : a < 256) (hb : b < 256)
    (hc : c < 256) (hd : d < 256) (hP : P < 65536) :
    write_update_request (in_addr_value a b c d) (sin_port_value P)
      = ([0xff, 0xff, 0x43, 0x09, a, b, c, d, P / 256, P % 256,
          (0x43 + 0x09 + a + b + c + d + P / 256 + P % 256) % 256], 11) ∧
    ∀ fd : List SockEvent,
      (write_update [] fd (in_addr_value a b c d) (sin_port_value P)).sent
        = [0xff, 0xff, 0x43, 0x09, a, b, c, d, P / 256, P % 256,
          (0x43 + 0x09 + a + b + c + d + P / 256 + P % 256) % 256] := by
  have hreq : write_update_request (in_addr_value a b c d) (sin_port_value P)
      = ([0xff, 0xff, 0x43, 0x09, a, b, c, d, P / 256, P % 256,
          (0x43 + 0x09 + a + b + c + d + P / 256 + P % 256) % 256], 11) := by
    unfold write_update_request
    simp only []
    rw [ntohl_in_addr_value a b c d ha hb hc hd, ntohs_sin_port_value P hP,
      build_command_packet_eq]
    have e1 : (a * 2 ^ 24 + b * 2 ^ 16 + c * 2 ^ 8 + d) / 2 ^ 24 % 256 = a := by omega
    have e2 : (a * 2 ^ 24 + b * 2 ^ 16 + c * 2 ^ 8 + d) / 2 ^ 16 % 256 = b := by omega
    have e3 : (a * 2 ^ 24 + b * 2 ^ 16 + c * 2 ^ 8 + d) / 2 ^ 8 % 256 = c := by omega
    have e4 : (a * 2 ^ 24 + b * 2 ^ 16 + c * 2 ^ 8 + d) % 256 = d := by omega
    have e5 : P / 2 ^ 8 % 256 = P / 256 := by omega
    rw [e1, e2, e3, e4, e5]
    simp only [List.cons_append, List.nil_append, List.length_cons, List.length_nil,
      List.sum_cons, List.sum_nil, Prod.mk.injEq]
    refine ⟨?_, by norm_num⟩
    have hsum : (CMD_WRITE_UPDATE + (0 + 1 + 1 + 1 + 1 + 1 + 1 + 3) +
        (a + (b + (c + (d + (P / 256 + (P % 256 + 0))))))) % 256
        = (67 + 9 + a + b + c + d + P / 256 + P % 256) % 256 := by
      simp only [CMD_WRITE_UPDATE]
      omega
    rw [hsum]
  refine ⟨hreq, ?_⟩
  intro fd
  unfold write_update
  rw [hreq]
  simp only []
  unfold request_reply
  rw [safe_write_all _ _ (by simp)]
  simp only [ne_eq, not_true_eq_false, if_false]
  split <;> first | rfl | (split_ifs <;> first | rfl | (split <;> rfl))

/-- Witness of C24: the callback address 192.168.0.99 and the callback port 8080. -/
theorem write_update_request_bytes_witness :
    192 < 256 ∧ 168 < 256 ∧ 0 < 256 ∧ 99 < 256 ∧ 8080 < 65536 ∧
    (write_update_request (in_addr_value 192 168 0 99) (sin_port_value 8080)
      = ([0xff, 0xff, 0x43, 0x09, 192, 168, 0, 99, 8080 / 256, 8080 % 256,
          (0x43 + 0x09 + 192 + 168 + 0 + 99 + 8080 / 256 + 8080 % 256) % 256], 11) ∧
    ∀ fd : List SockEvent,
      (write_update [] fd (in_addr_value 192 168 0 99) (sin_port_value 8080)).sent
        = [0xff, 0xff, 0x43, 0x09, 192, 168, 0, 99, 8080 / 256, 8080 % 256,
          (0x43 + 0x09 + 192 + 168 + 0 + 99 + 8080 / 256 + 8080 % 256) % 256]) :=
  ⟨by decide, by decide, by decide, by decide, by decide,
    write_update_request_bytes 192 168 0 99 8080 (by decide) (by decide) (by decide)
      (by decide) (by decide)⟩

/-- C25 (failing input): when the first `write` of the request fails with EPIPE,
`safe_write` returns the number of bytes written, 0, and each of `read_station_mac`, `read_firmware_version` and
`write_update` returns this 0 at once, whatever the socket delivers: the value that
`write_update` returns when the device has accepted the request (here the reply
FF FF 43 04 00 47). When the socket breaks after three bytes, the value returned is 3. No
value below 0 is returned. -/
theorem control_write_failure_returns_zero :
    (∀ fd : List SockEvent,
      read_station_mac [SockWrite.broken] fd = ⟨ControlOutcome.returned 0, [], []⟩ ∧
      read_firmware_version [SockWrite.broken] fd = ⟨ControlOutcome.returned 0, [], []⟩ ∧
      write_update [SockWrite.broken] fd (in_addr_value 192 168 0 99) (sin_port_value 8080)
        = ⟨ControlOutcome.returned 0, [], []⟩ ∧
      write_update [SockWrite.short 2, SockWrite.broken] fd (in_addr_value 192 168 0 99)
          (sin_port_value 8080)
        = ⟨ControlOutcome.returned 3, [0xff, 0xff, 0x43], []⟩) ∧
    write_update [] [SockEvent.arrival 0xff [0xff, 0x43, 0x04, 0x00, 0x47]]
        (in_addr_value 192 168 0 99) (sin_port_value 8080)
      = ⟨ControlOutcome.returned 0,
          [0xff, 0xff, 0x43, 0x09, 192, 168, 0, 99, 31, 144, 0xc6], []⟩ := by
  refine ⟨fun fd => ⟨rfl, rfl, rfl, rfl⟩, ?_⟩
  decide

/-! ### Sessions reached through valid tokens -/

/-- A request line that the loop body handles up to its end is one of the five tokens. -/
theorem service_step_next_token (fd_user1 : List Nat) (fd_user2 : Option (List Nat))
    (s s1 : Session) (line : List Nat) (w : List (List Nat))
    (h : service_step fd_user1 fd_user2 s line = Step.next s1 w) :
    line ∈ [TOKEN_USER1, TOKEN_USER2, TOKEN_START, TOKEN_CONTINUE, TOKEN_END] := by
  unfold service_step at h
  rw [decode_token_eq] at h
  simp only [List.mem_cons, List.mem_singleton, List.not_mem_nil, or_false]
  by_cases h1 : line = TOKEN_USER1
  · exact Or.inl h1
  by_cases h2 : line = TOKEN_USER2
  · exact Or.inr (Or.inl h2)
  by_cases h3 : line = TOKEN_START
  · exact Or.inr (Or.inr (Or.inl h3))
  by_cases h4 : line = TOKEN_CONTINUE
  · exact Or.inr (Or.inr (Or.inr (Or.inl h4)))
  by_cases h5 : line = TOKEN_END
  · exact Or.inr (Or.inr (Or.inr (Or.inr h5)))
  rw [if_neg h1, if_neg h2, if_neg h3, if_neg h4, if_neg h5] at h
  exact Step.noConfusion h

/-- The loop of `do_firmware_service` over request lines that the loop body handles up to its
end: one iteration for every line. -/
theorem loop_run (fd_user1 : List Nat) (fd_user2 : Option (List Nat)) (k : Nat)
    (rest : List SockRead) : ∀ (lines : List (List Nat)) (s s1 : Session)
    (written written1 : List (List Nat)),
    session_run fd_user1 fd_user2 lines s written = some (s1, written1) →
    do_firmware_service_loop fd_user1 fd_user2 (lines.length + k) (request_lines lines rest) s
        written
      = do_firmware_service_loop fd_user1 fd_user2 k rest s1 written1 := by
  intro lines
  induction lines with
  | nil =>
    intro s s1 written written1 h
    simp only [session_run, Option.some.injEq, Prod.mk.injEq] at h
    obtain ⟨h1, h2⟩ := h
    subst h1 h2
    simp [request_lines]
  | cons line lines ih =>
    intro s s1 written written1 h
    rw [session_run] at h
    cases hstep : service_step fd_user1 fd_user2 s line with
    | next s2 w =>
      rw [hstep] at h
      simp only at h
      obtain ⟨linelen, hpos, hread⟩ := read_until_null_any_token line
        (service_step_next_token fd_user1 fd_user2 s s2 line w hstep)
        (request_lines lines rest)
      have hfuel : (line :: lines).length + k = (lines.length + k) + 1 := by
        simp only [List.length_cons]
        omega
      rw [hfuel, request_lines,
        loop_succ_of_read fd_user1 fd_user2 (lines.length + k) _ _ linelen line s written hread
          hpos, hstep]
      exact ih s2 s1 (written ++ w) written1 h
    | broke s2 w =>
      rw [hstep] at h
      exact Option.noConfusion h
    | returned r =>
      rw [hstep] at h
      exact Option.noConfusion h
    | exited code =>
      rw [hstep] at h
      exact Option.noConfusion h

/-- Request lines that the loop body handles up to its end have a byte each at least. -/
theorem session_run_length (fd_user1 : List Nat) (fd_user2 : Option (List Nat))
    (rest : List SockRead) : ∀ (lines : List (List Nat)) (s s1 : Session)
    (written written1 : List (List Nat)),
    session_run fd_user1 fd_user2 lines s written = some (s1, written1) →
    lines.length ≤ (request_lines lines rest).length := by
  intro lines
  induction lines with
  | nil =>
    intro s s1 written written1 _
    simp
  | cons line lines ih =>
    intro s s1 written written1 h
    rw [session_run] at h
    cases hstep : service_step fd_user1 fd_user2 s line with
    | next s2 w =>
      rw [hstep] at h
      simp only at h
      have hlen := ih s2 s1 (written ++ w) written1 h
      have htok := service_step_next_token fd_user1 fd_user2 s s2 line w hstep
      have hpos : 0 < line.length := by
        simp only [List.mem_cons, List.mem_singleton, List.not_mem_nil, or_false] at htok
        rcases htok with h | h | h | h | h <;> subst h <;> decide
      simp only [request_lines, List.length_append, sock_bytes, List.length_map,
        List.length_cons]
      simp only [sock_bytes] at hlen
      omega
    | broke s2 w =>
      rw [hstep] at h
      exact Option.noConfusion h
    | returned r =>
      rw [hstep] at h
      exact Option.noConfusion h
    | exited code =>
      rw [hstep] at h
      exact Option.noConfusion h

/-- The loop when the client closes the connection, possibly after bytes without a null. -/
theorem loop_closed_junk (fd_user1 : List Nat) (fd_user2 : Option (List Nat)) (fuel : Nat)
    (s : Session) (written : List (List Nat)) (junk : List Nat) (hnz : ∀ b ∈ junk, b ≠ 0)
    (hlen : junk.length < BUFSIZ) :
    do_firmware_service_loop fd_user1 fd_user2 (fuel + 1) (sock_bytes junk) s written
      = some ⟨written,
          ServiceOutcome.finished s.packets_sent s.bytes_sent (some (s.nextstate != GOT_END))⟩ := by
  rw [do_firmware_service_loop, read_until_null, read_until_null_loop_closed junk BUFSIZ [] hnz hlen]
  simp

/-- The loop body keeps `packets_sent` at 0 up to the request "start". -/
theorem service_step_packets (fd_user1 : List Nat) (fd_user2 : Option (List Nat))
    (s s1 : Session) (line : List Nat) (w : List (List Nat))
    (h : service_step fd_user1 fd_user2 s line = Step.next s1 w)
    (hinv : s.currstate = STATE_BASE ∨ s.currstate = GOT_USER1 ∨ s.currstate = GOT_USER2 →
      s.packets_sent = 0) :
    s1.currstate = STATE_BASE ∨ s1.currstate = GOT_USER1 ∨ s1.currstate = GOT_USER2 →
      s1.packets_sent = 0 := by
  obtain ⟨fwfd, packets_sent, bytes_sent, currstate, nextstate⟩ := s
  have htok := service_step_next_token fd_user1 fd_user2 _ s1 line w h
  simp only [List.mem_cons, List.mem_singleton, List.not_mem_nil, or_false] at htok
  simp only at hinv
  have hcases : currstate = 0 ∨ currstate = 1 ∨ currstate = 2 ∨ currstate = 3 ∨
      currstate = 4 ∨ currstate = 5 ∨ 6 ≤ currstate := by omega
  rcases hcases with c | c | c | c | c | c | c
  · subst c
    rcases htok with ht | ht | ht | ht | ht <;> subst ht <;>
      simp [service_step, decode_token_eq, service_transition, service_send] at h
    · obtain ⟨rfl, rfl⟩ := h
      simpa using hinv
    · cases fd_user2 with
      | none => simp at h
      | some image2 =>
        simp at h
        obtain ⟨rfl, rfl⟩ := h
        simpa using hinv
  · subst c
    rcases htok with ht | ht | ht | ht | ht <;> subst ht <;>
      simp [service_step, decode_token_eq, service_transition, service_send] at h
    cases fwfd with
    | none => simp at h
    | some f =>
      by_cases hz : f.data.length - f.offset = 0 <;> simp [hz] at h <;>
        obtain ⟨rfl, rfl⟩ := h <;> simp
  · subst c
    rcases htok with ht | ht | ht | ht | ht <;> subst ht <;>
      simp [service_step, decode_token_eq, service_transition, service_send] at h
    cases fwfd with
    | none => simp at h
    | some f =>
      by_cases hz : f.data.length - f.offset = 0 <;> simp [hz] at h <;>
        obtain ⟨rfl, rfl⟩ := h <;> simp
  · subst c
    rcases htok with ht | ht | ht | ht | ht <;> subst ht <;>
      simp [service_step, decode_token_eq, service_transition, service_send] at h
    · cases fwfd with
      | none => simp at h
      | some f =>
        by_cases hz : f.data.length - f.offset = 0 <;> simp [hz] at h <;>
          obtain ⟨rfl, rfl⟩ := h <;> simp
    · obtain ⟨rfl, rfl⟩ := h
      simp
  · subst c
    rcases htok with ht | ht | ht | ht | ht <;> subst ht <;>
      simp [service_step, decode_token_eq, service_transition, service_send] at h
    · cases fwfd with
      | none => simp at h
      | some f =>
        by_cases hz : f.data.length - f.offset = 0 <;> simp [hz] at h <;>
          obtain ⟨rfl, rfl⟩ := h <;> simp
    · obtain ⟨rfl, rfl⟩ := h
      simp
  · subst c
    rcases htok with ht | ht | ht | ht | ht <;> subst ht <;>
      simp [service_step, decode_token_eq, service_transition, service_send] at h
  · have c0 : ¬ currstate = 0 := by omega
    have c1 : ¬ currstate = 1 := by omega
    have c2 : ¬ currstate = 2 := by omega
    have c3 : ¬ currstate = 3 := by omega
    have c4 : ¬ currstate = 4 := by omega
    have c5 : ¬ currstate = 5 := by omega
    rcases htok with ht | ht | ht | ht | ht <;> subst ht <;>
      simp [service_step, decode_token_eq, service_transition, service_send, c0, c1, c2, c3, c4,
        c5] at h

theorem session_run_packets (fd_user1 : List Nat) (fd_user2 : Option (List Nat)) :
    ∀ (lines : List (List Nat)) (s s1 : Session) (written written1 : List (List Nat)),
    session_run fd_user1 fd_user2 lines s written = some (s1, written1) →
    (s.currstate = STATE_BASE ∨ s.currstate = GOT_USER1 ∨ s.currstate = GOT_USER2 →
      s.packets_sent = 0) →
    (s1.currstate = STATE_BASE ∨ s1.currstate = GOT_USER1 ∨ s1.currstate = GOT_USER2 →
      s1.packets_sent = 0) := by
  intro lines
  induction lines with
  | nil =>
    intro s s1 written written1 h hinv
    simp only [session_run, Option.some.injEq, Prod.mk.injEq] at h
    obtain ⟨h1, _⟩ := h
    subst h1
    exact hinv
  | cons line lines ih =>
    intro s s1 written written1 h hinv
    rw [session_run] at h
    cases hstep : service_step fd_user1 fd_user2 s line with
    | next s2 w =>
      rw [hstep] at h
      simp only at h
      exact ih s2 s1 (written ++ w) written1 h
        (service_step_packets fd_user1 fd_user2 s s2 line w hstep hinv)
    | broke s2 w =>
      rw [hstep] at h
      exact Option.noConfusion h
    | returned r =>
      rw [hstep] at h
      exact Option.noConfusion h
    | exited code =>
      rw [hstep] at h
      exact Option.noConfusion h

/-- C27: in every session state `s` reached from the start of `do_firmware_service` through
request lines that the loop body accepts, when the request is "start" or "continue", the
table lists it for the state of `s`, and the selected image has no bytes left at its offset (the
`read` returns 0), the loop body writes nothing, leaves the image, `packets_sent` and
`bytes_sent` as they are, moves to the state that the table gives, and reaches its end: the
loop goes on with the next request. -/
theorem zero_length_read_continues (fd_user1 : List Nat) (fd_user2 : Option (List Nat))
    (lines : List (List Nat)) (s : Session) (written : List (List Nat)) (line : List Nat)
    (target : Nat) (f : FwFile)
    (hrun : session_run fd_user1 fd_user2 lines initial_session [] = some (s, written))
    (hline : line = TOKEN_START ∨ line = TOKEN_CONTINUE)
    (ht : transition_table s.currstate line = some target)
    (hf : s.fwfd = some f) (hz : f.data.length ≤ f.offset) :
    service_step fd_user1 fd_user2 s line
      = Step.next ⟨some f, s.packets_sent, s.bytes_sent, target, target⟩ [] ∧
    ∀ (fuel : Nat) (rest : List SockRead) (out : List (List Nat)),
      do_firmware_service_loop fd_user1 fd_user2 (fuel + 1) (sock_bytes line ++ rest) s out
        = do_firmware_service_loop fd_user1 fd_user2 fuel rest
            ⟨some f, s.packets_sent, s.bytes_sent, target, target⟩ out := by
  have hinv := session_run_packets fd_user1 fd_user2 lines initial_session s [] written hrun
    (fun _ => rfl)
  have hzero : f.data.length - f.offset = 0 := by omega
  have hstep : service_step fd_user1 fd_user2 s line
      = Step.next ⟨some f, s.packets_sent, s.bytes_sent, target, target⟩ [] := by
    obtain ⟨fwfd, packets_sent, bytes_sent, currstate, nextstate⟩ := s
    simp only at hf ht hinv
    subst hf
    obtain ⟨data, offset⟩ := f
    simp only at hzero
    unfold transition_table at ht
    rcases hline with hl | hl <;> subst hl
    · simp only [reduceCtorEq, and_false, if_false, and_true, List.cons.injEq,
        OfNat.ofNat_ne_one, false_and] at ht
      split_ifs at ht with hc
      · simp only [Option.some.injEq] at ht
        subst ht
        have hp : packets_sent = 0 := hinv (Or.inr hc)
        subst hp
        rcases hc with hc | hc <;> subst hc <;>
          simp [service_step, decode_token_eq, service_transition, service_send, hzero]
    · simp only [reduceCtorEq, and_false, if_false, and_true, List.cons.injEq,
        OfNat.ofNat_ne_one, false_and] at ht
      split_ifs at ht with hc
      · simp only [Option.some.injEq] at ht
        subst ht
        rcases hc with hc | hc <;> subst hc <;>
          simp [service_step, decode_token_eq, service_transition, service_send, hzero]
  refine ⟨hstep, ?_⟩
  intro fuel rest out
  obtain ⟨linelen, hpos, hread⟩ := read_until_null_token line s.currstate target ht rest
  rw [loop_succ_of_read fd_user1 fd_user2 fuel _ rest linelen line s out hread hpos, hstep]
  simp

/-- Witness of C27: the request "start" after "user1.bin" for an image without bytes. -/
theorem zero_length_read_continues_witness :
    session_run [] none [TOKEN_USER1] initial_session []
      = some (⟨some ⟨[], 0⟩, 0, 0, GOT_USER1, GOT_USER1⟩, [[0, 0, 0, 0]]) ∧
    (TOKEN_START = TOKEN_START ∨ TOKEN_START = TOKEN_CONTINUE) ∧
    transition_table GOT_USER1 TOKEN_START = some GOT_START ∧
    (some (⟨[], 0⟩ : FwFile) = some ⟨[], 0⟩) ∧ ([] : List Nat).length ≤ 0 ∧
    (service_step [] none ⟨some ⟨[], 0⟩, 0, 0, GOT_USER1, GOT_USER1⟩ TOKEN_START
      = Step.next ⟨some ⟨[], 0⟩, 0, 0, GOT_START, GOT_START⟩ [] ∧
    ∀ (fuel : Nat) (rest : List SockRead) (out : List (List Nat)),
      do_firmware_service_loop [] none (fuel + 1) (sock_bytes TOKEN_START ++ rest)
          ⟨some ⟨[], 0⟩, 0, 0, GOT_USER1, GOT_USER1⟩ out
        = do_firmware_service_loop [] none fuel rest
            ⟨some ⟨[], 0⟩, 0, 0, GOT_START, GOT_START⟩ out) :=
  ⟨by decide, by decide, by decide, rfl, by decide,
    zero_length_read_continues [] none [TOKEN_USER1] ⟨some ⟨[], 0⟩, 0, 0, GOT_USER1, GOT_USER1⟩
      [[0, 0, 0, 0]] TOKEN_START GOT_START ⟨[], 0⟩ (by decide) (by decide) (by decide) rfl
      (by decide)⟩

/-! ### What `read_until_null` returns -/

/-- The loop of `read_until_null` on any input: the four ways in which it ends. -/
theorem read_until_null_loop_cases : ∀ (remain : Nat) (fd : List SockRead) (buf : List Nat),
    (∃ pre rest, (∀ b ∈ pre, b ≠ 0) ∧ pre.length < remain ∧
        fd = sock_bytes pre ++ SockRead.error :: rest ∧
        read_until_null_loop remain fd buf = (-1, buf ++ pre ++ [0], rest)) ∨
    (∃ pre, (∀ b ∈ pre, b ≠ 0) ∧ pre.length < remain ∧ fd = sock_bytes pre ∧
        read_until_null_loop remain fd buf = (0, buf ++ pre ++ [0], [])) ∨
    (∃ pre rest, (∀ b ∈ pre, b ≠ 0) ∧ pre.length < remain ∧
        fd = sock_bytes (pre ++ [0]) ++ rest ∧
        read_until_null_loop remain fd buf
          = (((buf.length + pre.length + 1 : Nat) : Int), buf ++ pre ++ [0], rest)) ∨
    (∃ pre rest, (∀ b ∈ pre, b ≠ 0) ∧ pre.length = remain ∧ fd = sock_bytes pre ++ rest ∧
        read_until_null_loop remain fd buf
          = (((buf.length + remain : Nat) : Int), buf ++ pre, rest)) := by
  intro remain
  induction remain with
  | zero =>
    intro fd buf
    refine Or.inr (Or.inr (Or.inr ⟨[], fd, ?_, rfl, ?_, ?_⟩))
    · intro b hb
      exact absurd hb (List.not_mem_nil b)
    · simp [sock_bytes]
    · simp [read_until_null_loop]
  | succ n ih =>
    intro fd buf
    cases fd with
    | nil =>
      refine Or.inr (Or.inl ⟨[], ?_, by simp, ?_, ?_⟩)
      · intro b hb
        exact absurd hb (List.not_mem_nil b)
      · simp [sock_bytes]
      · simp [read_until_null_loop]
    | cons e fd =>
      cases e with
      | error =>
        refine Or.inl ⟨[], fd, ?_, by simp, ?_, ?_⟩
        · intro b hb
          exact absurd hb (List.not_mem_nil b)
        · simp [sock_bytes]
        · simp [read_until_null_loop]
      | byte c =>
        by_cases hc : c = 0
        · subst hc
          refine Or.inr (Or.inr (Or.inl ⟨[], fd, ?_, by simp, ?_, ?_⟩))
          · intro b hb
            exact absurd hb (List.not_mem_nil b)
          · simp [sock_bytes]
          · simp [read_until_null_loop]
        · have hloop : read_until_null_loop (n + 1) (SockRead.byte c :: fd) buf
              = read_until_null_loop n fd (buf ++ [c]) := by
            simp [read_until_null_loop, hc]
          have hmem : ∀ pre : List Nat, (∀ b ∈ pre, b ≠ 0) → ∀ b ∈ c :: pre, b ≠ 0 := by
            intro pre hpre b hb
            rcases List.mem_cons.mp hb with h | h
            · rw [h]
              exact hc
            · exact hpre b h
          rw [hloop]
          rcases ih fd (buf ++ [c]) with ⟨pre, rest, hnz, hlen, hfd, hres⟩ |
            ⟨pre, hnz, hlen, hfd, hres⟩ | ⟨pre, rest, hnz, hlen, hfd, hres⟩ |
            ⟨pre, rest, hnz, hlen, hfd, hres⟩
          · refine Or.inl ⟨c :: pre, rest, hmem pre hnz, by simp; omega, ?_, ?_⟩
            · rw [hfd]
              simp [sock_bytes]
            · rw [hres]
              simp
          · refine Or.inr (Or.inl ⟨c :: pre, hmem pre hnz, by simp; omega, ?_, ?_⟩)
            · rw [hfd]
              simp [sock_bytes]
            · rw [hres]
              simp
          · refine Or.inr (Or.inr (Or.inl ⟨c :: pre, rest, hmem pre hnz, by simp; omega, ?_, ?_⟩))
            · rw [hfd]
              simp [sock_bytes]
            · rw [hres]
              simp
              omega
          · refine Or.inr (Or.inr (Or.inr ⟨c :: pre, rest, hmem pre hnz, by simp; omega, ?_, ?_⟩))
            · rw [hfd]
              simp [sock_bytes]
            · rw [hres]
              simp
              omega

/-- C28 (as stated) fails: with a buffer of two bytes and the input "abc" followed by a null,
`read_until_null` returns the positive count 2 with the bytes "ab" in the buffer; the last of
them is not a null, and the null has not been read. -/
theorem read_until_null_buffer_full :
    read_until_null (sock_bytes [97, 98, 99, 0]) 2 = (2, [97, 98], sock_bytes [99, 0]) := by
  decide

/-- C28 (amended): for every input and every buffer size `bufsiz > 0`, `read_until_null` ends
in one of four ways, given by the input. On a read error after fewer than `bufsiz` bytes, none
of them null, it returns -1. When the connection is closed after fewer than `bufsiz` bytes,
none of them null, it returns 0. On a null after fewer than `bufsiz` bytes without a null, it
returns the positive count `n` of the bytes read, the null included; the buffer holds these
`n` bytes in order and the null is the last and the only one among them. On `bufsiz` bytes
without a null, it returns the count `bufsiz` with these bytes in the buffer, none of which is
a null. In all cases the input after the bytes read is left unread. -/
theorem read_until_null_returns (fd : List SockRead) (bufsiz : Nat) (hpos : 0 < bufsiz) :
    (∃ pre rest, (∀ b ∈ pre, b ≠ 0) ∧ pre.length < bufsiz ∧
        fd = sock_bytes pre ++ SockRead.error :: rest ∧
        read_until_null fd bufsiz = (-1, pre ++ [0], rest)) ∨
    (∃ pre, (∀ b ∈ pre, b ≠ 0) ∧ pre.length < bufsiz ∧ fd = sock_bytes pre ∧
        read_until_null fd bufsiz = (0, pre ++ [0], [])) ∨
    (∃ pre rest, (∀ b ∈ pre, b ≠ 0) ∧ pre.length < bufsiz ∧
        fd = sock_bytes (pre ++ [0]) ++ rest ∧
        read_until_null fd bufsiz = (((pre.length + 1 : Nat) : Int), pre ++ [0], rest) ∧
        (0 : Int) < ((pre.length + 1 : Nat) : Int)) ∨
    (∃ pre rest, (∀ b ∈ pre, b ≠ 0) ∧ pre.length = bufsiz ∧ fd = sock_bytes pre ++ rest ∧
        read_until_null fd bufsiz = ((bufsiz : Int), pre, rest) ∧ (0 : Int) < (bufsiz : Int)) := by
  unfold read_until_null
  rcases read_until_null_loop_cases bufsiz fd [] with ⟨pre, rest, hnz, hlen, hfd, hres⟩ |
    ⟨pre, hnz, hlen, hfd, hres⟩ | ⟨pre, rest, hnz, hlen, hfd, hres⟩ |
    ⟨pre, rest, hnz, hlen, hfd, hres⟩
  · exact Or.inl ⟨pre, rest, hnz, hlen, hfd, by simpa using hres⟩
  · exact Or.inr (Or.inl ⟨pre, hnz, hlen, hfd, by simpa using hres⟩)
  · exact Or.inr (Or.inr (Or.inl ⟨pre, rest, hnz, hlen, hfd, by simpa using hres, by omega⟩))
  · exact Or.inr (Or.inr (Or.inr ⟨pre, rest, hnz, hlen, hfd, by simpa using hres, by omega⟩))

/-- Witness of C28: the request "end" followed by one more byte, for a buffer of 16 bytes. -/
theorem read_until_null_returns_witness :
    0 < 16 ∧
    ((∃ pre rest, (∀ b ∈ pre, b ≠ 0) ∧ pre.length < 16 ∧
        sock_bytes [101, 110, 100, 0, 115] = sock_bytes pre ++ SockRead.error :: rest ∧
        read_until_null (sock_bytes [101, 110, 100, 0, 115]) 16 = (-1, pre ++ [0], rest)) ∨
    (∃ pre, (∀ b ∈ pre, b ≠ 0) ∧ pre.length < 16 ∧
        sock_bytes [101, 110, 100, 0, 115] = sock_bytes pre ∧
        read_until_null (sock_bytes [101, 110, 100, 0, 115]) 16 = (0, pre ++ [0], [])) ∨
    (∃ pre rest, (∀ b ∈ pre, b ≠ 0) ∧ pre.length < 16 ∧
        sock_bytes [101, 110, 100, 0, 115] = sock_bytes (pre ++ [0]) ++ rest ∧
        read_until_null (sock_bytes [101, 110, 100, 0, 115]) 16
          = (((pre.length + 1 : Nat) : Int), pre ++ [0], rest) ∧
        (0 : Int) < ((pre.length + 1 : Nat) : Int)) ∨
    (∃ pre rest, (∀ b ∈ pre, b ≠ 0) ∧ pre.length = 16 ∧
        sock_bytes [101, 110, 100, 0, 115] = sock_bytes pre ++ rest ∧
        read_until_null (sock_bytes [101, 110, 100, 0, 115]) 16 = (((16 : Nat) : Int), pre, rest) ∧
        (0 : Int) < ((16 : Nat) : Int))) :=
  ⟨by decide, read_until_null_returns (sock_bytes [101, 110, 100, 0, 115]) 16 (by decide)⟩

/-! ### The capacity of the reply buffer and the end of the input -/

/-- The reply FF FF 43 04 00 47 to a call with `maxlen = more.length + 3`, when the bytes
`more` are queued behind the reply and arrive together with its last two bytes: the loop that
reads the rest asks for `maxlen - 1` bytes and stores all of them behind the header. -/
theorem receive_stores_queued (more : List Nat) (hmore : 4 ≤ more.length) :
    receive_reply_packet
        [SockEvent.arrival 0xff [0xff, 0x43, 0x04], SockEvent.arrival 0x00 (0x47 :: more)]
        ((more.length : Int) + 3)
      = ⟨ReceiveOutcome.returned ((more.length : Int) + 6),
          [0xff, 0xff, 0x43, 0x04, 0x00, 0x47] ++ more, []⟩ := by
  have hn : ((more.length : Int) + 3).toNat = (more.length + 2) + 1 := by omega
  have hscan : scan_loop (((more.length : Int) + 3).toNat) 0 []
      [SockEvent.arrival 0xff [0xff, 0x43, 0x04], SockEvent.arrival 0x00 (0x47 :: more)]
      = (1, 0xff, [0xff],
          [SockEvent.arrival 0xff [0x43, 0x04], SockEvent.arrival 0x00 (0x47 :: more)]) := by
    rw [hn]
    simp [scan_loop, sock_read]
  rw [receive_eq_of_scan _ _ _ _ _ _ hscan]
  have hhead : header_loop (4 - [0xff].length) [0xff]
      [SockEvent.arrival 0xff [0x43, 0x04], SockEvent.arrival 0x00 (0x47 :: more)]
      = Sum.inr ([0xff, 0xff, 0x43, 0x04], [SockEvent.arrival 0x00 (0x47 :: more)]) := by
    have hread : timed_read
        [SockEvent.arrival 0xff [0x43, 0x04], SockEvent.arrival 0x00 (0x47 :: more)]
        (4 - [0xff].length)
        = (3, [0xff, 0x43, 0x04], [SockEvent.arrival 0x00 (0x47 :: more)]) := by
      simp [timed_read, sock_read]
    have h3 : 4 - [0xff].length = 2 + 1 := rfl
    rw [h3, header_loop_succ 2 [0xff] _ 3 [0xff, 0x43, 0x04] _ (by simp) hread]
    simp only [show ¬ ((3 : Int) < 0) by norm_num, show ¬ ((3 : Int) = 0) by norm_num, if_false]
    exact header_loop_done 2 _ _ (by simp)
  rw [hhead]
  have hlen : ((more.length : Int) + 3 - (([0xff] : List Nat).length : Int)).toNat
      = more.length + 2 := by
    simp only [List.length_cons, List.length_nil]
    omega
  have hread : timed_read [SockEvent.arrival 0x00 (0x47 :: more)]
      ((more.length : Int) + 3 - (([0xff] : List Nat).length : Int)).toNat
      = (((more.length : Int) + 2), 0x00 :: 0x47 :: more, []) := by
    rw [hlen]
    have hdrop : (0x00 :: 0x47 :: more).drop (more.length + 2) = [] :=
      List.drop_eq_nil_iff.mpr (by simp)
    simp only [timed_read, sock_read]
    rw [hdrop]
    simp
    omega
  simp only [List.getD_cons_succ, List.getD_cons_zero, Nat.cast_ofNat, List.length_cons,
    List.length_nil]
  have hsize : ¬ ((4 : Int) > (more.length : Int) + 3 - ((0 + 1 : Nat) : Int) - 2) := by
    push_cast
    omega
  rw [if_neg (by norm_num), if_neg (by norm_num), if_neg hsize]
  have hfuel : ((4 : Int) - 2).toNat = 1 + 1 := rfl
  simp only [List.length_cons, List.length_nil] at hread
  rw [hfuel, rest_loop_succ 1 _ _ _ _ _ _ _ (by norm_num) hread]
  have h1 : ¬ ((more.length : Int) + 2 < 0) := by omega
  have h2 : ¬ ((more.length : Int) + 2 = 0) := by omega
  rw [if_neg h1, if_neg h2, rest_loop]
  have h3 : ¬ ((4 : Int) - 2 - ((more.length : Int) + 2) > 0) := by omega
  simp only [h3, if_false]
  simp
  omega

/-- C29 (failing input): for `maxlen = 8` and the reply FF FF 43 04 00 47 that arrives
together with the five bytes 01 02 03 04 05 queued behind it, `receive_reply_packet` stores 11 bytes into the
buffer and returns 11; for `maxlen = 1024`, the size of `response`, and 1021 bytes queued
behind the reply it stores 1027 bytes and returns 1027. The loop that reads the rest asks for
`maxlen` bytes (less the one counted for the first marker) at the offset 4, not for the
`remain` bytes that are missing. -/
theorem receive_overruns_buffer :
    receive_reply_packet
        [SockEvent.arrival 0xff [0xff, 0x43, 0x04, 0x00, 0x47, 1, 2, 3, 4, 5]] 8
      = ⟨ReceiveOutcome.returned 11, [0xff, 0xff, 0x43, 0x04, 0x00, 0x47, 1, 2, 3, 4, 5], []⟩ ∧
    ((receive_reply_packet
          [SockEvent.arrival 0xff [0xff, 0x43, 0x04],
            SockEvent.arrival 0x00 (0x47 :: List.replicate 1021 0)] 1024).outcome
        = ReceiveOutcome.returned 1027 ∧
      (receive_reply_packet
          [SockEvent.arrival 0xff [0xff, 0x43, 0x04],
            SockEvent.arrival 0x00 (0x47 :: List.replicate 1021 0)] 1024).packet.length
        = 1027) := by
  refine ⟨by decide, ?_⟩
  have h := receive_stores_queued (List.replicate 1021 0)
    (by rw [List.length_replicate]; norm_num)
  rw [List.length_replicate] at h
  have e1 : ((1021 : Nat) : Int) + 3 = 1024 := by norm_num
  have e2 : ((1021 : Nat) : Int) + 6 = 1027 := by norm_num
  rw [e1, e2] at h
  rw [h]
  refine ⟨rfl, ?_⟩
  simp only [List.length_append, List.length_cons, List.length_nil, List.length_replicate]

/-- C30 (failing input): when the input ends inside the header, here after the three bytes
FF FF 50, the `timed_read` of the loop that reads the header returns 0, which the loop takes for
progress: nothing is stored, the input is still at its end, and the next iteration is the
same, so `receive_reply_packet` does not return. When the input ends before the first marker
(shown for `maxlen = 4`) or inside the payload, the call returns -1. -/
theorem receive_hangs_in_header :
    receive_reply_packet [SockEvent.arrival 0xff [0xff, 0x50]] 1024
      = ⟨ReceiveOutcome.hangs, [0xff, 0xff, 0x50], []⟩ ∧
    timed_read [] (4 - [0xff, 0xff, 0x50].length) = (0, [], []) ∧
    receive_reply_packet [] 4
      = ⟨ReceiveOutcome.failed (ReceiveError.first_byte 0), [0, 0, 0, 0], []⟩ ∧
    receive_reply_packet [SockEvent.arrival 0xff [0xff, 0x50, 0x05, 0x01]] 1024
      = ⟨ReceiveOutcome.failed ReceiveError.closed, [0xff, 0xff, 0x50, 0x05, 0x01], []⟩ := by
  decide

/-! ### The session when the writes to the client can fail -/

/-- A `safe_write` none of whose calls of `write` meets a broken connection writes the whole
buffer. -/
theorem safe_write_loop_complete : ∀ (out : List SockWrite) (bufp sent : List Nat),
    (∀ w ∈ out, w ≠ SockWrite.broken) →
    ∃ out1, safe_write_loop out bufp sent = (((sent ++ bufp).length : Int), sent ++ bufp, out1) ∧
      ∀ w ∈ out1, w ≠ SockWrite.broken := by
  intro out
  induction out with
  | nil =>
    intro bufp sent _
    exact ⟨[], rfl, fun w hw => absurd hw (List.not_mem_nil w)⟩
  | cons w out ih =>
    intro bufp sent hout
    have hrest : ∀ x ∈ out, x ≠ SockWrite.broken :=
      fun x hx => hout x (List.mem_cons_of_mem _ hx)
    by_cases hpos : bufp.length > 0
    · cases w with
      | short n =>
        obtain ⟨out1, h1, h2⟩ := ih (bufp.drop (n + 1)) (sent ++ bufp.take (n + 1)) hrest
        refine ⟨out1, ?_, h2⟩
        rw [safe_write_loop, if_pos hpos]
        rw [h1, List.append_assoc, List.take_append_drop]
      | broken => exact absurd rfl (hout SockWrite.broken (List.mem_cons_self _ _))
      | failed =>
        obtain ⟨out1, h1, h2⟩ := ih bufp sent hrest
        refine ⟨out1, ?_, h2⟩
        rw [safe_write_loop, if_pos hpos]
        exact h1
    · have hnil : bufp = [] := List.length_eq_zero.mp (by omega)
      subst hnil
      refine ⟨w :: out, ?_, hout⟩
      simp [safe_write_loop]

theorem client_writes_complete (sigpipe_ignored : Bool) : ∀ (bufs : List (List Nat))
    (out : List SockWrite), (∀ w ∈ out, w ≠ SockWrite.broken) →
    ∃ out1, client_writes sigpipe_ignored out bufs = (false, bufs, out1) ∧
      ∀ w ∈ out1, w ≠ SockWrite.broken := by
  intro bufs
  induction bufs with
  | nil =>
    intro out hout
    exact ⟨out, rfl, hout⟩
  | cons buf bufs ih =>
    intro out hout
    obtain ⟨out1, h1, h2⟩ := safe_write_loop_complete out buf [] hout
    obtain ⟨out2, h3, h4⟩ := ih out1 h2
    refine ⟨out2, ?_, h4⟩
    have hsw : safe_write out buf (buf.length : Int) = ((buf.length : Int), buf, out1) := by
      unfold safe_write
      rw [Int.toNat_ofNat, List.take_length, h1]
      simp
    rw [client_writes, hsw]
    simp only [ne_eq, not_true_eq_false, false_and, if_false]
    rw [h3]

/-- On a socket none of whose calls of `write` meets a broken connection, the loop is the one
of `do_firmware_service_loop`. -/
theorem loop_on_socket_connected (fd_user1 : List Nat) (fd_user2 : Option (List Nat))
    (sigpipe_ignored : Bool) : ∀ (fuel : Nat) (sock : List SockRead) (out : List SockWrite)
    (s : Session) (written : List (List Nat)), (∀ w ∈ out, w ≠ SockWrite.broken) →
    do_firmware_service_loop_on_socket fd_user1 fd_user2 sigpipe_ignored fuel sock out s written
      = (do_firmware_service_loop fd_user1 fd_user2 fuel sock s written).map SocketEnd.ended := by
  intro fuel
  induction fuel with
  | zero =>
    intro sock out s written _
    rfl
  | succ fuel ih =>
    intro sock out s written hout
    rw [do_firmware_service_loop_on_socket, do_firmware_service_loop]
    obtain ⟨linelen, line, rest⟩ := read_until_null sock BUFSIZ
    simp only []
    by_cases hneg : linelen < 0
    · simp only [if_pos hneg, Option.map_some']
    · by_cases hzero : linelen = 0
      · simp only [if_neg hneg, if_pos hzero, Option.map_some']
      · simp only [if_neg hneg, if_neg hzero]
        cases hstep : service_step fd_user1 fd_user2 s line with
        | next s1 w =>
          obtain ⟨out1, h1, h2⟩ := client_writes_complete sigpipe_ignored w out hout
          simp only []
          rw [h1]
          exact ih rest out1 s1 (written ++ w) h2
        | broke s1 w =>
          obtain ⟨out1, h1, _⟩ := client_writes_complete sigpipe_ignored w out hout
          simp only []
          rw [h1]
          rfl
        | returned r => rfl
        | exited code => rfl

/-- The peer closes the connection, before "end", after request lines that the loop body has
accepted, all writes being taken to succeed. -/
theorem service_closed_connected (fd_user1 : List Nat) (fd_user2 : Option (List Nat))
    (lines : List (List Nat)) (s : Session) (written : List (List Nat)) (junk : List Nat)
    (hrun : session_run fd_user1 fd_user2 lines initial_session [] = some (s, written))
    (hend : s.nextstate ≠ GOT_END) (hnz : ∀ b ∈ junk, b ≠ 0) (hlen : junk.length < BUFSIZ) :
    do_firmware_service (request_lines lines (sock_bytes junk)) fd_user1 fd_user2
      = some ⟨written, ServiceOutcome.finished s.packets_sent s.bytes_sent (some true)⟩ := by
  unfold do_firmware_service
  have hle := session_run_length fd_user1 fd_user2 (sock_bytes junk) lines initial_session s []
    written hrun
  obtain ⟨k, hk⟩ : ∃ k, (request_lines lines (sock_bytes junk)).length + 1
      = lines.length + (k + 1) :=
    ⟨(request_lines lines (sock_bytes junk)).length - lines.length, by omega⟩
  rw [hk, loop_run fd_user1 fd_user2 (k + 1) (sock_bytes junk) lines initial_session s []
    written hrun, loop_closed_junk fd_user1 fd_user2 k s written junk hnz hlen]
  have hb : (s.nextstate != GOT_END) = true := by
    simp only [bne_iff_ne, ne_eq]
    exact hend
  rw [hb]

end Ecowitt
